import Mathlib

/-!
# social_prove: authentication middleware, credential codec and the services

A shallow embedding of the Go packages `pkg/user`, `pkg/claim`, `pkg/auth`, `pkg/pagination`,
of the user and post services (`pkg/user/service`, `pkg/post/service`), of the user handlers
(`pkg/user/handler`) and of the MongoDB repositories (`pkg/user/repository`,
`pkg/post/repository`), followed by the properties established about them.

Conventions of the embedding:

* a Go `interface{}` value is an `Iface`: its constructor is the dynamic type, so a
  type assertion `v.(T)` succeeds exactly on the constructor of `T`;
* a Go `error` is a `GoError`; the package-level sentinel errors are constructors,
  so two sentinels with the same text stay different values;
* an HTTP middleware either answers through `response.HTTPError` and returns, or
  calls `next.ServeHTTP` once: it is a function `Request → Outcome`;
* the wall clock, the signing key and the JWT library are explicit arguments;
* Go `int` is 64 bit: arithmetic that may overflow goes through `wrapInt`;
* a run-time panic (slice bounds out of range) is the result `none`;
* a Go function with results `(T, error)` gives a pair `T × Option GoError`, `none` for a
  nil error; a method that writes through a pointer receiver or argument also gives the
  value behind the pointer after the call;
* a service method is a computation over a `World`: the store behind its repository and
  the record of the repository calls made; time-outs and logging are left out;
* the libraries (`bcrypt`, the identity provider, `primitive.NewObjectID`, `time.Now`) are
  explicit arguments; a compiled regular expression is a `RegularExpression Char`, matched
  by its derivatives;
* a handler is a function from what it reads (the decoded body, the request, whether the
  request context is done, the method of the service) to what it writes;
* a MongoDB collection is the list of its documents, a document the list of its fields; the
  filters and update documents of the repositories are the `bson.M` literals of the source,
  a nil `bson.M` being the empty document; the store rejects a filter whose `$in` or `$nin`
  has no array, and otherwise finds, updates or deletes the first document that matches; a
  struct is stored by its `bson` tags, `omitempty` fields left out when they are zero.
-/

set_option autoImplicit false

/-! ## Primitive types -/

namespace primitive

/-- The driver type `primitive.ObjectID`, a `[12]byte`. -/
structure ObjectID where
  bytes : List (Fin 256)
  len : bytes.length = 12
  deriving DecidableEq

/-- One lower-case hexadecimal digit. -/
def hexDigit (n : Nat) : Char :=
  if n < 10 then Char.ofNat (48 + n) else Char.ofNat (87 + n)

/-- The method `ObjectID.Hex`: the 24 lower-case hexadecimal digits of the bytes. -/
def ObjectID.Hex (id : ObjectID) : String :=
  String.mk (id.bytes.flatMap fun b => [hexDigit (b.val / 16), hexDigit (b.val % 16)])

/-- The variable `NilObjectID`: the zero value, twelve zero bytes. -/
def NilObjectID : ObjectID := ⟨List.replicate 12 0, rfl⟩

/-- The method `ObjectID.IsZero`. -/
def ObjectID.IsZero (id : ObjectID) : Bool :=
  decide (id = NilObjectID)

/-- The value of one hexadecimal digit, upper or lower case, as `encoding/hex` reads it. -/
def fromHexChar (c : Char) : Option Nat :=
  if 48 ≤ c.toNat ∧ c.toNat ≤ 57 then some (c.toNat - 48)
  else if 97 ≤ c.toNat ∧ c.toNat ≤ 102 then some (c.toNat - 87)
  else if 65 ≤ c.toNat ∧ c.toNat ≤ 70 then some (c.toNat - 55)
  else none

/-- The function `hex.DecodeString`: `none` when the length is odd or a character is not a
hexadecimal digit. -/
def hexDecode : List Char → Option (List (Fin 256))
  | [] => some []
  | [_] => none
  | a :: b :: rest =>
    match fromHexChar a, fromHexChar b, hexDecode rest with
    | some hi, some lo, some tail => some (Fin.ofNat (hi * 16 + lo) :: tail)
    | _, _, _ => none

end primitive

namespace user

/-- The named type `type Role uint` of `pkg/user`. -/
structure Role where
  val : Nat
  deriving DecidableEq, Repr

/-- Constant `Client Role = iota`. -/
def Client : Role := ⟨0⟩
/-- Constant `Admin`. -/
def Admin : Role := ⟨1⟩
/-- Constant `Super`. -/
def Super : Role := ⟨2⟩

instance : LT Role := ⟨fun a b => a.val < b.val⟩
instance : LE Role := ⟨fun a b => a.val ≤ b.val⟩
instance (a b : Role) : Decidable (a < b) := inferInstanceAs (Decidable (a.val < b.val))
instance (a b : Role) : Decidable (a ≤ b) := inferInstanceAs (Decidable (a.val ≤ b.val))

end user

/-! ## Dynamic values and errors -/

/-- A Go `interface{}` value, tagged by its dynamic type. `float64`, `str`, `bool`,
`null`, `slice` and `object` are the dynamic types `encoding/json` produces when it
decodes into an `interface{}`; `uint`, `role` and `objectID` are the other dynamic
types this program stores in a context or asserts on. The payload of a `float64` is
kept as a rational: no code path of the program reads it. -/
inductive Iface where
  | null
  | bool (b : Bool)
  | float64 (v : ℚ)
  | str (s : String)
  | uint (n : Nat)
  | role (r : user.Role)
  | objectID (id : primitive.ObjectID)
  | slice (xs : List Iface)
  | object (kvs : List (String × Iface))

/-- Go `error` values: the sentinel errors of the packages `auth`, `claim` and `response`,
and the errors of the libraries (`jwt` for the JWT library, `lib` for the others: the
driver, `bcrypt`, the identity provider), told apart by their text. -/
inductive GoError where
  | auth_ErrUserNotAuthorized
  | auth_ErrInsufficientPrivileges
  | auth_ErrIDNotFound
  | auth_ErrIDNoValid
  | auth_ErrRoleNotFound
  | auth_ErrRoleNoValid
  | claim_ErrInsufficientPrivileges
  | claim_ErrInvalidToken
  | claim_ErrInvalidClaim
  | claim_ErrUserNotAuthorized
  | claim_ErrInvalidAutorizationFormat
  | jwt (msg : String)
  | response_ErrTimeout
  | response_ErrorNotFound
  | response_ErrorBadRequest
  | response_ErrorBadEmailOrPassword
  | response_ErrorUnauthorized
  | response_ErrorInternalServerError
  | response_ErrorUUIDNotFound
  | response_ErrorParsingUser
  | response_ErrInvalidID
  | response_ErrCouldNotInsert
  | response_ErrInvalidEmail
  | response_ErrCantFollowYou
  | lib (msg : String)
  deriving DecidableEq, Repr

/-- The method `Error()` of an error value: the text given to `errors.New`. -/
def GoError.Error : GoError → String
  | .auth_ErrUserNotAuthorized => "not authorized"
  | .auth_ErrInsufficientPrivileges => "insufficient privileges"
  | .auth_ErrIDNotFound => "user ID not found"
  | .auth_ErrIDNoValid => "user ID is not valid"
  | .auth_ErrRoleNotFound => "user role not found"
  | .auth_ErrRoleNoValid => "user role is not valid"
  | .claim_ErrInsufficientPrivileges => "Insufficient privileges"
  | .claim_ErrInvalidToken => "invalid token"
  | .claim_ErrInvalidClaim => "invalid claim"
  | .claim_ErrUserNotAuthorized => "not authorized"
  | .claim_ErrInvalidAutorizationFormat => "invalid autorization format"
  | .jwt msg => msg
  | .response_ErrTimeout => "timeout exceeded"
  | .response_ErrorNotFound => "Not Found"
  | .response_ErrorBadRequest => "Bad resquest"
  | .response_ErrorBadEmailOrPassword => "Bad email or password"
  | .response_ErrorUnauthorized => "Unauthorized"
  | .response_ErrorInternalServerError => "Interal server error"
  | .response_ErrorUUIDNotFound => "uid not found"
  | .response_ErrorParsingUser => "failed to parse user"
  | .response_ErrInvalidID => "invalid id"
  | .response_ErrCouldNotInsert => "Error could not insert"
  | .response_ErrInvalidEmail => "Error invalid email"
  | .response_ErrCantFollowYou => "Error you can\x27t follow you"
  | .lib msg => msg

/-! ## Requests, contexts and middleware outcomes -/

/-- A `context.Context` restricted to the entries keyed by `auth.Key`: the newest
entry comes first, as `context.WithValue` shadows older ones. -/
abbrev Context := List (String × Iface)

/-- The function `context.WithValue`. -/
def Context.WithValue (ctx : Context) (key : String) (val : Iface) : Context :=
  (key, val) :: ctx

/-- The method `Context.Value`: the newest value stored under `key`, nil if none. -/
def Context.Value : Context → String → Iface
  | [], _ => Iface.null
  | (k, v) :: rest, key => if k = key then v else Context.Value rest key

/-- What the middleware reads of an `*http.Request`: the `Authorization` header (absent,
or its first value), the request context, and the `id` segment of the routed URL. -/
structure Request where
  authorization : Option String
  ctx : Context
  urlID : String

/-- The call `r.Header.Get("Authorization")`: the empty string when the header is absent. -/
def Request.HeaderGetAuthorization (r : Request) : String :=
  r.authorization.getD ""

/-- The method `Request.WithContext`. -/
def Request.WithContext (r : Request) (ctx : Context) : Request :=
  { r with ctx := ctx }

/-- What a middleware does with a request: it writes `response.HTTPError(w, status, message)`
and returns without calling the next handler, or it calls `next.ServeHTTP(w, r)`. -/
inductive Outcome where
  | httpError (status : Nat) (message : String)
  | next (r : Request)

/-- Whether the next handler was invoked. -/
def Outcome.invokesNext : Outcome → Bool
  | .httpError _ _ => false
  | .next _ => true

/-- Chaining of middleware, as `With(m1).With(m2)` of the router does: the second runs on
the request the first hands on, and not at all when the first answered. -/
def Outcome.andThen (o : Outcome) (m : Request → Outcome) : Outcome :=
  match o with
  | .httpError status message => .httpError status message
  | .next r => m r

/-- Constant `http.StatusUnauthorized`. -/
def StatusUnauthorized : Nat := 401

/-! ## encoding/json, strings and the JWT library -/

/-- A JSON document. -/
inductive JSON where
  | null
  | bool (b : Bool)
  | num (v : ℚ)
  | str (s : String)
  | arr (xs : List JSON)
  | obj (kvs : List (String × JSON))

mutual
/-- What `encoding/json` stores when it decodes a document into an `interface{}`:
a number becomes a `float64`, never an integer type. -/
def JSON.decode : JSON → Iface
  | .null => .null
  | .bool b => .bool b
  | .num v => .float64 v
  | .str s => .str s
  | .arr xs => .slice (JSON.decodeList xs)
  | .obj kvs => .object (JSON.decodeFields kvs)
/-- Decoding of the elements of an array. -/
def JSON.decodeList : List JSON → List Iface
  | [] => []
  | x :: xs => JSON.decode x :: JSON.decodeList xs
/-- Decoding of the members of an object. -/
def JSON.decodeFields : List (String × JSON) → List (String × Iface)
  | [] => []
  | (k, v) :: kvs => (k, JSON.decode v) :: JSON.decodeFields kvs
end

namespace strings

/-- The function `strings.HasPrefix`. -/
def HasPrefix (s pre : String) : Bool :=
  pre.toList.isPrefixOf s.toList

/-- Splitting of a character sequence at every occurrence of `sep`. -/
def splitChars (sep : Char) : List Char → List (List Char)
  | [] => [[]]
  | c :: cs =>
    if c = sep then [] :: splitChars sep cs
    else match splitChars sep cs with
      | [] => [[c]]
      | seg :: segs => (c :: seg) :: segs

/-- The function `strings.Split` for a separator of one character: the segments of `s`
between the occurrences of `sep`, one more than there are occurrences. -/
def Split (s : String) (sep : Char) : List String :=
  (splitChars sep s.toList).map String.mk

end strings

namespace jwt

/-- The dynamic type of the field `Token.Claims`. `jwt.Parse` always decodes the payload
of the token, a JSON object, into a `MapClaims` (a `map[string]interface{}`). -/
inductive Claims where
  | MapClaims (payload : List (String × JSON))
  | Other

/-- The indexing `claims[key]` of a `MapClaims`: the decoded member, nil when absent. -/
def MapClaimsIndex (payload : List (String × JSON)) (key : String) : Iface :=
  match payload.lookup key with
  | some v => v.decode
  | none => .null

/-- The fields of a `*jwt.Token` the program reads. -/
structure Token where
  Valid : Bool
  Claims : Claims

/-- The two entry points of the JWT library the program calls, for the HS256 method:
`SignedString key payload` is `NewWithClaims(SigningMethodHS256, c).SignedString(key)`
for claims `c` that marshal to the JSON object `payload`; `Parse tokenString key now`
is `jwt.Parse` with a key function that returns `key`, at clock reading `now`. -/
structure Library where
  SignedString : String → List (String × JSON) → Except GoError String
  Parse : String → String → Int → Except GoError Token

/-- A library that accepts every token string as a valid token with the given payload. -/
def Library.fixed (payload : List (String × JSON)) : Library where
  SignedString := fun _ _ => .ok "t"
  Parse := fun _ _ _ => .ok ⟨true, .MapClaims payload⟩

end jwt

/-! ## pkg/claim -/

namespace claim

/-- The fields of `jwt.StandardClaims` the program sets; the others stay zero. -/
structure StandardClaims where
  ExpiresAt : Int := 0
  Issuer : String := ""
  deriving DecidableEq, Repr

/-- Type `Claim`: what goes in token claims. -/
structure Claim where
  StandardClaims : StandardClaims := {}
  ID : String
  Role : Nat
  deriving DecidableEq, Repr

/-- The JSON object `json.Marshal` makes of a `Claim`: the standard claims are
`omitempty`, `id` and `role` are always written. -/
def Claim.Marshal (c : Claim) : List (String × JSON) :=
  (if c.StandardClaims.ExpiresAt = 0 then [] else [("exp", JSON.num c.StandardClaims.ExpiresAt)])
  ++ (if c.StandardClaims.Issuer = "" then [] else [("iss", JSON.str c.StandardClaims.Issuer)])
  ++ [("id", JSON.str c.ID), ("role", JSON.num c.Role)]

/-- Function `GenerateToken`, at clock reading `now` (Unix seconds). -/
def GenerateToken (lib : jwt.Library) (now : Int) (signingString ID : String) (Role : Nat) :
    Except GoError String :=
  let claims : Claim :=
    { StandardClaims := { ExpiresAt := now + 3600, Issuer := "User auth" }
      ID := ID
      Role := Role }
  lib.SignedString signingString claims.Marshal

/-- Function `TokenFromAuthorization`. -/
def TokenFromAuthorization (r : Request) : Except GoError String :=
  let authorization := r.HeaderGetAuthorization
  if authorization = "" then .error .claim_ErrUserNotAuthorized
  else if !strings.HasPrefix authorization "Bearer" then
    .error .claim_ErrInvalidAutorizationFormat
  else
    match strings.Split authorization ' ' with
    | [_, token] => .ok token
    | _ => .error .claim_ErrInvalidAutorizationFormat

/-- Function `GetFromToken`, at clock reading `now`. -/
def GetFromToken (lib : jwt.Library) (now : Int) (tokenString signingString : String) :
    Except GoError Claim :=
  match lib.Parse tokenString signingString now with
  | .error err => .error err
  | .ok token =>
    if !token.Valid then .error .claim_ErrInvalidToken
    else match token.Claims with
      | .Other => .error .claim_ErrInvalidClaim
      | .MapClaims claims =>
        match jwt.MapClaimsIndex claims "role" with
        | .uint role =>
          match jwt.MapClaimsIndex claims "id" with
          | .str id => .ok { ID := id, Role := role }
          | _ => .error .claim_ErrInsufficientPrivileges
        | _ => .error .claim_ErrInsufficientPrivileges

end claim

/-! ## pkg/auth -/

namespace auth

/-- Context key `RoleKey`. -/
def RoleKey : String := "role"
/-- Context key `IDKey`. -/
def IDKey : String := "id"

/-- Function `GetID`: the user id of the request context, as a hex string. -/
def GetID (r : Request) : Except GoError String :=
  match r.ctx.Value IDKey with
  | .null => .error .auth_ErrIDNotFound
  | .objectID userID => .ok userID.Hex
  | _ => .error .auth_ErrIDNoValid

/-- Function `GetRole`: the user role of the request context. -/
def GetRole (r : Request) : Except GoError user.Role :=
  match r.ctx.Value RoleKey with
  | .null => .error .auth_ErrRoleNotFound
  | .role userRole => .ok userRole
  | _ => .error .auth_ErrRoleNoValid

/-- The request `Authenticator` hands to the next handler for a verified claim `c`:
`c.Role` (a `uint`) is stored under `RoleKey` and `c.ID` (a `string`) under `IDKey`. -/
def authenticated (r : Request) (c : claim.Claim) : Request :=
  let ctx := r.ctx.WithValue RoleKey (.uint c.Role)
  let ctx := ctx.WithValue IDKey (.str c.ID)
  r.WithContext ctx

/-- The handler function that `Authenticator` returns, with the function it calls to read the
claim of a token, `claim.GetFromToken`, as the argument `GetFromToken`. -/
def authenticatorFunc (GetFromToken : String → String → Except GoError claim.Claim)
    (signingString : String) (r : Request) : Outcome :=
  match claim.TokenFromAuthorization r with
  | .error err => .httpError StatusUnauthorized err.Error
  | .ok tokenString =>
    match GetFromToken tokenString signingString with
    | .error err => .httpError StatusUnauthorized err.Error
    | .ok c => .next (authenticated r c)

/-- Middleware `Authenticator`; `signingString` is the environment variable
`SIGNING_STRING`, read when the middleware is built. The claim of the token is read by
`claim.GetFromToken`. -/
def Authenticator (lib : jwt.Library) (signingString : String) (now : Int) (r : Request) :
    Outcome :=
  authenticatorFunc (claim.GetFromToken lib now) signingString r

/-- The closure `isInRoles` of `WithRole`. -/
def isInRoles (role : user.Role) : List user.Role → Bool
  | [] => false
  | r :: roles => if r = role then true else isInRoles role roles

/-- Middleware `WithRole(roles...)`. -/
def WithRole (roles : List user.Role) (r : Request) : Outcome :=
  match GetRole r with
  | .error _ => .httpError StatusUnauthorized GoError.auth_ErrInsufficientPrivileges.Error
  | .ok role =>
    if !isInRoles role roles then
      .httpError StatusUnauthorized GoError.auth_ErrInsufficientPrivileges.Error
    else
      .next r

/-- Middleware `WithID(id...)`. -/
def WithID (id : List String) (r : Request) : Outcome :=
  match GetID r with
  | .error _ => .httpError StatusUnauthorized GoError.auth_ErrUserNotAuthorized.Error
  | .ok userID =>
    let urlID := r.urlID
    match GetRole r with
    | .error _ => .httpError StatusUnauthorized GoError.auth_ErrUserNotAuthorized.Error
    | .ok userRole =>
      let checkID := match id with
        | first :: _ => first
        | [] => urlID
      if checkID ≠ userID ∧ userRole < user.Admin then
        .httpError StatusUnauthorized GoError.auth_ErrInsufficientPrivileges.Error
      else
        .next r

end auth

/-! ## Pagination of the user and post services -/

/-- The value of a Go `int` expression whose mathematical value is `x`: two's complement
wrap-around to 64 bits. -/
def wrapInt (x : Int) : Int :=
  (x + 2 ^ 63) % 2 ^ 64 - 2 ^ 63

/-- The elements of `xs[low:high]` when the bounds are in range. -/
def sliceElems {α : Type} (xs : List α) (low high : Nat) : List α :=
  (xs.drop low).take (high - low)

/-- The slice expression `xs[low:high]`: `none` is the run-time panic "slice bounds out of
range". The upper bound is checked against the length; Go checks it against the capacity,
which is at least the length, and `WithPagination` never passes a `high` above the length. -/
def sliceExpr {α : Type} (xs : List α) (low high : Int) : Option (List α) :=
  if 0 ≤ low ∧ low ≤ high ∧ high ≤ (xs.length : Int) then
    some (sliceElems xs low.toNat high.toNat)
  else
    none

namespace UserService

/-- The bounds `(start, end)` that `WithPagination` computes before it slices. -/
def paginationBounds (total page limit : Int) : Int × Int :=
  let limit := if limit < 0 then 0 else limit
  let page := if page < 0 then 0 else page
  let limit := if limit > total then total else limit
  let start := wrapInt (wrapInt (page - 1) * limit)
  let start := if start > total then total else start
  let end_ := wrapInt (start + limit)
  let end_ := if end_ > total then total else end_
  (start, end_)

/-- Method `UserService.WithPagination`: users with a pagination limit. -/
def WithPagination {α : Type} (users : List α) (page limit : Int) : Option (List α × Int) :=
  let total : Int := users.length
  let bounds := paginationBounds total page limit
  match sliceExpr users bounds.1 bounds.2 with
  | none => none
  | some newUsers => some (newUsers, total)

end UserService

namespace PostService

/-- The bounds `(start, end)` that `WithPagination` computes before it slices. -/
def paginationBounds (total page limit : Int) : Int × Int :=
  let limit := if limit < 0 then 0 else limit
  let page := if page < 0 then 0 else page
  let limit := if limit > total then total else limit
  let start := wrapInt (wrapInt (page - 1) * limit)
  let start := if start > total then total else start
  let end_ := wrapInt (start + limit)
  let end_ := if end_ > total then total else end_
  (start, end_)

/-- Method `PostService.WithPagination`: posts with a pagination limit. -/
def WithPagination {α : Type} (p : List α) (page limit : Int) : Option (List α × Int) :=
  let total : Int := p.length
  let bounds := paginationBounds total page limit
  match sliceExpr p bounds.1 bounds.2 with
  | none => none
  | some newUsers => some (newUsers, total)

end PostService

/-! ## Identifiers, time and the password hash library -/

namespace primitive

/-- The function `ObjectIDFromHex`: the object id written by `s`, an error unless `s` is 24
hexadecimal digits. -/
def ObjectIDFromHex (s : String) : Except GoError ObjectID :=
  match hexDecode s.toList with
  | none => .error (.lib "encoding/hex: invalid hex string")
  | some b =>
    if h : b.length = 12 then .ok ⟨b, h⟩
    else .error (.lib "the provided hex string is not a valid ObjectID")

end primitive

namespace time

/-- A `time.Time`, as a count of clock ticks; 0 stands for the zero value. -/
abbrev Time := Int

end time

namespace bcrypt

/-- The two functions of `golang.org/x/crypto/bcrypt` the program calls. The password
arguments are the strings whose bytes the program passes. `GenerateFromPassword` returns a
nil slice together with its error. -/
structure Library where
  GenerateFromPassword : String → Nat → Except GoError (List (Fin 256))
  CompareHashAndPassword : Option (List (Fin 256)) → String → Option GoError

/-- Constant `bcrypt.DefaultCost`. -/
def DefaultCost : Nat := 10

/-- A hash is exact when its verification accepts the password that was hashed and no
other. -/
def Library.Exact (lib : Library) : Prop :=
  ∀ (password : String) (cost : Nat) (hash : List (Fin 256)),
    lib.GenerateFromPassword password cost = .ok hash →
    ∀ candidate : String, lib.CompareHashAndPassword (some hash) candidate = none ↔
      candidate = password

end bcrypt

/-! ## pkg/user: the user model -/

namespace user

/-- Type `User`: the user model. A nil `HashPassword` is `none`. -/
structure User where
  ID : primitive.ObjectID := primitive.NilObjectID
  Email : String := ""
  Password : String := ""
  HashPassword : Option (List (Fin 256)) := none
  UID : String := ""
  FirstName : String := ""
  LastName : String := ""
  Country : String := ""
  State : String := ""
  City : String := ""
  Bio : String := ""
  Picture : String := ""
  Following : List primitive.ObjectID := []
  Role : Role := Client
  Active : Bool := false
  NotificationID : String := ""
  CreatedAt : time.Time := 0
  UpdatedAt : time.Time := 0
  deriving DecidableEq

/-- The loop of `getSatlForPassword`: `i` is the index the `range` clause yields, the byte
offset at which `char` starts in the UTF-8 encoding of the password. -/
def getSatlLoop : List Char → Nat → String → String → String × String
  | [], _, left, right => (left, right)
  | char :: rest, i, left, right =>
    if i % 2 = 0 then getSatlLoop rest (i + char.utf8Size) (left ++ String.singleton char) right
    else getSatlLoop rest (i + char.utf8Size) left (right ++ String.singleton char)

/-- Function `getSatlForPassword`. -/
def getSatlForPassword (password : String) : String :=
  let (left, right) := getSatlLoop password.toList 0 "" ""
  left ++ password ++ right

/-- Method `User.ComparePassword`: whether the raw password matches `HashPassword`. -/
def User.ComparePassword (lib : bcrypt.Library) (u : User) (password : String) : Bool :=
  let saltedPassword := getSatlForPassword password
  let err := lib.CompareHashAndPassword u.HashPassword saltedPassword
  err.isNone

/-- Method `User.EncryptPassword`: the user after the call, and the error returned. -/
def User.EncryptPassword (lib : bcrypt.Library) (u : User) : User × Option GoError :=
  let saltedPassword := getSatlForPassword u.Password
  match lib.GenerateFromPassword saltedPassword bcrypt.DefaultCost with
  | .error err => ({ u with HashPassword := none }, some err)
  | .ok hash => ({ u with HashPassword := some hash }, none)

end user

/-! ## regexp and the email pattern -/

namespace regexp

/-- The characters of a range `lo-hi` of a character class. -/
def charRange (lo hi : Char) : List Char :=
  (List.range (hi.toNat - lo.toNat + 1)).map fun i => Char.ofNat (lo.toNat + i)

/-- A character class `[...]`: any one of the characters listed. -/
def cls (cs : List Char) : RegularExpression Char :=
  cs.foldr (fun c r => RegularExpression.char c + r) 0

/-- The repetition `r+`. -/
def plus (r : RegularExpression Char) : RegularExpression Char :=
  r * r.star

/-- The option `r?`. -/
def opt (r : RegularExpression Char) : RegularExpression Char :=
  1 + r

/-- The bounded repetition `r{0,n}`. -/
def upTo : Nat → RegularExpression Char → RegularExpression Char
  | 0, _ => 1
  | n + 1, r => 1 + r * upTo n r

/-- The method `MatchString` for a pattern anchored by `^` and `$`: the whole text is in
the language of the expression between the anchors. -/
def MatchString (re : RegularExpression Char) (s : String) : Bool :=
  re.rmatch s.toList

end regexp

namespace user

/-- The class `[a-zA-Z0-9]`. -/
def alnumClass : List Char :=
  regexp.charRange 'a' 'z' ++ regexp.charRange 'A' 'Z' ++ regexp.charRange '0' '9'

/-- The class of the local part: `[a-zA-Z0-9]` and the punctuation of the pattern. -/
def localClass : List Char :=
  alnumClass ++ ".!#$%&\x27*+/=?^_\x60\x7b|\x7d~-".toList

/-- The class `[a-zA-Z0-9-]`. -/
def labelClass : List Char :=
  alnumClass ++ ['-']

/-- The sub-pattern of one domain label,
`[a-zA-Z0-9](?:[a-zA-Z0-9-]{0,61}[a-zA-Z0-9])?`. -/
def labelPattern : RegularExpression Char :=
  regexp.cls alnumClass * regexp.opt (regexp.upTo 61 (regexp.cls labelClass) * regexp.cls alnumClass)

/-- The constant `pattern` of `ValidateEmail`, between its anchors: the local part, `@`, a
label, and any number of groups of a dot and a label. -/
def pattern : RegularExpression Char :=
  regexp.plus (regexp.cls localClass) * RegularExpression.char '@' * labelPattern
    * (RegularExpression.char '.' * labelPattern).star

/-- Method `User.ValidateEmail`: confirm valid email format. -/
def User.ValidateEmail (u : User) : Bool :=
  regexp.MatchString pattern u.Email

end user

/-! ## The email format in the words of the specification -/

namespace spec

/-- A letter or a digit: `a` to `z`, `A` to `Z`, `0` to `9`. -/
def isLetterOrDigit (c : Char) : Prop :=
  (97 ≤ c.toNat ∧ c.toNat ≤ 122) ∨ (65 ≤ c.toNat ∧ c.toNat ≤ 90) ∨ (48 ≤ c.toNat ∧ c.toNat ≤ 57)

instance isLetterOrDigit.decidable : DecidablePred isLetterOrDigit := fun c => by
  unfold isLetterOrDigit
  infer_instance

/-- A character allowed in the local part of an address. -/
def isLocalChar (c : Char) : Prop :=
  isLetterOrDigit c ∨ c ∈ ".!#$%&\x27*+/=?^_\x60\x7b|\x7d~-".toList

instance isLocalChar.decidable : DecidablePred isLocalChar := fun c => by
  unfold isLocalChar
  infer_instance

/-- A domain label: 1 to 63 letters, digits or hyphens, beginning and ending with a letter
or a digit. -/
def validLabel (l : List Char) : Prop :=
  1 ≤ l.length ∧ l.length ≤ 63 ∧ (∀ c ∈ l, isLetterOrDigit c ∨ c = '-') ∧
  (∃ c ∈ l.head?, isLetterOrDigit c) ∧ (∃ c ∈ l.getLast?, isLetterOrDigit c)

instance validLabel.decidable : DecidablePred validLabel := fun l => by
  unfold validLabel
  infer_instance

/-- An address of the form `local@domain`: a non-empty local part of allowed characters,
and a domain whose labels, the segments between its dots, are all valid. -/
def validEmail (e : String) : Prop :=
  ∃ loc domain : List Char, e.toList = loc ++ '@' :: domain ∧ loc ≠ [] ∧
    (∀ c ∈ loc, isLocalChar c) ∧ ∀ l ∈ strings.splitChars '.' domain, validLabel l

end spec

/-! ## Repositories and the services that call them -/

/-- The state a service call runs in: the state of the store behind the repository, and
the repository calls made so far, oldest first. -/
structure World (σ : Type) (C : Type) where
  store : σ
  calls : List C

/-- One call of a repository method: `c` goes on the record and `f` runs on the store. -/
def repoCall {σ C α : Type} (c : C) (f : σ → α × σ) : StateM (World σ C) α :=
  fun w => ((f w.store).1, { store := (f w.store).2, calls := w.calls ++ [c] })

namespace user

/-- A call of a method of the interface `user.Repository`, with its arguments. -/
inductive RepoCall where
  | Create (u : User)
  | Update (role : Role) (id : primitive.ObjectID) (u : User)
  | GetAll
  | GetAllActive
  | GetByUID (uid : String)
  | GetByID (id : primitive.ObjectID)
  | GetByEmail (email : String)
  | FollowTo (followingID followerID : primitive.ObjectID)
  | UnfollowTo (followingID followerID : primitive.ObjectID)
  | Delete (role : Role) (id : primitive.ObjectID)
  | GetByRole (role : Role)
  deriving DecidableEq

/-- The interface `user.Repository` over a store of type `σ`: each method takes its
arguments and the store, and gives its results and the store afterwards. The methods that
receive a `*User` read it and do not write through it, as the repositories of the program
do. -/
structure Repository (σ : Type) where
  Create : User → σ → Option GoError × σ
  Update : Role → primitive.ObjectID → User → σ → Option GoError × σ
  GetAll : σ → (List User × Option GoError) × σ
  GetAllActive : σ → (List User × Option GoError) × σ
  GetByUID : String → σ → (User × Option GoError) × σ
  GetByID : primitive.ObjectID → σ → (User × Option GoError) × σ
  GetByEmail : String → σ → (User × Option GoError) × σ
  FollowTo : primitive.ObjectID → primitive.ObjectID → σ → Option GoError × σ
  UnfollowTo : primitive.ObjectID → primitive.ObjectID → σ → Option GoError × σ
  Delete : Role → primitive.ObjectID → σ → Option GoError × σ
  GetByRole : Role → σ → (List User × Option GoError) × σ

end user

namespace UserService

/-- A computation of the user service. -/
abbrev Run (σ : Type) (α : Type) := StateM (World σ user.RepoCall) α

/-- Method `UserService.Create`: the user behind the pointer after the call, and the error
returned. `newObjectID` is the value of `primitive.NewObjectID()`, `createdAt` and
`updatedAt` the two readings of `time.Now()`. -/
def Create {σ : Type} (repository : user.Repository σ) (hash : bcrypt.Library)
    (newObjectID : primitive.ObjectID) (createdAt updatedAt : time.Time) (u : user.User) :
    Run σ (user.User × Option GoError) := do
  if !u.ValidateEmail then
    return (u, some .response_ErrInvalidEmail)
  let (u, err) := if u.Password ≠ "" then u.EncryptPassword hash else (u, none)
  if err.isSome then
    return (u, some .response_ErrCouldNotInsert)
  let u := if u.ID.IsZero then { u with ID := newObjectID } else u
  let u := { u with Active := true }
  let u := { u with CreatedAt := createdAt }
  let u := { u with UpdatedAt := updatedAt }
  let err ← repoCall (.Create u) (repository.Create u)
  if err.isSome then
    return (u, some .response_ErrCouldNotInsert)
  let u := { u with Password := "" }
  return (u, none)

/-- Method `UserService.GetByEmail`. -/
def GetByEmail {σ : Type} (repository : user.Repository σ) (email : String) :
    Run σ (user.User × Option GoError) := do
  let (u, err) ← repoCall (.GetByEmail email) (repository.GetByEmail email)
  if err.isSome then
    return ({}, err)
  return (u, none)

/-- Method `UserService.LoginUser`: the user, the token and the error returned.
`signingString` is the environment variable `SIGNING_STRING`. -/
def LoginUser {σ : Type} (repository : user.Repository σ) (hash : bcrypt.Library)
    (lib : jwt.Library) (signingString : String) (now : Int) (u : user.User) :
    Run σ (user.User × String × Option GoError) := do
  if !u.ValidateEmail then
    return ({}, "", some .response_ErrorBadEmailOrPassword)
  let (matchUser, err) ← GetByEmail repository u.Email
  if err.isSome then
    return ({}, "", err)
  match claim.GenerateToken lib now signingString matchUser.ID.Hex matchUser.Role.val with
  | .error _ => return ({}, "", some .response_ErrorInternalServerError)
  | .ok tokenString =>
    if !matchUser.ComparePassword hash u.Password then
      return ({}, "", some .response_ErrorBadEmailOrPassword)
    return (matchUser, tokenString, none)

/-- Method `UserService.GetByID`. -/
def GetByID {σ : Type} (repository : user.Repository σ) (id : String) :
    Run σ (user.User × Option GoError) := do
  match primitive.ObjectIDFromHex id with
  | .error _ => return ({}, some .response_ErrInvalidID)
  | .ok objectID =>
    let (u, err) ← repoCall (.GetByID objectID) (repository.GetByID objectID)
    if err.isSome then
      return ({}, err)
    return (u, none)

/-- Method `UserService.Update`: update user by ID. -/
def Update {σ : Type} (repository : user.Repository σ) (toUpdateid currendUserID : String)
    (role : user.Role) (u : user.User) : Run σ (user.User × Option GoError) := do
  if role = user.Client then
    if currendUserID ≠ toUpdateid then
      return ({}, some .response_ErrorUnauthorized)
  match primitive.ObjectIDFromHex toUpdateid with
  | .error _ => return ({}, some .response_ErrInvalidID)
  | .ok objectID =>
    let err ← repoCall (.Update role objectID u) (repository.Update role objectID u)
    if err.isSome then
      return ({}, some .response_ErrorInternalServerError)
    let (updatedUser, err) ← GetByID repository toUpdateid
    if err.isSome then
      return ({}, err)
    return (updatedUser, none)

/-- Method `UserService.FollowTo`: add user to the following list. -/
def FollowTo {σ : Type} (repository : user.Repository σ) (followingID followerID : String) :
    Run σ (user.User × Option GoError) := do
  if followingID = followerID then
    return ({}, some .response_ErrCantFollowYou)
  match primitive.ObjectIDFromHex followingID with
  | .error _ => return ({}, some .response_ErrInvalidID)
  | .ok followingObjectID =>
    match primitive.ObjectIDFromHex followerID with
    | .error _ => return ({}, some .response_ErrInvalidID)
    | .ok followerObjectID =>
      let err ← repoCall (.FollowTo followingObjectID followerObjectID)
        (repository.FollowTo followingObjectID followerObjectID)
      if err.isSome then
        return ({}, err)
      let (u, err) ← GetByID repository followerID
      if err.isSome then
        return ({}, err)
      return (u, none)

/-- Method `UserService.UnfollowTo`: delete user of the following list. -/
def UnfollowTo {σ : Type} (repository : user.Repository σ) (followingID followerID : String) :
    Run σ (user.User × Option GoError) := do
  if followingID = followerID then
    return ({}, some .response_ErrCantFollowYou)
  match primitive.ObjectIDFromHex followingID with
  | .error _ => return ({}, some .response_ErrInvalidID)
  | .ok followingObjectID =>
    match primitive.ObjectIDFromHex followerID with
    | .error _ => return ({}, some .response_ErrInvalidID)
    | .ok followerObjectID =>
      let err ← repoCall (.UnfollowTo followingObjectID followerObjectID)
        (repository.UnfollowTo followingObjectID followerObjectID)
      if err.isSome then
        return ({}, err)
      let (u, err) ← GetByID repository followerID
      if err.isSome then
        return (u, err)
      return (u, none)

/-- Method `UserService.Delete`: remove a user by ID. -/
def Delete {σ : Type} (repository : user.Repository σ) (role : user.Role) (id : String) :
    Run σ (Option GoError) := do
  match primitive.ObjectIDFromHex id with
  | .error _ => return some .response_ErrInvalidID
  | .ok objectID =>
    let err ← repoCall (.Delete role objectID) (repository.Delete role objectID)
    if err.isSome then
      return err
    return none

end UserService

/-! ## pkg/post and its service -/

namespace osuser

/-- The type `User` of the standard package `os/user`, which `post.Post` points to. -/
structure User where
  Uid : String := ""
  Gid : String := ""
  Username : String := ""
  Name : String := ""
  HomeDir : String := ""
  deriving DecidableEq

end osuser

namespace post

/-- Type `Post`: the post model. A nil `User` pointer is `none`. -/
structure Post where
  ID : primitive.ObjectID := primitive.NilObjectID
  UserID : primitive.ObjectID := primitive.NilObjectID
  User : Option osuser.User := none
  Description : String := ""
  Badge : String := ""
  Pictures : List String := []
  Likes : List String := []
  CreatedAt : time.Time := 0
  UpdatedAt : time.Time := 0
  deriving DecidableEq

/-- A call of a method of the interface `post.Repository`, with its arguments. -/
inductive RepoCall where
  | GetAll
  | GetAllForUser (userID : primitive.ObjectID)
  | Create (p : Post)
  | GetByID (id : primitive.ObjectID)
  | Update (id : primitive.ObjectID) (p : Post)
  | Delete (id : primitive.ObjectID)
  | AddLike (fanID postID : primitive.ObjectID)
  | DeleteLike (fanID postID : primitive.ObjectID)
  deriving DecidableEq

/-- The interface `post.Repository` over a store of type `σ`. -/
structure Repository (σ : Type) where
  GetAll : σ → (List Post × Option GoError) × σ
  GetAllForUser : primitive.ObjectID → σ → (List Post × Option GoError) × σ
  Create : Post → σ → Option GoError × σ
  GetByID : primitive.ObjectID → σ → (Post × Option GoError) × σ
  Update : primitive.ObjectID → Post → σ → Option GoError × σ
  Delete : primitive.ObjectID → σ → Option GoError × σ
  AddLike : primitive.ObjectID → primitive.ObjectID → σ → Option GoError × σ
  DeleteLike : primitive.ObjectID → primitive.ObjectID → σ → Option GoError × σ

end post

namespace PostService

/-- A computation of the post service. -/
abbrev Run (σ : Type) (α : Type) := StateM (World σ post.RepoCall) α

/-- Method `PostService.GetByID`: returns a post by ID. -/
def GetByID {σ : Type} (repository : post.Repository σ) (id : String) :
    Run σ (post.Post × Option GoError) := do
  match primitive.ObjectIDFromHex id with
  | .error _ => return ({}, some .response_ErrInvalidID)
  | .ok objectID =>
    let (p, err) ← repoCall (.GetByID objectID) (repository.GetByID objectID)
    if err.isSome then
      return ({}, err)
    return (p, none)

/-- Method `PostService.GetAllForUser`: all posts of a user. -/
def GetAllForUser {σ : Type} (repository : post.Repository σ) (userID : String) :
    Run σ (List post.Post × Option GoError) := do
  match primitive.ObjectIDFromHex userID with
  | .error _ => return ([], some .response_ErrInvalidID)
  | .ok objectUserID =>
    let (posts, err) ← repoCall (.GetAllForUser objectUserID)
      (repository.GetAllForUser objectUserID)
    if err.isSome then
      return ([], err)
    return (posts, none)

/-- Method `PostService.Update`: update post by ID. -/
def Update {σ : Type} (repository : post.Repository σ) (toUpdateID currendUserID : String)
    (role : user.Role) (p : post.Post) : Run σ (post.Post × Option GoError) := do
  match primitive.ObjectIDFromHex toUpdateID with
  | .error _ => return ({}, some .response_ErrInvalidID)
  | .ok objectID =>
    if role = user.Client then
      let (vPost, err) ← GetByID repository toUpdateID
      if err.isSome then
        return ({}, err)
      if currendUserID ≠ vPost.UserID.Hex then
        return ({}, some .response_ErrorUnauthorized)
    let err ← repoCall (.Update objectID p) (repository.Update objectID p)
    if err.isSome then
      return ({}, some .response_ErrorInternalServerError)
    let (updatedPost, err) ← GetByID repository toUpdateID
    if err.isSome then
      return ({}, err)
    return (updatedPost, none)

/-- Method `PostService.Delete`: remove a post by ID. -/
def Delete {σ : Type} (repository : post.Repository σ) (toDeleteID currendUserID : String)
    (role : user.Role) : Run σ (Option GoError) := do
  match primitive.ObjectIDFromHex toDeleteID with
  | .error _ => return some .response_ErrInvalidID
  | .ok objectID =>
    if role = user.Client then
      let (vPost, err) ← GetByID repository toDeleteID
      if err.isSome then
        return err
      if currendUserID ≠ vPost.UserID.Hex then
        return some .response_ErrorUnauthorized
    let err ← repoCall (.Delete objectID) (repository.Delete objectID)
    if err.isSome then
      return err
    return none

/-- Method `PostService.AddLike`: add a like to a post. -/
def AddLike {σ : Type} (repository : post.Repository σ) (fanID postID : String) :
    Run σ (post.Post × Option GoError) := do
  match primitive.ObjectIDFromHex fanID with
  | .error _ => return ({}, some .response_ErrInvalidID)
  | .ok objectFanID =>
    match primitive.ObjectIDFromHex postID with
    | .error _ => return ({}, some .response_ErrInvalidID)
    | .ok objectPostID =>
      let err ← repoCall (.AddLike objectFanID objectPostID)
        (repository.AddLike objectFanID objectPostID)
      if err.isSome then
        return ({}, err)
      let (updatedPost, err) ← GetByID repository postID
      if err.isSome then
        return ({}, err)
      return (updatedPost, none)

/-- Method `PostService.DeleteLike`: delete a like from a post. -/
def DeleteLike {σ : Type} (repository : post.Repository σ) (fanID postID : String) :
    Run σ (post.Post × Option GoError) := do
  match primitive.ObjectIDFromHex fanID with
  | .error _ => return ({}, some .response_ErrInvalidID)
  | .ok objectFanID =>
    match primitive.ObjectIDFromHex postID with
    | .error _ => return ({}, some .response_ErrInvalidID)
    | .ok objectPostID =>
      let err ← repoCall (.DeleteLike objectFanID objectPostID)
        (repository.DeleteLike objectFanID objectPostID)
      if err.isSome then
        return ({}, err)
      let (updatedPost, err) ← GetByID repository postID
      if err.isSome then
        return ({}, err)
      return (updatedPost, none)

end PostService

/-! ## pkg/auth: the identity provider -/

namespace strings

/-- The text up to and including the first `sep`, and the text after it when there is a
`sep`. -/
def splitAfterFirst (sep : Char) : List Char → List Char × Option (List Char)
  | [] => ([], none)
  | c :: cs =>
    if c = sep then ([c], some cs)
    else ((c :: (splitAfterFirst sep cs).1), (splitAfterFirst sep cs).2)

/-- The function `strings.SplitAfterN` for a separator of one character and `n = 2`: the
text up to and including the first separator and the rest, or the whole text alone when it
has no separator. -/
def SplitAfterN2 (s : String) (sep : Char) : List String :=
  match splitAfterFirst sep s.toList with
  | (first, none) => [String.mk first]
  | (first, some rest) => [String.mk first, String.mk rest]

end strings

namespace auth

/-- The fields of the provider's `auth.UserRecord` the program reads. -/
structure UserRecord where
  DisplayName : String
  Email : String
  PhotoURL : String

/-- The method `GetUser` of the provider's client. -/
structure FirebaseClient where
  GetUser : String → Except GoError UserRecord

/-- Method `FirebaseAuth.GetFirebaseUser`: a user from the identity provider. -/
def GetFirebaseUser (client : FirebaseClient) (uid : String) : user.User × Option GoError :=
  match client.GetUser uid with
  | .error err => ({}, some err)
  | .ok ur =>
    let names := strings.SplitAfterN2 ur.DisplayName ' '
    let firstName := names.headD ""
    let lastName := if names.length = 2 then (names.drop 1).headD "" else ""
    ({ UID := uid, Email := ur.Email, FirstName := firstName, LastName := lastName,
       Picture := ur.PhotoURL, Role := user.Client }, none)

end auth

namespace UserService

/-- The user `Create` hands to the repository, from the user as it is after the hashing
step: the id, the active flag and the two time stamps are set. -/
def prepared (newObjectID : primitive.ObjectID) (createdAt updatedAt : time.Time)
    (hashed : user.User) : user.User :=
  { hashed with
    ID := if hashed.ID.IsZero then newObjectID else hashed.ID
    Active := true
    CreatedAt := createdAt
    UpdatedAt := updatedAt }

end UserService

/-! ## The identifiers and the salting scheme in the words of the specification -/

namespace spec

/-- A hexadecimal digit, upper or lower case. -/
def isHexDigit (c : Char) : Prop :=
  (48 ≤ c.toNat ∧ c.toNat ≤ 57) ∨ (97 ≤ c.toNat ∧ c.toNat ≤ 102) ∨ (65 ≤ c.toNat ∧ c.toNat ≤ 70)

/-- A well-formed identifier: 24 hexadecimal characters. -/
def wellFormedID (s : String) : Prop :=
  s.toList.length = 24 ∧ ∀ c ∈ s.toList, isHexDigit c

/-- The characters at even character positions, `c0 c2 c4 ...`. -/
def evenChars : List Char → List Char
  | [] => []
  | [c] => [c]
  | c :: _ :: rest => c :: evenChars rest

/-- The characters at odd character positions, `c1 c3 c5 ...`. -/
def oddChars : List Char → List Char
  | [] => []
  | [_] => []
  | _ :: c :: rest => c :: oddChars rest

end spec

/-! ## strconv and pkg/pagination -/

namespace strconv

/-- The value of a run of decimal digits, most significant first, on top of `acc`; `none`
when a character is not a decimal digit. -/
def digitsValue : List Char → Nat → Option Nat
  | [], acc => some acc
  | c :: cs, acc =>
    if '0' ≤ c ∧ c ≤ '9' then digitsValue cs (acc * 10 + (c.toNat - '0'.toNat)) else none

/-- The function `strconv.Atoi` of the standard library on a 64-bit platform: an optional
sign and then one decimal digit or more; a syntax error for any other string, a range error
when the value does not fit an `int`. -/
def Atoi (s : String) : Except GoError Int :=
  let signed : Bool × List Char :=
    match s.toList with
    | '-' :: rest => (true, rest)
    | '+' :: rest => (false, rest)
    | cs => (false, cs)
  if signed.2 = [] then
    .error (.lib ("strconv.Atoi: parsing " ++ s.quote ++ ": invalid syntax"))
  else
    match digitsValue signed.2 0 with
    | none => .error (.lib ("strconv.Atoi: parsing " ++ s.quote ++ ": invalid syntax"))
    | some n =>
      let v : Int := if signed.1 then -(n : Int) else (n : Int)
      if -2 ^ 63 ≤ v ∧ v < 2 ^ 63 then .ok v
      else .error (.lib ("strconv.Atoi: parsing " ++ s.quote ++ ": value out of range"))

end strconv

namespace pagination

/-- Function `GetPagination`: `(page, limit, ok)` from the request, where `limitStr` and
`pageStr` are what `r.URL.Query().Get` gives for `limit` and `page` (the empty string for a
parameter that is absent). -/
def GetPagination (limitStr pageStr : String) : Int × Int × Bool :=
  if limitStr = "" ∧ pageStr = "" then
    (0, 0, false)
  else
    let ok := true
    let limit : Int :=
      match strconv.Atoi limitStr with
      | .ok limit => limit
      | .error _ => 10
    let page : Int :=
      match strconv.Atoi pageStr with
      | .ok page => page
      | .error _ => 1
    (page, limit, ok)

end pagination

/-! ## pkg/user/handler -/

namespace http

/-- Constant `http.StatusOK`. -/
def StatusOK : Nat := 200
/-- Constant `http.StatusBadRequest`. -/
def StatusBadRequest : Nat := 400
/-- Constant `http.StatusNotFound`. -/
def StatusNotFound : Nat := 404
/-- Constant `http.StatusInternalServerError`. -/
def StatusInternalServerError : Nat := 500
/-- Constant `http.StatusBadGateway`. -/
def StatusBadGateway : Nat := 502

end http

namespace handler

/-- What a handler writes to the `http.ResponseWriter`: `response.HTTPError(w, status,
message)`, or a JSON document with a status, of which the token and the user are kept. -/
inductive Written where
  | httpError (status : Nat) (message : String)
  | json (status : Nat) (token : Option String) (u : Option user.User)
  deriving DecidableEq

/-- The status code written. -/
def Written.status : Written → Nat
  | .httpError status _ => status
  | .json status _ _ => status

/-- Method `Handler.LoginHandler`. `decoded` is what decoding the request body gives,
`ctxDone` whether the request context is done when the handler selects on it, `LoginUser`
the method of the service behind the handler. -/
def LoginHandler (decoded : Except GoError user.User) (ctxDone : Bool)
    (LoginUser : user.User → user.User × String × Option GoError) : Written :=
  match decoded with
  | .error _ => .httpError http.StatusBadRequest GoError.response_ErrorBadRequest.Error
  | .ok u =>
    if ctxDone then
      .httpError http.StatusBadGateway GoError.response_ErrTimeout.Error
    else
      match LoginUser u with
      | (storedUser, tokenString, none) => .json http.StatusOK (some tokenString) (some storedUser)
      | (_, _, some err) =>
        if err = .response_ErrorBadEmailOrPassword then
          .httpError http.StatusBadRequest err.Error
        else if err = .response_ErrorNotFound then
          .httpError http.StatusNotFound err.Error
        else
          .httpError http.StatusInternalServerError err.Error

/-- Method `Handler.UpdateHandler`; `Update` is the method of the service, applied to the
id of the URL, the id and the role of the request context, and the decoded user. -/
def UpdateHandler (decoded : Except GoError user.User) (r : Request) (ctxDone : Bool)
    (Update : String → String → user.Role → user.User → user.User × Option GoError) :
    Written :=
  match decoded with
  | .error _ => .httpError http.StatusBadRequest GoError.response_ErrorParsingUser.Error
  | .ok u =>
    let id := r.urlID
    match auth.GetID r with
    | .error _ => .httpError http.StatusBadRequest GoError.response_ErrorBadRequest.Error
    | .ok cu =>
      match auth.GetRole r with
      | .error _ => .httpError http.StatusBadRequest GoError.response_ErrorBadRequest.Error
      | .ok role =>
        if ctxDone then
          .httpError http.StatusBadGateway GoError.response_ErrTimeout.Error
        else
          match Update id cu role u with
          | (_, some err) => .httpError http.StatusNotFound err.Error
          | (updatedUser, none) => .json http.StatusOK none (some updatedUser)

/-- Method `Handler.FollowToHandler`. -/
def FollowToHandler (r : Request) (ctxDone : Bool)
    (FollowTo : String → String → user.User × Option GoError) : Written :=
  let followingID := r.urlID
  match auth.GetID r with
  | .error _ => .httpError http.StatusBadRequest GoError.response_ErrorBadRequest.Error
  | .ok followerID =>
    if ctxDone then
      .httpError http.StatusBadGateway GoError.response_ErrTimeout.Error
    else
      match FollowTo followingID followerID with
      | (_, some _) =>
        .httpError http.StatusBadRequest GoError.response_ErrorInternalServerError.Error
      | (followerUser, none) => .json http.StatusOK none (some followerUser)

/-- Method `Handler.DeleteHandler`. -/
def DeleteHandler (r : Request) (ctxDone : Bool)
    (Delete : user.Role → String → Option GoError) : Written :=
  let id := r.urlID
  match auth.GetRole r with
  | .error _ => .httpError http.StatusBadRequest GoError.response_ErrorBadRequest.Error
  | .ok role =>
    if ctxDone then
      .httpError http.StatusBadGateway GoError.response_ErrTimeout.Error
    else
      match Delete role id with
      | some err => .httpError http.StatusNotFound err.Error
      | none => .json http.StatusOK none none

end handler

/-! ## BSON documents and the document store behind the repositories -/

namespace bson

/-- A BSON value that is neither a document nor an array. A `user.Role`, an unsigned
integer, is stored as the number `int`. -/
inductive Scalar where
  | objectID (id : primitive.ObjectID)
  | string (s : String)
  | int (n : Int)
  | bool (b : Bool)
  | binary (b : List (Fin 256))
  | dateTime (t : time.Time)
  deriving DecidableEq

/-- What a field of a stored record holds: a scalar, or an array of scalars. -/
inductive Value where
  | scalar (v : Scalar)
  | array (vs : List Scalar)
  deriving DecidableEq

/-- A stored document: its fields in order. -/
abbrev D := List (String × Value)

/-- What a key of a `bson.M` literal of the repositories maps to: a value, or a `bson.M`
of values one level down, as under the key `following` of the filter of `FollowTo` and under
the operator `$set` of `Update`. -/
inductive Operand where
  | value (v : Value)
  | document (fields : List (String × Value))
  deriving DecidableEq

/-- A `bson.M` of the repositories: a filter or an update document. The nil `bson.M` is the
empty list: the driver writes a nil map as the empty document, as it writes an empty map. -/
abbrev M := List (String × Operand)

/-- A string field tagged `omitempty`: not written when the string is empty. -/
def omitEmpty (s : String) : Option Value :=
  if s = "" then none else some (.scalar (.string s))

/-- The fields of a `user.User` under the names of their `bson` tags, in the order of the
struct, each with what is written for it, `none` when nothing is: `Password` is tagged `-`
and has no field, `active` is always written, and every other field is tagged `omitempty`
and is written only when it is not the zero value of its type. The role `Client`, which is
0, is therefore not written. -/
def userFields (u : user.User) : List (String × Option Value) :=
  [("_id", if u.ID.IsZero then none else some (.scalar (.objectID u.ID))),
   ("email", omitEmpty u.Email),
   ("password",
      match u.HashPassword with
      | some (b :: bs) => some (.scalar (.binary (b :: bs)))
      | _ => none),
   ("uid", omitEmpty u.UID),
   ("first_name", omitEmpty u.FirstName),
   ("last_name", omitEmpty u.LastName),
   ("country", omitEmpty u.Country),
   ("state", omitEmpty u.State),
   ("city", omitEmpty u.City),
   ("bio", omitEmpty u.Bio),
   ("picture", omitEmpty u.Picture),
   ("following",
      if u.Following = [] then none else some (.array (u.Following.map Scalar.objectID))),
   ("role", if u.Role.val = 0 then none else some (.scalar (.int u.Role.val))),
   ("active", some (.scalar (.bool u.Active))),
   ("notification_id", omitEmpty u.NotificationID),
   ("created_at", if u.CreatedAt = 0 then none else some (.scalar (.dateTime u.CreatedAt))),
   ("updated_at", if u.UpdatedAt = 0 then none else some (.scalar (.dateTime u.UpdatedAt)))]

/-- The document made of the fields that are written. -/
def written : List (String × Option Value) → D
  | [] => []
  | (k, some v) :: rest => (k, v) :: written rest
  | (_, none) :: rest => written rest

/-- The document `bson.Marshal` makes of a `user.User`, which is what `InsertOne` stores. -/
def MarshalUser (u : user.User) : D :=
  written (userFields u)

end bson

namespace mongo

/-- The error `mongo.ErrNoDocuments`. -/
def ErrNoDocuments : GoError := .lib "mongo: no documents in result"

/-- The error of the server for an operator `$in` or `$nin` whose operand is not an array. -/
def ErrNeedsArray (op : String) : GoError := .lib ("(BadValue) " ++ op ++ " needs an array")

/-- The error of the server for an insert whose `_id` is already in the collection. -/
def ErrDuplicateKey : GoError := .lib "E11000 duplicate key error"

/-- The error of an update operator applied to a field it cannot be applied to. -/
def ErrWrite : GoError := .lib "write exception"

/-- A collection: its documents in the order the store finds them. -/
abbrev Collection := List bson.D

/-- Whether a stored field holds the scalar `v`: the field is `v`, or it is an array with
an element `v`. An absent field holds nothing. -/
def holds (stored : Option bson.Value) (v : bson.Scalar) : Bool :=
  match stored with
  | some (.scalar w) => decide (w = v)
  | some (.array ws) => decide (v ∈ ws)
  | none => false

/-- Whether a stored field meets the condition a filter puts on it: an equality, or one of
the operators `$in` and `$nin` with the array of the values to look for. -/
def meets (stored : Option bson.Value) (cond : bson.Operand) : Bool :=
  match cond with
  | .value (.scalar v) => holds stored v
  | .value (.array vs) => decide (stored = some (.array vs))
  | .document [(op, .array vs)] =>
    if op = "$in" then vs.any (holds stored)
    else if op = "$nin" then !(vs.any (holds stored))
    else false
  | .document _ => false

/-- The error of the server for a condition it does not accept: the operators `$in` and `$nin`
need an array, and a single value, which is what `FollowTo` and `UnfollowTo` of the user
repository give them, is rejected. -/
def conditionError : bson.Operand → Option GoError
  | .document [(op, .scalar _)] =>
    if op = "$in" ∨ op = "$nin" then some (ErrNeedsArray op) else none
  | _ => none

/-- The error of the server for a filter: that of its first condition that has one. -/
def filterError : bson.M → Option GoError
  | [] => none
  | (_, cond) :: rest =>
    match conditionError cond with
    | some err => some err
    | none => filterError rest

/-- Whether a document matches a filter: it meets the condition of every key. -/
def isMatch (filter : bson.M) (doc : bson.D) : Bool :=
  filter.all fun kc => meets (doc.lookup kc.1) kc.2

/-- The document with the field `k` set to `v`: in place when the field is there, at the
end otherwise. -/
def setField (k : String) (v : bson.Value) : bson.D → bson.D
  | [] => [(k, v)]
  | (k1, w) :: rest => if k1 = k then (k, v) :: rest else (k1, w) :: setField k v rest

/-- One update operator applied to the field `k` with the operand `v`: `$set`, `$push`,
`$addToSet` or `$pull`; `none` when the operator cannot be applied to what the field
holds. -/
def applyOperator (op k : String) (v : bson.Value) (doc : bson.D) : Option bson.D :=
  if op = "$set" then
    some (setField k v doc)
  else
    match v, doc.lookup k with
    | .scalar x, none =>
      if op = "$push" ∨ op = "$addToSet" then some (setField k (.array [x]) doc)
      else if op = "$pull" then some doc
      else none
    | .scalar x, some (.array xs) =>
      if op = "$push" then some (setField k (.array (xs ++ [x])) doc)
      else if op = "$addToSet" then
        some (if x ∈ xs then doc else setField k (.array (xs ++ [x])) doc)
      else if op = "$pull" then some (setField k (.array (xs.filter fun y => y ≠ x)) doc)
      else none
    | _, _ => none

/-- The fields of one operator applied in turn. -/
def applyFields (op : String) : List (String × bson.Value) → bson.D → Option bson.D
  | [], doc => some doc
  | (k, v) :: rest, doc =>
    match applyOperator op k v doc with
    | none => none
    | some doc1 => applyFields op rest doc1

/-- An update document applied to a stored document: every key is an operator with the
fields it applies to. -/
def applyUpdate : bson.M → bson.D → Option bson.D
  | [], doc => some doc
  | (op, .document fields) :: rest, doc =>
    match applyFields op fields doc with
    | none => none
    | some doc1 => applyUpdate rest doc1
  | (_, .value _) :: _, _ => none

/-- The first document that matches is updated; `ErrNoDocuments` when none matches. -/
def updateFirst (filter update : bson.M) : Collection → Option GoError × Collection
  | [] => (some ErrNoDocuments, [])
  | doc :: rest =>
    if isMatch filter doc then
      match applyUpdate update doc with
      | some doc1 => (none, doc1 :: rest)
      | none => (some ErrWrite, doc :: rest)
    else
      ((updateFirst filter update rest).1, doc :: (updateFirst filter update rest).2)

/-- The method `Collection.FindOneAndUpdate`, of which the repositories read `Err()`: the
server rejects the filter, or the first document that matches it is updated, and the call
fails when no document matches. -/
def Collection.FindOneAndUpdate (coll : Collection) (filter update : bson.M) :
    Option GoError × Collection :=
  match filterError filter with
  | some err => (some err, coll)
  | none => updateFirst filter update coll

/-- The collection without the first document that matches. -/
def deleteFirst (filter : bson.M) : Collection → Collection
  | [] => []
  | doc :: rest => if isMatch filter doc then rest else doc :: deleteFirst filter rest

/-- The method `Collection.DeleteOne`, of which the repositories read the error: the server
rejects the filter, or the first document that matches it is deleted; deleting nothing is no
error. -/
def Collection.DeleteOne (coll : Collection) (filter : bson.M) :
    Option GoError × Collection :=
  match filterError filter with
  | some err => (some err, coll)
  | none => (none, deleteFirst filter coll)

/-- The document a `FindOne` with this filter finds: none when the server rejects the filter
or no document matches. -/
def Collection.FindOne (coll : Collection) (filter : bson.M) : Option bson.D :=
  match filterError filter with
  | some _ => none
  | none => coll.find? (isMatch filter)

/-- The document an insert stores: the driver gives a document without `_id` a new one, in
front. -/
def withID (doc : bson.D) (newObjectID : primitive.ObjectID) : bson.D :=
  if (doc.lookup "_id").isSome then doc else ("_id", .scalar (.objectID newObjectID)) :: doc

/-- The method `Collection.InsertOne`, of which the repositories read the error: the document
is stored at the end, and the insert fails when its `_id` is already in the collection.
`newObjectID` is the id the driver generates. -/
def Collection.InsertOne (coll : Collection) (doc : bson.D)
    (newObjectID : primitive.ObjectID) : Option GoError × Collection :=
  if coll.any fun d => decide (d.lookup "_id" = (withID doc newObjectID).lookup "_id") then
    (some ErrDuplicateKey, coll)
  else
    (none, coll ++ [withID doc newObjectID])

end mongo

/-! ## pkg/user/repository and pkg/post/repository: the MongoDB repositories -/

namespace user.repository

/-- Method `Repository.Create`: create a new user. `newObjectID` is the id the driver
generates for a user without one. -/
def Create (newObjectID : primitive.ObjectID) (u : User) (coll : mongo.Collection) :
    Option GoError × mongo.Collection :=
  coll.InsertOne (bson.MarshalUser u) newObjectID

/-- The variable `filter` of `Repository.Update`: it stays nil for a role the `switch` has no
case for. -/
def updateFilter (role : Role) (id : primitive.ObjectID) : bson.M :=
  if role = Client then
    [("_id", .value (.scalar (.objectID id))),
     ("role", .value (.scalar (.int Client.val)))]
  else if role = Admin then
    [("_id", .value (.scalar (.objectID id))),
     ("role", .value (.scalar (.int Client.val)))]
  else if role = Super then
    [("_id", .value (.scalar (.objectID id)))]
  else
    []

/-- The variable `update` of `Repository.Update`; `now` is the reading of `time.Now()`. -/
def updateDocument (u : User) (now : time.Time) : List (String × bson.Value) :=
  [("first_name", .scalar (.string u.FirstName)),
   ("last_name", .scalar (.string u.LastName)),
   ("country", .scalar (.string u.Country)),
   ("state", .scalar (.string u.State)),
   ("city", .scalar (.string u.City)),
   ("bio", .scalar (.string u.Bio)),
   ("picture", .scalar (.string u.Picture)),
   ("updated_at", .scalar (.dateTime now))]

/-- Method `Repository.Update`: update user by ID. -/
def Update (now : time.Time) (role : Role) (id : primitive.ObjectID) (u : User)
    (coll : mongo.Collection) : Option GoError × mongo.Collection :=
  let filter := updateFilter role id
  let update := updateDocument u now
  coll.FindOneAndUpdate filter [("$set", .document update)]

/-- Method `Repository.FollowTo`: add a user id to the following array if not exist. -/
def FollowTo (followingID followerID : primitive.ObjectID) (coll : mongo.Collection) :
    Option GoError × mongo.Collection :=
  let filter : bson.M :=
    [("_id", .value (.scalar (.objectID followerID))),
     ("following", .document [("$nin", .scalar (.objectID followingID))])]
  let update : bson.M := [("$push", .document [("following", .scalar (.objectID followingID))])]
  match coll.FindOneAndUpdate filter update with
  | (some _, coll) => (some .response_ErrorInternalServerError, coll)
  | (none, coll) => (none, coll)

/-- Method `Repository.UnfollowTo`: delete a user id to the following array if exist. -/
def UnfollowTo (followingID followerID : primitive.ObjectID) (coll : mongo.Collection) :
    Option GoError × mongo.Collection :=
  let filter : bson.M :=
    [("_id", .value (.scalar (.objectID followerID))),
     ("following", .document [("$in", .scalar (.objectID followingID))])]
  let update : bson.M := [("$pull", .document [("following", .scalar (.objectID followingID))])]
  match coll.FindOneAndUpdate filter update with
  | (some _, coll) => (some .response_ErrorInternalServerError, coll)
  | (none, coll) => (none, coll)

/-- The variable `filter` of `Repository.Delete`: it stays nil for a role the `switch` has no
case for, `Client` among them. -/
def deleteFilter (role : Role) (id : primitive.ObjectID) : bson.M :=
  if role = Admin then
    [("_id", .value (.scalar (.objectID id))),
     ("role", .value (.scalar (.int Client.val)))]
  else if role = Super then
    [("_id", .value (.scalar (.objectID id)))]
  else
    []

/-- Method `Repository.Delete`: remove a user by ID. -/
def Delete (role : Role) (id : primitive.ObjectID) (coll : mongo.Collection) :
    Option GoError × mongo.Collection :=
  let filter := deleteFilter role id
  match coll.DeleteOne filter with
  | (some _, coll) => (some .response_ErrorInternalServerError, coll)
  | (none, coll) => (none, coll)

end user.repository

namespace post.repository

/-- Method `Repository.AddLike`: add a like to a post by ID. -/
def AddLike (fanID postID : primitive.ObjectID) (coll : mongo.Collection) :
    Option GoError × mongo.Collection :=
  let update : bson.M := [("$addToSet", .document [("likes", .scalar (.objectID fanID))])]
  match coll.FindOneAndUpdate [("_id", .value (.scalar (.objectID postID)))] update with
  | (some _, coll) => (some .response_ErrorInternalServerError, coll)
  | (none, coll) => (none, coll)

/-- Method `Repository.DeleteLike`: delete a like of a post by ID. -/
def DeleteLike (fanID postID : primitive.ObjectID) (coll : mongo.Collection) :
    Option GoError × mongo.Collection :=
  let update : bson.M := [("$pull", .document [("likes", .scalar (.objectID fanID))])]
  match coll.FindOneAndUpdate [("_id", .value (.scalar (.objectID postID)))] update with
  | (some _, coll) => (some .response_ErrorInternalServerError, coll)
  | (none, coll) => (none, coll)

end post.repository

namespace spec

/-- The id a stored record carries. -/
def storedID (doc : bson.D) : Option primitive.ObjectID :=
  match doc.lookup "_id" with
  | some (.scalar (.objectID id)) => some id
  | _ => none

/-- The role the program reads back from a stored record: that of the field `role`, and
`Client`, the zero value, when the record has no such field. -/
def storedRole (doc : bson.D) : Option user.Role :=
  match doc.lookup "role" with
  | none => some user.Client
  | some (.scalar (.int n)) => if 0 ≤ n then some ⟨n.toNat⟩ else none
  | some _ => none

/-- The ids an array field of a stored record holds: none for a field that is absent. -/
def storedSet (doc : bson.D) (k : String) : List bson.Scalar :=
  match doc.lookup k with
  | some (.array vs) => vs
  | _ => []

/-- The number of pages of a list of `n` elements under the limit `L`: `ceil(n / min(L, n))`,
and no pages when `n = 0`. -/
def pageCount (n L : Nat) : Nat :=
  if n = 0 then 0 else (n + min L n - 1) / min L n

end spec

/-! ## Sample data -/

namespace sample

/-- An object id, `0102030405060708090a0b0c` in hexadecimal. -/
def idA : primitive.ObjectID := ⟨[1, 2, 3, 4, 5, 6, 7, 8, 9, 10, 11, 12], rfl⟩

/-- Another object id, `1112131415161718191a1b1c` in hexadecimal. -/
def idB : primitive.ObjectID := ⟨[17, 18, 19, 20, 21, 22, 23, 24, 25, 26, 27, 28], rfl⟩

/-- A request on the URL id `target` whose context carries an object id and a role, the
way the handlers read them. -/
def identified (id : primitive.ObjectID) (role : user.Role) (target : String) : Request where
  authorization := none
  ctx := [(auth.IDKey, .objectID id), (auth.RoleKey, .role role)]
  urlID := target

/-- A request that carries only an `Authorization` header. -/
def withHeader (authorization : String) : Request where
  authorization := some authorization
  ctx := []
  urlID := ""

/-- The payload `GenerateToken` signs at clock reading 0 for the id `abc` and the role 0. -/
def payload : List (String × JSON) :=
  [("exp", .num 3600), ("iss", .str "User auth"), ("id", .str "abc"), ("role", .num 0)]

/-- A payload with a string id and no role. -/
def payloadNoRole : List (String × JSON) :=
  [("exp", .num 3600), ("iss", .str "User auth"), ("id", .str "abc")]

end sample

namespace sample

/-- Four bytes that hold the code of a character. -/
def charBytes (c : Char) : List (Fin 256) :=
  [Fin.ofNat (c.toNat / 16777216), Fin.ofNat (c.toNat / 65536 % 256),
    Fin.ofNat (c.toNat / 256 % 256), Fin.ofNat (c.toNat % 256)]

/-- The characters held by a sequence of groups of four bytes. -/
def bytesChars : List (Fin 256) → List Char
  | a :: b :: c :: d :: rest =>
    Char.ofNat (a.val * 16777216 + b.val * 65536 + c.val * 256 + d.val) :: bytesChars rest
  | _ => []

/-- A password hash library that stores the password itself, four bytes a character: its
verification accepts the hashed password and no other. -/
def plainHash : bcrypt.Library where
  GenerateFromPassword := fun password _ => .ok (password.toList.flatMap charBytes)
  CompareHashAndPassword := fun hash password =>
    if hash = some (password.toList.flatMap charBytes) then none
    else some (.lib "crypto/bcrypt: hashedPassword is not the hash of the given password")

end sample

namespace sample

/-- A user repository without a store: the reads answer `found`, the writes answer
`writeErr`. -/
def userRepository (found : user.User × Option GoError) (writeErr : Option GoError) :
    user.Repository Unit where
  Create := fun _ s => (writeErr, s)
  Update := fun _ _ _ s => (writeErr, s)
  GetAll := fun s => (([found.1], found.2), s)
  GetAllActive := fun s => (([found.1], found.2), s)
  GetByUID := fun _ s => (found, s)
  GetByID := fun _ s => (found, s)
  GetByEmail := fun _ s => (found, s)
  FollowTo := fun _ _ s => (writeErr, s)
  UnfollowTo := fun _ _ s => (writeErr, s)
  Delete := fun _ _ s => (writeErr, s)
  GetByRole := fun _ s => (([found.1], found.2), s)

/-- A post repository without a store: the reads answer `found`, the writes answer
`writeErr`. -/
def postRepository (found : post.Post × Option GoError) (writeErr : Option GoError) :
    post.Repository Unit where
  GetAll := fun s => (([found.1], found.2), s)
  GetAllForUser := fun _ s => (([found.1], found.2), s)
  Create := fun _ s => (writeErr, s)
  GetByID := fun _ s => (found, s)
  Update := fun _ _ s => (writeErr, s)
  Delete := fun _ s => (writeErr, s)
  AddLike := fun _ _ s => (writeErr, s)
  DeleteLike := fun _ _ s => (writeErr, s)

/-- The state of a service call before any repository call. -/
def start {C : Type} : World Unit C :=
  { store := (), calls := [] }

/-- The user with a password of the service tests. -/
def userWithPassword : user.User :=
  { Email := "user@example.com", Password := "123456", FirstName := "user", LastName := "test",
    Role := user.Client, Active := true }

/-- The user with a malformed email of the service tests. -/
def userWithIncorrectEmail : user.User :=
  { Email := "userexample.com", Password := "123456", FirstName := "user", LastName := "test",
    Role := user.Client }

/-- A user that arrives with a hash and no plaintext password. -/
def userWithHash : user.User :=
  { Email := "user@example.com", HashPassword := some [1] }

/-- An identity provider that knows one user, John Doe. -/
def johnDoe : auth.FirebaseClient where
  GetUser := fun _ => .ok { DisplayName := "John Doe", Email := "john@example.com", PhotoURL := "" }

end sample

namespace sample

/-- A Client with the id A, as `UserService.Create` hands it to the repository. -/
def client : user.User :=
  { ID := idA, Email := "a@example.com", Role := user.Client, Active := true }

/-- The stored record of the Client with the id A: the role, which is 0, is not written. -/
def clientRecord : bson.D :=
  [("_id", .scalar (.objectID idA)), ("email", .scalar (.string "a@example.com")),
   ("active", .scalar (.bool true))]

/-- The stored record of a user with the id B who follows nobody. -/
def newFollowerRecord : bson.D :=
  [("_id", .scalar (.objectID idB)), ("active", .scalar (.bool true))]

/-- The stored record of a post with the id A that nobody likes. -/
def postRecord : bson.D :=
  [("_id", .scalar (.objectID idA)), ("user_id", .scalar (.objectID idA)),
   ("description", .scalar (.string "hello"))]

end sample

/-! ## Properties of the gates -/

theorem auth.isInRoles_iff (role : user.Role) (roles : List user.Role) :
    auth.isInRoles role roles = true ↔ role ∈ roles := by
  induction roles with
  | nil => simp [auth.isInRoles]
  | cons r rs ih =>
    by_cases h : r = role
    · simp [auth.isInRoles, h]
    · have h2 : ¬ role = r := fun e => h e.symm
      simp [auth.isInRoles, h, h2, ih]

theorem auth.GetRole_of_role (r : Request) (role : user.Role)
    (h : r.ctx.Value auth.RoleKey = .role role) : auth.GetRole r = .ok role := by
  simp [auth.GetRole, h]

theorem auth.GetID_of_objectID (r : Request) (id : primitive.ObjectID)
    (h : r.ctx.Value auth.IDKey = .objectID id) : auth.GetID r = .ok id.Hex := by
  simp [auth.GetID, h]

/-- C1. Self-or-Privileged gate: for a request whose context carries the object id
`subject` and the role `role`, and for the target id (the first configured id when there is
one, the URL id otherwise), `WithID` calls the next handler with the request unchanged if the
subject's hex id is the target or the role is at least `Admin`, and otherwise answers 401
"insufficient privileges" without calling it; the roles are ordered Client < Admin < Super. -/
theorem WithID_self_or_privileged (r : Request) (id : List String)
    (subject : primitive.ObjectID) (role : user.Role)
    (hid : r.ctx.Value auth.IDKey = .objectID subject)
    (hrole : r.ctx.Value auth.RoleKey = .role role) :
    (auth.WithID id r = .next r ↔ (subject.Hex = id.headD r.urlID ∨ user.Admin ≤ role)) ∧
    (¬ (subject.Hex = id.headD r.urlID ∨ user.Admin ≤ role) →
      auth.WithID id r = .httpError 401 "insufficient privileges" ∧
      (auth.WithID id r).invokesNext = false) ∧
    (user.Client < user.Admin ∧ user.Admin < user.Super) := by
  have hlt : (role < user.Admin) ↔ ¬ (user.Admin ≤ role) := by
    show role.val < user.Admin.val ↔ ¬ (user.Admin.val ≤ role.val)
    omega
  have htarget : (match id with | first :: _ => first | [] => r.urlID) = id.headD r.urlID := by
    cases id <;> rfl
  refine ⟨?_, ?_, ?_⟩
  · simp only [auth.WithID, auth.GetID_of_objectID r subject hid,
      auth.GetRole_of_role r role hrole, htarget]
    generalize id.headD r.urlID = target
    by_cases h1 : target = subject.Hex
    · simp [h1]
    · have h1b : ¬ subject.Hex = target := fun e => h1 e.symm
      by_cases h2 : user.Admin ≤ role
      · have : ¬ role < user.Admin := fun c => (hlt.mp c) h2
        simp [h1, h2, this]
      · have : role < user.Admin := hlt.mpr h2
        simp [h1, h1b, h2, this]
  · simp only [auth.WithID, auth.GetID_of_objectID r subject hid,
      auth.GetRole_of_role r role hrole, htarget]
    generalize id.headD r.urlID = target
    intro hn
    have h1 : ¬ target = subject.Hex := fun e => hn (Or.inl e.symm)
    have h2 : role < user.Admin := hlt.mpr (fun c => hn (Or.inr c))
    simp [h1, h2, Outcome.invokesNext, StatusUnauthorized, GoError.Error]
  · exact ⟨by decide, by decide⟩

/-- Witness of C1: client A on its own id passes. -/
theorem WithID_self_or_privileged_witness :
    (auth.WithID [] (sample.identified sample.idA user.Client sample.idA.Hex)
      = .next (sample.identified sample.idA user.Client sample.idA.Hex)
      ↔ (sample.idA.Hex
          = ([] : List String).headD (sample.identified sample.idA user.Client sample.idA.Hex).urlID
        ∨ user.Admin ≤ user.Client)) :=
  (WithID_self_or_privileged (sample.identified sample.idA user.Client sample.idA.Hex) []
    sample.idA user.Client rfl rfl).1

/-- C2. Role gate: `WithRole` calls the next handler, with the request unchanged, exactly when
the context carries a value of type `user.Role` that is an element of the allow-list; in every
other case it answers 401 "insufficient privileges" without calling it. Membership is exact:
with the allow-list Client, Admin a request carrying the role Super is rejected. -/
theorem WithRole_exact_membership (roles : List user.Role) (r : Request) :
    (auth.WithRole roles r = .next r ↔
      ∃ role, r.ctx.Value auth.RoleKey = .role role ∧ role ∈ roles) ∧
    ((¬ ∃ role, r.ctx.Value auth.RoleKey = .role role ∧ role ∈ roles) →
      auth.WithRole roles r = .httpError 401 "insufficient privileges" ∧
      (auth.WithRole roles r).invokesNext = false) ∧
    (r.ctx.Value auth.RoleKey = .role user.Super →
      auth.WithRole [user.Client, user.Admin] r = .httpError 401 "insufficient privileges") := by
  refine ⟨?_, ?_, ?_⟩
  · cases h : r.ctx.Value auth.RoleKey <;>
      simp [auth.WithRole, auth.GetRole, h]
    rename_i role
    by_cases hm : role ∈ roles
    · simp [hm, (auth.isInRoles_iff role roles).mpr hm]
    · have : auth.isInRoles role roles = false := by
        cases hb : auth.isInRoles role roles
        · rfl
        · exact absurd ((auth.isInRoles_iff role roles).mp hb) hm
      simp [hm, this]
  · intro hn
    cases h : r.ctx.Value auth.RoleKey <;>
      simp [auth.WithRole, auth.GetRole, h, Outcome.invokesNext, StatusUnauthorized,
        GoError.Error]
    rename_i role
    have hm : role ∉ roles := fun hm => hn ⟨role, h, hm⟩
    have : auth.isInRoles role roles = false := by
      cases hb : auth.isInRoles role roles
      · rfl
      · exact absurd ((auth.isInRoles_iff role roles).mp hb) hm
    simp [this, Outcome.invokesNext]
  · intro h
    simp [auth.WithRole, auth.GetRole, h, auth.isInRoles, StatusUnauthorized, GoError.Error,
      user.Client, user.Admin, user.Super]

/-! ## Properties of the credential codec and of identity extraction -/

theorem JSON.decode_ne_uint (j : JSON) (n : Nat) : j.decode ≠ .uint n := by
  cases j <;> simp [JSON.decode]

theorem jwt.MapClaimsIndex_ne_uint (payload : List (String × JSON)) (key : String) (n : Nat) :
    jwt.MapClaimsIndex payload key ≠ .uint n := by
  unfold jwt.MapClaimsIndex
  cases payload.lookup key with
  | none => simp
  | some v => exact JSON.decode_ne_uint v n

/-- A token the library accepts as valid never yields a claim: the role assertion fails. -/
theorem claim.GetFromToken_of_valid (lib : jwt.Library) (now : Int)
    (tokenString signingString : String) (payload : List (String × JSON))
    (h : lib.Parse tokenString signingString now = .ok ⟨true, .MapClaims payload⟩) :
    claim.GetFromToken lib now tokenString signingString
      = .error .claim_ErrInsufficientPrivileges := by
  have hne := jwt.MapClaimsIndex_ne_uint payload "role"
  simp only [claim.GetFromToken, h]
  cases hv : jwt.MapClaimsIndex payload "role" <;> simp

/-- No token string makes `GetFromToken` return a claim. -/
theorem claim.GetFromToken_ne_ok (lib : jwt.Library) (now : Int)
    (tokenString signingString : String) (c : claim.Claim) :
    claim.GetFromToken lib now tokenString signingString ≠ .ok c := by
  unfold claim.GetFromToken
  cases hp : lib.Parse tokenString signingString now with
  | error e => simp
  | ok token =>
    obtain ⟨valid, claims⟩ := token
    cases valid
    · simp
    · cases claims with
      | Other => simp
      | MapClaims payload =>
        have hne := jwt.MapClaimsIndex_ne_uint payload "role"
        cases hv : jwt.MapClaimsIndex payload "role" <;> simp

/-- C3. Middleware chain composition, as the code has it: the request `Authenticator` hands
on for a verified claim stores the role as a `uint` and the id as a `string`, so `GetRole`
fails with `ErrRoleNoValid`, `GetID` fails with `ErrIDNoValid`, a Role gate answers 401
whatever its allow-list, and the chain of `Authenticator` and a Role gate never reaches the
next handler. -/
theorem Authenticator_identity_unreadable (r : Request) (c : claim.Claim)
    (roles : List user.Role) (lib : jwt.Library) (signingString : String) (now : Int) :
    auth.GetRole (auth.authenticated r c) = .error .auth_ErrRoleNoValid ∧
    auth.GetID (auth.authenticated r c) = .error .auth_ErrIDNoValid ∧
    auth.WithRole roles (auth.authenticated r c)
      = .httpError 401 "insufficient privileges" ∧
    ((auth.Authenticator lib signingString now r).andThen (auth.WithRole roles)).invokesNext
      = false := by
  have hrole : auth.GetRole (auth.authenticated r c) = .error .auth_ErrRoleNoValid := by
    simp [auth.GetRole, auth.authenticated, Request.WithContext, Context.WithValue,
      Context.Value, auth.RoleKey, auth.IDKey]
  have hid : auth.GetID (auth.authenticated r c) = .error .auth_ErrIDNoValid := by
    simp [auth.GetID, auth.authenticated, Request.WithContext, Context.WithValue,
      Context.Value, auth.IDKey]
  refine ⟨hrole, hid, ?_, ?_⟩
  · simp [auth.WithRole, hrole, StatusUnauthorized, GoError.Error]
  · unfold auth.Authenticator auth.authenticatorFunc
    cases claim.TokenFromAuthorization r with
    | error e => simp [Outcome.andThen, Outcome.invokesNext]
    | ok tokenString =>
      cases hg : claim.GetFromToken lib now tokenString signingString with
      | error e => simp [Outcome.andThen, Outcome.invokesNext, hg]
      | ok c2 => exact absurd hg (claim.GetFromToken_ne_ok lib now tokenString signingString c2)

/-- C4. Identity extraction short-circuit: whatever the function that reads the claim of a
token answers, the handler function of `Authenticator` calls the next handler exactly when
`TokenFromAuthorization` and then that function both succeed, and then on the request that
carries the claim; when the first fails, or the first succeeds and the second fails, it answers
401 with the message of that error and does not call the next handler. `Authenticator` is this
handler function with `claim.GetFromToken`, so all of it holds of `Authenticator`; and with a
reader that answers the claim of the id `abc` and the role 0, the header `Bearer tok` does reach
the next handler. -/
theorem Authenticator_short_circuit (lib : jwt.Library) (signingString : String) (now : Int)
    (r : Request) :
    (∀ GetFromToken : String → String → Except GoError claim.Claim,
      ((auth.authenticatorFunc GetFromToken signingString r).invokesNext = true ↔
        ∃ tokenString c, claim.TokenFromAuthorization r = .ok tokenString ∧
          GetFromToken tokenString signingString = .ok c) ∧
      (∀ tokenString c, claim.TokenFromAuthorization r = .ok tokenString →
        GetFromToken tokenString signingString = .ok c →
        auth.authenticatorFunc GetFromToken signingString r = .next (auth.authenticated r c)) ∧
      (∀ err, claim.TokenFromAuthorization r = .error err →
        auth.authenticatorFunc GetFromToken signingString r = .httpError 401 err.Error) ∧
      (∀ tokenString err, claim.TokenFromAuthorization r = .ok tokenString →
        GetFromToken tokenString signingString = .error err →
        auth.authenticatorFunc GetFromToken signingString r = .httpError 401 err.Error)) ∧
    auth.Authenticator lib signingString now r
      = auth.authenticatorFunc (claim.GetFromToken lib now) signingString r ∧
    ((auth.Authenticator lib signingString now r).invokesNext = true ↔
      ∃ tokenString c, claim.TokenFromAuthorization r = .ok tokenString ∧
        claim.GetFromToken lib now tokenString signingString = .ok c) ∧
    (∀ err, claim.TokenFromAuthorization r = .error err →
      auth.Authenticator lib signingString now r = .httpError 401 err.Error) ∧
    (∀ tokenString err, claim.TokenFromAuthorization r = .ok tokenString →
      claim.GetFromToken lib now tokenString signingString = .error err →
      auth.Authenticator lib signingString now r = .httpError 401 err.Error) ∧
    auth.authenticatorFunc (fun _ _ => .ok { ID := "abc", Role := 0 }) "secret"
        (sample.withHeader "Bearer tok")
      = .next (auth.authenticated (sample.withHeader "Bearer tok") { ID := "abc", Role := 0 }) := by
  have hall : ∀ GetFromToken : String → String → Except GoError claim.Claim,
      ((auth.authenticatorFunc GetFromToken signingString r).invokesNext = true ↔
        ∃ tokenString c, claim.TokenFromAuthorization r = .ok tokenString ∧
          GetFromToken tokenString signingString = .ok c) ∧
      (∀ tokenString c, claim.TokenFromAuthorization r = .ok tokenString →
        GetFromToken tokenString signingString = .ok c →
        auth.authenticatorFunc GetFromToken signingString r = .next (auth.authenticated r c)) ∧
      (∀ err, claim.TokenFromAuthorization r = .error err →
        auth.authenticatorFunc GetFromToken signingString r = .httpError 401 err.Error) ∧
      (∀ tokenString err, claim.TokenFromAuthorization r = .ok tokenString →
        GetFromToken tokenString signingString = .error err →
        auth.authenticatorFunc GetFromToken signingString r = .httpError 401 err.Error) := by
    intro GetFromToken
    refine ⟨?_, ?_, ?_, ?_⟩
    · unfold auth.authenticatorFunc
      cases ht : claim.TokenFromAuthorization r with
      | error e => simp [Outcome.invokesNext]
      | ok tokenString =>
        cases hg : GetFromToken tokenString signingString with
        | error e => simp [Outcome.invokesNext, hg]
        | ok c => simp [Outcome.invokesNext, hg]
    · intro tokenString c h1 h2
      simp [auth.authenticatorFunc, h1, h2]
    · intro err h
      simp [auth.authenticatorFunc, h, StatusUnauthorized]
    · intro tokenString err h1 h2
      simp [auth.authenticatorFunc, h1, h2, StatusUnauthorized]
  have hA := hall (claim.GetFromToken lib now)
  exact ⟨hall, rfl, hA.1, hA.2.2.1, hA.2.2.2, rfl⟩

/-- C5. Token round-trip, as the code has it: when the library signs the claims of
`GenerateToken` into `tokenString` and parses `tokenString` back, under the same key, as a
valid token with those claims, `GetFromToken` does not return the claim: it fails with the
`Insufficient privileges` error of the package, the role having been decoded as a `float64`. -/
theorem GetFromToken_GenerateToken_fails (lib : jwt.Library) (issued now : Int)
    (signingString ID tokenString : String) (Role : Nat)
    (hsign : claim.GenerateToken lib issued signingString ID Role = .ok tokenString)
    (hparse : lib.Parse tokenString signingString now = .ok ⟨true, .MapClaims
      (claim.Claim.Marshal { StandardClaims := { ExpiresAt := issued + 3600, Issuer := "User auth" }
                             ID := ID, Role := Role })⟩) :
    claim.GetFromToken lib now tokenString signingString
      = .error .claim_ErrInsufficientPrivileges ∧
    claim.GetFromToken lib now tokenString signingString ≠ .ok { ID := ID, Role := Role } ∧
    claim.GenerateToken lib issued signingString ID Role = .ok tokenString := by
  refine ⟨claim.GetFromToken_of_valid lib now tokenString signingString _ hparse, ?_, hsign⟩
  exact claim.GetFromToken_ne_ok lib now tokenString signingString _

/-- Witness of C5: the token for id `abc` and role 0, issued at clock reading 0 and read at
clock reading 1. -/
theorem GetFromToken_GenerateToken_fails_witness :
    claim.GetFromToken (jwt.Library.fixed sample.payload) 1 "t" "secret"
      = .error .claim_ErrInsufficientPrivileges ∧
    claim.GetFromToken (jwt.Library.fixed sample.payload) 1 "t" "secret"
      ≠ .ok { ID := "abc", Role := 0 } ∧
    claim.GenerateToken (jwt.Library.fixed sample.payload) 0 "secret" "abc" 0 = .ok "t" :=
  GetFromToken_GenerateToken_fails (jwt.Library.fixed sample.payload) 0 1 "secret" "abc" "t" 0
    rfl (by simp [jwt.Library.fixed, sample.payload, claim.Claim.Marshal])

/-- Counterexample to C6: a valid token whose claims hold a string id and no role is refused
with `ErrInsufficientPrivileges`, not with `ErrInvalidClaim`. -/
theorem GetFromToken_missing_role_not_ErrInvalidClaim :
    claim.GetFromToken (jwt.Library.fixed sample.payloadNoRole) 1 "t" "secret"
      = .error .claim_ErrInsufficientPrivileges ∧
    claim.GetFromToken (jwt.Library.fixed sample.payloadNoRole) 1 "t" "secret"
      ≠ .error .claim_ErrInvalidClaim := by
  have h := claim.GetFromToken_of_valid (jwt.Library.fixed sample.payloadNoRole) 1 "t" "secret"
    sample.payloadNoRole rfl
  rw [h]
  exact ⟨rfl, by simp⟩

/-- C6, amended. Token verification failure kind: for a token the library accepts as valid
(correctly signed, unexpired) whose claims lack a string `id` or lack a `role` that is an
unsigned integer, `GetFromToken` fails with the `ErrInsufficientPrivileges` error of the
package `claim`. -/
theorem GetFromToken_malformed_claims (lib : jwt.Library) (now : Int)
    (tokenString signingString : String) (payload : List (String × JSON))
    (hvalid : lib.Parse tokenString signingString now = .ok ⟨true, .MapClaims payload⟩)
    (_hlack : (¬ ∃ s : String, payload.lookup "id" = some (.str s)) ∨
      (¬ ∃ n : Nat, payload.lookup "role" = some (.num n))) :
    claim.GetFromToken lib now tokenString signingString
      = .error .claim_ErrInsufficientPrivileges := by
  have hne := jwt.MapClaimsIndex_ne_uint payload "role"
  simp only [claim.GetFromToken, hvalid]
  cases hv : jwt.MapClaimsIndex payload "role" <;> simp

/-- Witness of C6: the valid token whose claims hold no role. -/
theorem GetFromToken_malformed_claims_witness :
    claim.GetFromToken (jwt.Library.fixed sample.payloadNoRole) 1 "t" "secret"
      = .error .claim_ErrInsufficientPrivileges :=
  GetFromToken_malformed_claims (jwt.Library.fixed sample.payloadNoRole) 1 "t" "secret"
    sample.payloadNoRole rfl (Or.inr (by simp [sample.payloadNoRole, List.lookup]))

/-! ## Properties of the bearer header -/

theorem strings.splitChars_ne_nil (sep : Char) (cs : List Char) :
    strings.splitChars sep cs ≠ [] := by
  cases cs with
  | nil => simp [strings.splitChars]
  | cons c cs =>
    by_cases h : c = sep
    · simp [strings.splitChars, h]
    · cases hs : strings.splitChars sep cs <;> simp [strings.splitChars, h, hs]

theorem strings.splitChars_of_not_mem (sep : Char) (cs : List Char) (h : sep ∉ cs) :
    strings.splitChars sep cs = [cs] := by
  induction cs with
  | nil => rfl
  | cons c cs ih =>
    have hc : ¬ c = sep := fun e => h (by simp [e])
    have hcs : sep ∉ cs := fun m => h (List.mem_cons_of_mem _ m)
    simp [strings.splitChars, hc, ih hcs]

theorem strings.splitChars_append (sep : Char) (xs ys : List Char) (h : sep ∉ xs) :
    strings.splitChars sep (xs ++ sep :: ys) = xs :: strings.splitChars sep ys := by
  induction xs with
  | nil => simp [strings.splitChars]
  | cons c cs ih =>
    have hc : ¬ c = sep := fun e => h (by simp [e])
    have hcs : sep ∉ cs := fun m => h (List.mem_cons_of_mem _ m)
    simp [strings.splitChars, hc, ih hcs]

theorem strings.splitChars_eq_singleton (sep : Char) (cs v : List Char)
    (h : strings.splitChars sep cs = [v]) : cs = v ∧ sep ∉ v := by
  induction cs generalizing v with
  | nil =>
    simp [strings.splitChars] at h
    subst h
    simp
  | cons c cs ih =>
    by_cases hc : c = sep
    · simp [strings.splitChars, hc] at h
      exact absurd h.2 (strings.splitChars_ne_nil sep cs)
    · cases hs : strings.splitChars sep cs with
      | nil => exact absurd hs (strings.splitChars_ne_nil sep cs)
      | cons seg segs =>
        simp [strings.splitChars, hc, hs] at h
        obtain ⟨h1, h2⟩ := h
        subst h2
        obtain ⟨e, hn⟩ := ih seg hs
        subst h1
        subst e
        refine ⟨rfl, ?_⟩
        intro hm
        rcases List.mem_cons.mp hm with e | m
        · exact hc e.symm
        · exact hn m

theorem strings.splitChars_eq_pair (sep : Char) (cs u v : List Char) :
    strings.splitChars sep cs = [u, v] ↔ cs = u ++ sep :: v ∧ sep ∉ u ∧ sep ∉ v := by
  constructor
  · intro h
    induction cs generalizing u with
    | nil => simp [strings.splitChars] at h
    | cons c cs ih =>
      by_cases hc : c = sep
      · simp [strings.splitChars, hc] at h
        obtain ⟨h1, h2⟩ := h
        obtain ⟨e, hn⟩ := strings.splitChars_eq_singleton sep cs v h2
        subst h1
        subst e
        simp [hc, hn]
      · cases hs : strings.splitChars sep cs with
        | nil => exact absurd hs (strings.splitChars_ne_nil sep cs)
        | cons seg segs =>
          simp [strings.splitChars, hc, hs] at h
          obtain ⟨h1, h2⟩ := h
          subst h2
          obtain ⟨e, hn1, hn2⟩ := ih seg hs
          subst h1
          refine ⟨by simp [e], ?_, hn2⟩
          intro hm
          rcases List.mem_cons.mp hm with e2 | m
          · exact hc e2.symm
          · exact hn1 m
  · rintro ⟨e, hu, hv⟩
    subst e
    rw [strings.splitChars_append sep u v hu, strings.splitChars_of_not_mem sep v hv]

/-- The header values from which `TokenFromAuthorization` takes the token `token`:
`Bearer`, then any characters other than a space, then one space, then `token`, which holds
no space. -/
def BearerShape (authorization token : String) : Prop :=
  ∃ x : List Char, authorization.toList = "Bearer".toList ++ x ++ ' ' :: token.toList ∧
    ' ' ∉ x ∧ ' ' ∉ token.toList

theorem claim.TokenFromAuthorization_ok_iff (r : Request) (token : String) :
    claim.TokenFromAuthorization r = .ok token ↔ BearerShape r.HeaderGetAuthorization token := by
  unfold claim.TokenFromAuthorization BearerShape
  generalize r.HeaderGetAuthorization = a
  have hB : "Bearer".toList = ['B', 'e', 'a', 'r', 'e', 'r'] := rfl
  by_cases h0 : a = ""
  · subst h0
    simp only [if_true]
    constructor
    · intro h; cases h
    · rintro ⟨x, hx, -⟩
      have : ("" : String).toList = [] := rfl
      rw [this, hB] at hx
      simp at hx
  · simp only [h0, if_false]
    by_cases hp : strings.HasPrefix a "Bearer" = true
    · simp only [hp, Bool.not_true, Bool.false_eq_true, if_false]
      have hpre : "Bearer".toList <+: a.toList := by
        unfold strings.HasPrefix at hp
        exact List.isPrefixOf_iff_prefix.mp hp
      constructor
      · intro h
        unfold strings.Split at h
        match hs : strings.splitChars ' ' a.toList with
        | [] => rw [hs] at h; simp at h
        | [u] => rw [hs] at h; simp at h
        | u :: v :: w :: rest => rw [hs] at h; simp at h
        | [u, v] =>
          rw [hs] at h
          simp at h
          subst h
          obtain ⟨e, hu, hv⟩ := (strings.splitChars_eq_pair ' ' a.toList u v).mp hs
          have hupre : u <+: a.toList := ⟨' ' :: v, e.symm⟩
          rcases List.prefix_or_prefix_of_prefix hpre hupre with h1 | h1
          · obtain ⟨x, hx⟩ := h1
            refine ⟨x, ?_, ?_, hv⟩
            · rw [e, ← hx]
              rfl
            · intro hm
              exact hu (by rw [← hx]; exact List.mem_append_right _ hm)
          · obtain ⟨y, hy⟩ := h1
            obtain ⟨z, hz⟩ := hpre
            cases y with
            | nil =>
              refine ⟨[], ?_, by simp, hv⟩
              rw [e, ← hy]
              simp
            | cons c y =>
              exfalso
              rw [← hy, e] at hz
              simp at hz
              have hc : c = ' ' := hz.1
              subst hc
              have hmem : ' ' ∈ "Bearer".toList := by
                rw [← hy]
                simp
              rw [hB] at hmem
              simp at hmem
      · rintro ⟨x, hx, hx1, hx2⟩
        have hsplit : strings.splitChars ' ' a.toList = ["Bearer".toList ++ x, token.toList] := by
          apply (strings.splitChars_eq_pair ' ' a.toList _ _).mpr
          refine ⟨hx, ?_, hx2⟩
          intro hm
          rcases List.mem_append.mp hm with m | m
          · rw [hB] at m
            simp at m
          · exact hx1 m
        unfold strings.Split
        rw [hsplit]
        rfl
    · simp only [hp, Bool.not_false, if_true]
      constructor
      · intro h; cases h
      · rintro ⟨x, hx, -⟩
        exfalso
        apply hp
        unfold strings.HasPrefix
        apply List.isPrefixOf_iff_prefix.mpr
        exact ⟨x ++ ' ' :: token.toList, by rw [hx]; simp⟩

theorem claim.TokenFromAuthorization_error (r : Request) (err : GoError)
    (h : claim.TokenFromAuthorization r = .error err) :
    (r.HeaderGetAuthorization = "" ∧ err = .claim_ErrUserNotAuthorized) ∨
    (r.HeaderGetAuthorization ≠ "" ∧ err = .claim_ErrInvalidAutorizationFormat) := by
  unfold claim.TokenFromAuthorization at h
  by_cases h0 : r.HeaderGetAuthorization = ""
  · simp only [h0, if_true] at h
    left
    exact ⟨h0, by cases h; rfl⟩
  · right
    refine ⟨h0, ?_⟩
    simp only [h0, if_false] at h
    split at h
    · cases h; rfl
    · split at h
      · cases h
      · cases h; rfl

/-- C7. Bearer header round-trip: for every token string `t` without a space character
(empty or not), `TokenFromAuthorization` on a request whose `Authorization` header is
`Bearer`, one space and `t` returns `t` and no error. -/
theorem TokenFromAuthorization_bearer (t : String) (ctx : Context) (urlID : String)
    (hspace : ' ' ∉ t.toList) :
    claim.TokenFromAuthorization
      { authorization := some ("Bearer " ++ t), ctx := ctx, urlID := urlID } = .ok t := by
  apply (claim.TokenFromAuthorization_ok_iff _ t).mpr
  refine ⟨[], ?_, by simp, hspace⟩
  show ("Bearer " ++ t).data = "Bearer".toList ++ [] ++ ' ' :: t.data
  rw [String.data_append]
  rfl

/-- Witness of C7: the token of the repository's test. -/
theorem TokenFromAuthorization_bearer_witness :
    ' ' ∉ "dfsds2s2s".toList ∧
    claim.TokenFromAuthorization
      { authorization := some ("Bearer " ++ "dfsds2s2s"), ctx := [], urlID := "" }
        = .ok "dfsds2s2s" :=
  ⟨by decide, TokenFromAuthorization_bearer "dfsds2s2s" [] "" (by decide)⟩

/-- Counterexample to C8: the header `Bearer` followed by one space and nothing else is not
refused, it yields the empty token; and a header whose first word only begins with `Bearer`
is not refused either. -/
theorem TokenFromAuthorization_accepts_other_shapes :
    claim.TokenFromAuthorization (sample.withHeader "Bearer ") = .ok "" ∧
    claim.TokenFromAuthorization (sample.withHeader "Bearerx tok") = .ok "tok" := by
  constructor
  · apply (claim.TokenFromAuthorization_ok_iff _ _).mpr
    exact ⟨[], rfl, by simp, by decide⟩
  · apply (claim.TokenFromAuthorization_ok_iff _ _).mpr
    exact ⟨['x'], rfl, by decide, by decide⟩

/-- C8, amended. Bearer header rejection: `TokenFromAuthorization` fails with
`ErrUserNotAuthorized` when the `Authorization` header is absent or empty; it returns the
token `token` exactly for the headers made of `Bearer`, any run of characters other than a
space, one space, and `token`, where `token` holds no space and may be empty; and it fails
with `ErrInvalidAutorizationFormat` for every other non-empty header. -/
theorem TokenFromAuthorization_outcomes (r : Request) :
    ((r.authorization = none ∨ r.authorization = some "") →
      claim.TokenFromAuthorization r = .error .claim_ErrUserNotAuthorized) ∧
    (∀ token, claim.TokenFromAuthorization r = .ok token ↔
      BearerShape r.HeaderGetAuthorization token) ∧
    (r.HeaderGetAuthorization ≠ "" → (∀ token, ¬ BearerShape r.HeaderGetAuthorization token) →
      claim.TokenFromAuthorization r = .error .claim_ErrInvalidAutorizationFormat) := by
  refine ⟨?_, claim.TokenFromAuthorization_ok_iff r, ?_⟩
  · intro h
    have h0 : r.HeaderGetAuthorization = "" := by
      rcases h with h | h <;> simp [Request.HeaderGetAuthorization, h]
    simp [claim.TokenFromAuthorization, h0]
  · intro h0 hno
    cases hr : claim.TokenFromAuthorization r with
    | ok token => exact absurd ((claim.TokenFromAuthorization_ok_iff r token).mp hr) (hno token)
    | error err =>
      rcases claim.TokenFromAuthorization_error r err hr with ⟨e, -⟩ | ⟨-, e⟩
      · exact absurd e h0
      · rw [e]

/-! ## Properties of pagination -/

theorem wrapInt_of_range (x : Int) (h1 : -2 ^ 63 ≤ x) (h2 : x < 2 ^ 63) : wrapInt x = x := by
  unfold wrapInt
  omega

theorem PostService.paginationBounds_eq (total page limit : Int) :
    PostService.paginationBounds total page limit
      = UserService.paginationBounds total page limit := rfl

theorem PostService.WithPagination_eq {α : Type} (xs : List α) (page limit : Int) :
    PostService.WithPagination xs page limit = UserService.WithPagination xs page limit := rfl

/-- The bounds computed for a page of at least 1 are the clamped start and end. -/
theorem UserService.paginationBounds_of_pos (n page limit : Int) (hn : 0 ≤ n)
    (hn2 : n < 2 ^ 62) (hpage : 1 ≤ page) (hpage2 : page < 2 ^ 63) (hlimit : 0 ≤ limit)
    (hmul : (page - 1) * limit < 2 ^ 63) :
    UserService.paginationBounds n page limit
      = (min ((page - 1) * limit) n, min ((page - 1) * limit + limit) n) := by
  have hp0 : ¬ page < 0 := by omega
  have hl0 : ¬ limit < 0 := by omega
  have hw1 : wrapInt (page - 1) = page - 1 := wrapInt_of_range _ (by omega) (by omega)
  unfold UserService.paginationBounds
  simp only [hp0, hl0, if_false, hw1]
  have ha0 : 0 ≤ (page - 1) * limit := mul_nonneg (by omega) hlimit
  by_cases hc : limit > n
  · simp only [hc, if_true]
    have hm0 : 0 ≤ (page - 1) * n := mul_nonneg (by omega) hn
    have hmle : (page - 1) * n ≤ (page - 1) * limit :=
      mul_le_mul_of_nonneg_left (by omega) (by omega)
    by_cases hp1 : page = 1
    · subst hp1
      simp only [sub_self, zero_mul, zero_add, wrapInt]
      split_ifs <;> simp only [Prod.mk.injEq] <;> omega
    · have hp2 : 1 ≤ page - 1 := by omega
      have hge : n ≤ (page - 1) * n := le_mul_of_one_le_left hn hp2
      have hge2 : limit ≤ (page - 1) * limit := le_mul_of_one_le_left hlimit hp2
      generalize (page - 1) * n = m at *
      generalize (page - 1) * limit = a at *
      unfold wrapInt
      split_ifs <;> simp only [Prod.mk.injEq] <;> omega
  · simp only [hc, if_false]
    generalize (page - 1) * limit = a at *
    unfold wrapInt
    split_ifs <;> simp only [Prod.mk.injEq] <;> omega

theorem UserService.WithPagination_of_pos {α : Type} (xs : List α) (page limit : Int)
    (hpage : 1 ≤ page) (hpage2 : page < 2 ^ 63) (hlimit : 0 ≤ limit)
    (hmul : (page - 1) * limit < 2 ^ 63) (hlen : xs.length < 2 ^ 62) :
    UserService.WithPagination xs page limit
      = some (sliceElems xs (min ((page - 1) * limit) xs.length).toNat
          (min ((page - 1) * limit + limit) xs.length).toNat, (xs.length : Int)) := by
  have hn : (0 : Int) ≤ (xs.length : Int) := Int.ofNat_nonneg _
  have hn2 : (xs.length : Int) < 2 ^ 62 := by exact_mod_cast hlen
  have ha0 : 0 ≤ (page - 1) * limit := mul_nonneg (by omega) hlimit
  unfold UserService.WithPagination
  simp only [UserService.paginationBounds_of_pos _ page limit hn hn2 hpage hpage2 hlimit hmul]
  have hrange : 0 ≤ min ((page - 1) * limit) (xs.length : Int) ∧
      min ((page - 1) * limit) (xs.length : Int) ≤ min ((page - 1) * limit + limit) xs.length ∧
      min ((page - 1) * limit + limit) (xs.length : Int) ≤ (xs.length : Int) := by
    generalize (page - 1) * limit = a at *
    omega
  simp only [sliceExpr, hrange, and_self, if_true]

/-- C9. Pagination result: for every list `xs` of length `n` (below 2^62, as every slice of
the program is), every page from 1 up and every limit from 0 up with `(page-1)*limit` below
2^63, `UserService.WithPagination` and `PostService.WithPagination` both return the elements
of `xs[start:end]` and `n`, where `start = min((page-1)*limit, n)` and
`end = min((page-1)*limit + limit, n)`, both within the bounds of `xs`; for the empty list,
page 1 and limit 10 that is the empty list and 0, and for a list of 5 elements the whole list
and 5. -/
theorem WithPagination_result {α : Type} (xs : List α) (page limit : Int)
    (hpage : 1 ≤ page) (hpage2 : page < 2 ^ 63) (hlimit : 0 ≤ limit)
    (hmul : (page - 1) * limit < 2 ^ 63) (hlen : xs.length < 2 ^ 62) :
    UserService.WithPagination xs page limit
      = some (sliceElems xs (min ((page - 1) * limit) xs.length).toNat
          (min ((page - 1) * limit + limit) xs.length).toNat, (xs.length : Int)) ∧
    PostService.WithPagination xs page limit
      = some (sliceElems xs (min ((page - 1) * limit) xs.length).toNat
          (min ((page - 1) * limit + limit) xs.length).toNat, (xs.length : Int)) ∧
    (min ((page - 1) * limit) xs.length).toNat ≤ (min ((page - 1) * limit + limit) xs.length).toNat ∧
    (min ((page - 1) * limit + limit) xs.length).toNat ≤ xs.length ∧
    UserService.WithPagination ([] : List α) 1 10 = some ([], 0) ∧
    PostService.WithPagination ([] : List α) 1 10 = some ([], 0) ∧
    (xs.length = 5 → UserService.WithPagination xs 1 10 = some (xs, 5) ∧
      PostService.WithPagination xs 1 10 = some (xs, 5)) := by
  have hmain := UserService.WithPagination_of_pos xs page limit hpage hpage2 hlimit hmul hlen
  have ha0 : 0 ≤ (page - 1) * limit := mul_nonneg (by omega) hlimit
  have hempty : UserService.WithPagination ([] : List α) 1 10 = some ([], 0) := by
    have h := UserService.WithPagination_of_pos ([] : List α) 1 10 (by omega) (by omega)
      (by omega) (by omega) (by simp)
    simpa [sliceElems] using h
  have hfive : xs.length = 5 → UserService.WithPagination xs 1 10 = some (xs, 5) := by
    intro h5
    have h := UserService.WithPagination_of_pos xs 1 10 (by omega) (by omega)
      (by omega) (by omega) (by omega)
    rw [h, h5]
    have : sliceElems xs 0 5 = xs := by
      unfold sliceElems
      simp [List.take_of_length_le, h5]
    simpa using this
  refine ⟨hmain, ?_, ?_, ?_, hempty, ?_, ?_⟩
  · rw [PostService.WithPagination_eq]
    exact hmain
  · generalize (page - 1) * limit = a at *
    omega
  · generalize (page - 1) * limit = a at *
    omega
  · rw [PostService.WithPagination_eq]
    exact hempty
  · intro h5
    rw [PostService.WithPagination_eq]
    exact ⟨hfive h5, hfive h5⟩

/-- Witness of C9: the second page of two elements of a list of five. -/
theorem WithPagination_result_witness :
    UserService.WithPagination [10, 20, 30, 40, 50] 2 2 = some ([30, 40], 5) ∧
    PostService.WithPagination [10, 20, 30, 40, 50] 2 2 = some ([30, 40], 5) := by
  have h := WithPagination_result [10, 20, 30, 40, 50] 2 2 (by decide) (by decide) (by decide)
    (by decide) (by decide)
  exact ⟨h.1, h.2.1⟩

/-- The bounds computed for a page of 0 or less: the start is minus the clamped limit. -/
theorem UserService.paginationBounds_of_nonpos (n page limit : Int) (hn : 0 ≤ n)
    (hn2 : n < 2 ^ 63) (hpage : page ≤ 0) :
    UserService.paginationBounds n page limit = (-(min (max limit 0) n), 0) := by
  have hw : ∀ x : Int, wrapInt (wrapInt (0 - 1) * x) = wrapInt (-x) := by
    intro x
    have : wrapInt (0 - 1) = -1 := by unfold wrapInt; omega
    rw [this]
    simp
  unfold UserService.paginationBounds
  by_cases hp : page < 0
  · simp only [hp, if_true, hw]
    unfold wrapInt
    split_ifs <;> simp only [Prod.mk.injEq] <;> omega
  · have hp0 : page = 0 := by omega
    subst hp0
    simp only [lt_irrefl, if_false, hw]
    unfold wrapInt
    split_ifs <;> simp only [Prod.mk.injEq] <;> omega

/-- C10. Pagination page-0 boundary: for a page of 0 or less, on a non-empty list of length
`n` with a limit of at least 1, `WithPagination` of either service computes the bounds
`start = -min(limit, n)`, which is negative, and `end = 0`, and the slicing is out of range:
the call produces no result; on an empty list, or with a limit of 0 or less, it returns the
empty list and `n`. -/
theorem WithPagination_page_zero {α : Type} (xs : List α) (page limit : Int)
    (hpage : page ≤ 0) (hlen : xs.length < 2 ^ 63) :
    (xs ≠ [] → 1 ≤ limit →
      UserService.paginationBounds xs.length page limit = (-(min limit xs.length), 0) ∧
      PostService.paginationBounds xs.length page limit = (-(min limit xs.length), 0) ∧
      -(min limit (xs.length : Int)) < 0 ∧
      UserService.WithPagination xs page limit = none ∧
      PostService.WithPagination xs page limit = none) ∧
    ((xs = [] ∨ limit ≤ 0) →
      UserService.WithPagination xs page limit = some ([], (xs.length : Int)) ∧
      PostService.WithPagination xs page limit = some ([], (xs.length : Int))) := by
  have hn : (0 : Int) ≤ (xs.length : Int) := Int.ofNat_nonneg _
  have hn2 : (xs.length : Int) < 2 ^ 63 := by exact_mod_cast hlen
  have hb := UserService.paginationBounds_of_nonpos xs.length page limit hn hn2 hpage
  constructor
  · intro hne hlimit
    have hpos : 1 ≤ (xs.length : Int) := by
      cases xs with
      | nil => exact absurd rfl hne
      | cons x xs => simp
    have hmax : max limit 0 = limit := by omega
    rw [hmax] at hb
    have hneg : -(min limit (xs.length : Int)) < 0 := by omega
    have hnone : UserService.WithPagination xs page limit = none := by
      unfold UserService.WithPagination
      simp only [hb, sliceExpr]
      have : ¬ (0 ≤ -(min limit (xs.length : Int))) := by omega
      simp [this]
    refine ⟨hb, ?_, hneg, hnone, ?_⟩
    · rw [PostService.paginationBounds_eq]
      exact hb
    · rw [PostService.WithPagination_eq]
      exact hnone
  · intro h
    have hz : min (max limit 0) (xs.length : Int) = 0 := by
      rcases h with h | h
      · subst h
        simp
      · have : max limit 0 = 0 := by omega
        rw [this]
        omega
    rw [hz] at hb
    have hsome : UserService.WithPagination xs page limit = some ([], (xs.length : Int)) := by
      unfold UserService.WithPagination
      simp [hb, sliceExpr, sliceElems]
    refine ⟨hsome, ?_⟩
    rw [PostService.WithPagination_eq]
    exact hsome

/-- Witness of C10: page 0 and limit 2 on a list of five, start -2 and end 0. -/
theorem WithPagination_page_zero_witness :
    UserService.paginationBounds 5 0 2 = (-2, 0) ∧
    UserService.WithPagination [10, 20, 30, 40, 50] 0 2 = none ∧
    PostService.WithPagination [10, 20, 30, 40, 50] 0 2 = none := by
  have h := (WithPagination_page_zero [10, 20, 30, 40, 50] 0 2 (by decide) (by decide)).1
    (by decide) (by decide)
  exact ⟨h.1, h.2.2.2.1, h.2.2.2.2⟩

/-! ## Properties of the password scheme -/

theorem user.getSatlLoop_single_byte (cs : List Char) (h : ∀ c ∈ cs, c.utf8Size = 1)
    (i : Nat) (left right : String) :
    user.getSatlLoop cs i left right =
      if i % 2 = 0 then
        (left ++ String.mk (spec.evenChars cs), right ++ String.mk (spec.oddChars cs))
      else
        (left ++ String.mk (spec.oddChars cs), right ++ String.mk (spec.evenChars cs)) := by
  induction cs using spec.evenChars.induct generalizing i left right with
  | case1 =>
    have e : ∀ s : String, s ++ String.mk [] = s := fun s => String.ext (by simp [String.data_append])
    simp [user.getSatlLoop, spec.evenChars, spec.oddChars, e]
  | case2 c =>
    have hc : c.utf8Size = 1 := h c (by simp)
    have e : ∀ s : String, s ++ String.mk [] = s := fun s => String.ext (by simp [String.data_append])
    have sing : String.singleton c = String.mk [c] := rfl
    by_cases hi : i % 2 = 0
    · simp [user.getSatlLoop, spec.evenChars, spec.oddChars, hi, e, sing]
    · simp [user.getSatlLoop, spec.evenChars, spec.oddChars, hi, e, sing]
  | case3 c d rest ih =>
    have hc : c.utf8Size = 1 := h c (by simp)
    have hd : d.utf8Size = 1 := h d (by simp)
    have hrest : ∀ x ∈ rest, x.utf8Size = 1 := fun x hx => h x (by simp [hx])
    have app : ∀ (s : String) (a : Char) (l : List Char),
        s ++ String.singleton a ++ String.mk l = s ++ String.mk (a :: l) := by
      intro s a l
      apply String.ext
      simp [String.data_append, String.singleton]
    by_cases hi : i % 2 = 0
    · have h1 : ¬ (i + 1) % 2 = 0 := by omega
      have h2 : (i + 1 + 1) % 2 = 0 := by omega
      simp [user.getSatlLoop, hi, hc, hd, h1, h2, ih hrest, spec.evenChars, spec.oddChars, app]
    · have h1 : (i + 1) % 2 = 0 := by omega
      have h2 : ¬ (i + 1 + 1) % 2 = 0 := by omega
      simp [user.getSatlLoop, hi, hc, hd, h1, h2, ih hrest, spec.evenChars, spec.oddChars, app]

/-- Counterexample to C12: in the two-character password made of e-acute and `a`, the `a`
starts at byte offset 2 and goes to the left part with the e-acute, where the claim puts it,
at character position 1, in the right part. -/
theorem getSatlForPassword_multi_byte :
    user.getSatlForPassword "éa" = "éa" ++ "éa" ++ "" ∧
    user.getSatlForPassword "éa"
      ≠ String.mk (spec.evenChars "éa".toList) ++ "éa"
          ++ String.mk (spec.oddChars "éa".toList) := by
  decide

/-- C12, amended. Password salting scheme: for every password whose characters are all
encoded on one byte, `getSatlForPassword` is the characters at even character positions,
followed by the password, followed by the characters at odd character positions. -/
theorem getSatlForPassword_single_byte (password : String)
    (h : ∀ c ∈ password.toList, c.utf8Size = 1) :
    user.getSatlForPassword password
      = String.mk (spec.evenChars password.toList) ++ password
          ++ String.mk (spec.oddChars password.toList) := by
  unfold user.getSatlForPassword
  rw [user.getSatlLoop_single_byte password.toList h 0 "" ""]
  simp

/-- Witness of C12: the password `123456`. -/
theorem getSatlForPassword_single_byte_witness :
    user.getSatlForPassword "123456" = "135" ++ "123456" ++ "246" :=
  getSatlForPassword_single_byte "123456" (by decide)

theorem sample.bytesChars_append (c : Char) (rest : List (Fin 256)) :
    sample.bytesChars (sample.charBytes c ++ rest) = c :: sample.bytesChars rest := by
  have hlt : c.toNat < 4294967296 := c.val.val.isLt
  have hval : ∀ x : Nat, (Fin.ofNat x : Fin 256).val = x % 256 := fun _ => rfl
  have hsum : c.toNat / 16777216 % 256 * 16777216 + c.toNat / 65536 % 256 % 256 * 65536
      + c.toNat / 256 % 256 % 256 * 256 + c.toNat % 256 % 256 = c.toNat := by omega
  simp only [sample.charBytes, List.cons_append, List.nil_append,
    sample.bytesChars, hval, hsum, Char.ofNat_toNat]
  rfl

theorem sample.bytesChars_charBytes (cs : List Char) :
    sample.bytesChars (cs.flatMap sample.charBytes) = cs := by
  induction cs with
  | nil => rfl
  | cons c cs ih => rw [List.flatMap_cons, sample.bytesChars_append, ih]

theorem sample.plainHash_exact : sample.plainHash.Exact := by
  intro password cost hash hgen candidate
  simp only [sample.plainHash, Except.ok.injEq] at hgen
  subst hgen
  simp only [sample.plainHash]
  constructor
  · intro h
    by_cases he : password.toList.flatMap sample.charBytes
        = candidate.toList.flatMap sample.charBytes
    · have := congrArg sample.bytesChars he
      rw [sample.bytesChars_charBytes, sample.bytesChars_charBytes] at this
      exact (String.ext this).symm
    · have hne : ¬ (some (password.toList.flatMap sample.charBytes)
          = some (candidate.toList.flatMap sample.charBytes)) := fun e => he (Option.some.inj e)
      rw [if_neg hne] at h
      cases h
  · intro h
    subst h
    simp

theorem user.User.EncryptPassword_ok (lib : bcrypt.Library) (u : user.User)
    (hash : List (Fin 256))
    (h : lib.GenerateFromPassword (user.getSatlForPassword u.Password) bcrypt.DefaultCost
      = .ok hash) :
    u.EncryptPassword lib = ({ u with HashPassword := some hash }, none) := by
  simp [user.User.EncryptPassword, h]

theorem user.User.EncryptPassword_error (lib : bcrypt.Library) (u : user.User) (err : GoError)
    (h : lib.GenerateFromPassword (user.getSatlForPassword u.Password) bcrypt.DefaultCost
      = .error err) :
    u.EncryptPassword lib = ({ u with HashPassword := none }, some err) := by
  simp [user.User.EncryptPassword, h]

/-- C13. Password round-trip: with a hash library whose verification accepts exactly the
input that was hashed, when `EncryptPassword` succeeds on a user whose password is `p` the
resulting `HashPassword` is not nil, `ComparePassword(p)` is true, and `ComparePassword(q)` is
false for every `q` whose salted form differs from that of `p`. -/
theorem EncryptPassword_ComparePassword (lib : bcrypt.Library) (hexact : lib.Exact)
    (u : user.User) (hok : (u.EncryptPassword lib).2 = none) :
    (u.EncryptPassword lib).1.HashPassword ≠ none ∧
    (u.EncryptPassword lib).1.ComparePassword lib u.Password = true ∧
    ∀ q : String, user.getSatlForPassword q ≠ user.getSatlForPassword u.Password →
      (u.EncryptPassword lib).1.ComparePassword lib q = false := by
  cases hgen : lib.GenerateFromPassword (user.getSatlForPassword u.Password) bcrypt.DefaultCost with
  | error err =>
    rw [user.User.EncryptPassword_error lib u err hgen] at hok
    cases hok
  | ok hash =>
    rw [user.User.EncryptPassword_ok lib u hash hgen]
    have hx := hexact _ _ _ hgen
    refine ⟨by simp, ?_, ?_⟩
    · simp [user.User.ComparePassword, (hx _).mpr rfl]
    · intro q hq
      have hne : lib.CompareHashAndPassword (some hash) (user.getSatlForPassword q) ≠ none :=
        fun h => hq ((hx _).mp h)
      cases hc : lib.CompareHashAndPassword (some hash) (user.getSatlForPassword q) with
      | none => exact absurd hc hne
      | some e => simp [user.User.ComparePassword, hc]

/-- Witness of C13: the password `123456` against the candidate `error`. -/
theorem EncryptPassword_ComparePassword_witness :
    (({ Password := "123456" } : user.User).EncryptPassword sample.plainHash).1.HashPassword
      ≠ none ∧
    (({ Password := "123456" } : user.User).EncryptPassword sample.plainHash).1.ComparePassword
      sample.plainHash "123456" = true ∧
    (({ Password := "123456" } : user.User).EncryptPassword sample.plainHash).1.ComparePassword
      sample.plainHash "error" = false := by
  have h := EncryptPassword_ComparePassword sample.plainHash sample.plainHash_exact
    { Password := "123456" } rfl
  exact ⟨h.1, h.2.1, h.2.2 "error" (by decide)⟩

/-! ## Properties of the email pattern -/

theorem user.mem_alnumClass (c : Char) : c ∈ user.alnumClass ↔ spec.isLetterOrDigit c := by
  constructor
  · intro h
    have hall : user.alnumClass.all (fun c => decide (spec.isLetterOrDigit c)) = true := by decide
    have := List.all_eq_true.mp hall c h
    exact of_decide_eq_true this
  · intro h
    obtain ⟨n, hn⟩ : ∃ n, n = c.toNat := ⟨_, rfl⟩
    have hc : c = Char.ofNat n := by rw [hn, Char.ofNat_toNat]
    unfold spec.isLetterOrDigit at h
    rw [← hn] at h
    subst hc
    rcases h with ⟨h1, h2⟩ | ⟨h1, h2⟩ | ⟨h1, h2⟩ <;> interval_cases n <;> decide

theorem regexp.mem_cls (cs : List Char) (x : List Char) :
    x ∈ (regexp.cls cs).matches' ↔ ∃ c ∈ cs, x = [c] := by
  induction cs with
  | nil =>
    simp only [regexp.cls, List.foldr_nil, RegularExpression.matches'_zero]
    constructor
    · intro h; exact absurd h (Language.not_mem_zero x)
    · rintro ⟨c, hc, -⟩; cases hc
  | cons a cs ih =>
    have : regexp.cls (a :: cs) = RegularExpression.char a + regexp.cls cs := rfl
    rw [this, RegularExpression.matches'_add, Language.mem_add, ih,
      RegularExpression.matches'_char]
    constructor
    · rintro (h | ⟨c, hc, e⟩)
      · exact ⟨a, by simp, h⟩
      · exact ⟨c, by simp [hc], e⟩
    · rintro ⟨c, hc, e⟩
      rcases List.mem_cons.mp hc with rfl | hc
      · left; exact e
      · right; exact ⟨c, hc, e⟩

theorem regexp.mem_star_cls (cs : List Char) (x : List Char) :
    x ∈ (regexp.cls cs).star.matches' ↔ ∀ c ∈ x, c ∈ cs := by
  rw [RegularExpression.matches'_star, Language.mem_kstar]
  constructor
  · rintro ⟨L, rfl, hL⟩ c hc
    obtain ⟨y, hy, hcy⟩ := List.mem_flatten.mp hc
    obtain ⟨d, hd, e⟩ := (regexp.mem_cls cs y).mp (hL y hy)
    subst e
    rw [List.mem_singleton.mp hcy]
    exact hd
  · intro h
    refine ⟨x.map fun c => [c], ?_, ?_⟩
    · induction x with
      | nil => rfl
      | cons a t ih =>
        simp only [List.map_cons, List.flatten_cons, List.singleton_append]
        rw [← ih (fun c hc => h c (List.mem_cons_of_mem _ hc))]
    · intro y hy
      obtain ⟨c, hc, rfl⟩ := List.mem_map.mp hy
      exact (regexp.mem_cls cs _).mpr ⟨c, h c hc, rfl⟩

theorem regexp.mem_plus_cls (cs : List Char) (x : List Char) :
    x ∈ (regexp.plus (regexp.cls cs)).matches' ↔ x ≠ [] ∧ ∀ c ∈ x, c ∈ cs := by
  unfold regexp.plus
  rw [RegularExpression.matches'_mul, Language.mem_mul]
  constructor
  · rintro ⟨a, ha, b, hb, rfl⟩
    obtain ⟨c, hc, rfl⟩ := (regexp.mem_cls cs a).mp ha
    refine ⟨by simp, ?_⟩
    intro d hd
    rcases List.mem_append.mp hd with h | h
    · rw [List.mem_singleton.mp h]; exact hc
    · exact (regexp.mem_star_cls cs b).mp hb d h
  · rintro ⟨hne, h⟩
    cases x with
    | nil => exact absurd rfl hne
    | cons a t =>
      refine ⟨[a], (regexp.mem_cls cs _).mpr ⟨a, h a (by simp), rfl⟩, t, ?_, rfl⟩
      exact (regexp.mem_star_cls cs t).mpr fun c hc => h c (List.mem_cons_of_mem _ hc)

theorem regexp.mem_upTo_cls (cs : List Char) (n : Nat) (x : List Char) :
    x ∈ (regexp.upTo n (regexp.cls cs)).matches' ↔ x.length ≤ n ∧ ∀ c ∈ x, c ∈ cs := by
  induction n generalizing x with
  | zero =>
    simp only [regexp.upTo, RegularExpression.matches'_epsilon, Language.mem_one]
    constructor
    · rintro rfl; simp
    · rintro ⟨h, -⟩; exact List.length_eq_zero.mp (Nat.le_zero.mp h)
  | succ n ih =>
    have : regexp.upTo (n + 1) (regexp.cls cs) = 1 + regexp.cls cs * regexp.upTo n (regexp.cls cs) := rfl
    rw [this, RegularExpression.matches'_add, Language.mem_add, RegularExpression.matches'_epsilon,
      Language.mem_one, RegularExpression.matches'_mul, Language.mem_mul]
    constructor
    · rintro (rfl | ⟨a, ha, b, hb, rfl⟩)
      · simp
      · obtain ⟨c, hc, rfl⟩ := (regexp.mem_cls cs a).mp ha
        obtain ⟨hl, hb⟩ := (ih b).mp hb
        refine ⟨by simp; omega, ?_⟩
        intro d hd
        rcases List.mem_append.mp hd with h | h
        · rw [List.mem_singleton.mp h]; exact hc
        · exact hb d h
    · rintro ⟨hl, h⟩
      cases x with
      | nil => left; rfl
      | cons a t =>
        right
        refine ⟨[a], (regexp.mem_cls cs _).mpr ⟨a, h a (by simp), rfl⟩, t, ?_, rfl⟩
        refine (ih t).mpr ⟨?_, fun c hc => h c (List.mem_cons_of_mem _ hc)⟩
        simp at hl
        omega

theorem user.mem_labelClass (c : Char) :
    c ∈ user.labelClass ↔ spec.isLetterOrDigit c ∨ c = '-' := by
  unfold user.labelClass
  rw [List.mem_append, user.mem_alnumClass, List.mem_singleton]

theorem user.mem_localClass (c : Char) : c ∈ user.localClass ↔ spec.isLocalChar c := by
  unfold user.localClass spec.isLocalChar
  rw [List.mem_append, user.mem_alnumClass]

theorem user.mem_labelPattern (x : List Char) :
    x ∈ user.labelPattern.matches' ↔ spec.validLabel x := by
  unfold user.labelPattern regexp.opt spec.validLabel
  rw [RegularExpression.matches'_mul, Language.mem_mul]
  constructor
  · rintro ⟨a, ha, b, hb, rfl⟩
    obtain ⟨c0, hc0, rfl⟩ := (regexp.mem_cls _ a).mp ha
    have h0 := (user.mem_alnumClass c0).mp hc0
    rw [RegularExpression.matches'_add, Language.mem_add, RegularExpression.matches'_epsilon,
      Language.mem_one, RegularExpression.matches'_mul, Language.mem_mul] at hb
    rcases hb with rfl | ⟨m, hm, z, hz, rfl⟩
    · refine ⟨by simp, by simp, ?_, ⟨c0, rfl, h0⟩, ⟨c0, rfl, h0⟩⟩
      intro c hc
      simp at hc
      subst hc
      exact Or.inl h0
    · obtain ⟨hlen, hmem⟩ := (regexp.mem_upTo_cls _ 61 m).mp hm
      obtain ⟨cz, hcz, rfl⟩ := (regexp.mem_cls _ z).mp hz
      have hz0 := (user.mem_alnumClass cz).mp hcz
      have hlast : ([c0] ++ (m ++ [cz])).getLast? = some cz := by
        rw [List.singleton_append, ← List.cons_append, List.getLast?_concat]
      refine ⟨by simp, by simp; omega, ?_, ⟨c0, rfl, h0⟩, ⟨cz, hlast, hz0⟩⟩
      intro c hc
      simp only [List.singleton_append, List.mem_cons, List.mem_append, List.mem_singleton,
        List.not_mem_nil, or_false] at hc
      rcases hc with rfl | hc | rfl
      · exact Or.inl h0
      · exact (user.mem_labelClass c).mp (hmem c hc)
      · exact Or.inl hz0
  · rintro ⟨h1, h63, hall, ⟨c0, hhead, h0⟩, ⟨cz, hlast, hz0⟩⟩
    cases x with
    | nil => simp at h1
    | cons a t =>
      simp only [List.head?_cons, Option.mem_def, Option.some.injEq] at hhead
      subst hhead
      refine ⟨[a], (regexp.mem_cls _ _).mpr ⟨a, (user.mem_alnumClass a).mpr h0, rfl⟩, t, ?_, rfl⟩
      rw [RegularExpression.matches'_add, Language.mem_add, RegularExpression.matches'_epsilon,
        Language.mem_one, RegularExpression.matches'_mul, Language.mem_mul]
      rcases List.eq_nil_or_concat' t with rfl | ⟨m, z, rfl⟩
      · left; rfl
      · right
        have hzz : z = cz := by
          have : (a :: (m ++ [z])).getLast? = some z := by
            rw [← List.cons_append, List.getLast?_concat]
          rw [Option.mem_def, this] at hlast
          exact Option.some.inj hlast
        subst hzz
        refine ⟨m, ?_, [z], (regexp.mem_cls _ _).mpr ⟨z, (user.mem_alnumClass z).mpr hz0, rfl⟩, rfl⟩
        refine (regexp.mem_upTo_cls _ 61 m).mpr ⟨?_, ?_⟩
        · simp at h63
          omega
        · intro c hc
          exact (user.mem_labelClass c).mpr (hall c (by simp [hc]))

theorem spec.validLabel_no_dot (l : List Char) (h : spec.validLabel l) : '.' ∉ l := by
  intro hm
  rcases h.2.2.1 '.' hm with h1 | h1
  · revert h1; decide
  · revert h1; decide

theorem spec.validLabel_ne_nil (l : List Char) (h : spec.validLabel l) : l ≠ [] := by
  rintro rfl
  have := h.1
  simp at this

theorem List.exists_first_occurrence (c : Char) (x : List Char) (h : c ∈ x) :
    ∃ pre rest, x = pre ++ c :: rest ∧ c ∉ pre := by
  induction x with
  | nil => cases h
  | cons a t ih =>
    by_cases ha : a = c
    · exact ⟨[], t, by simp [ha], by simp⟩
    · rcases List.mem_cons.mp h with e | ht
      · exact absurd e.symm ha
      · obtain ⟨pre, rest, e, hn⟩ := ih ht
        refine ⟨a :: pre, rest, by simp [e], ?_⟩
        intro hm
        rcases List.mem_cons.mp hm with e2 | hm
        · exact ha e2.symm
        · exact hn hm

theorem user.mem_domain (x : List Char) :
    x ∈ (user.labelPattern * (RegularExpression.char '.' * user.labelPattern).star).matches' ↔
      ∀ l ∈ strings.splitChars '.' x, spec.validLabel l := by
  rw [RegularExpression.matches'_mul, RegularExpression.matches'_star,
    RegularExpression.matches'_mul, RegularExpression.matches'_char]
  constructor
  · intro hx
    obtain ⟨l0, hl0, w, hw, rfl⟩ := Language.mem_mul.mp hx
    obtain ⟨L, rfl, hL⟩ := Language.mem_kstar.mp hw
    have h0 := (user.mem_labelPattern l0).mp hl0
    clear hx
    clear hw hl0
    induction L generalizing l0 with
    | nil =>
      simp only [List.flatten_nil, List.append_nil]
      rw [strings.splitChars_of_not_mem _ _ (spec.validLabel_no_dot l0 h0)]
      intro l hl
      rw [List.mem_singleton.mp hl]
      exact h0
    | cons y L ih =>
      obtain ⟨d, hd, l1, hl1, e⟩ := Language.mem_mul.mp (hL y (by simp))
      have hd' : d = ['.'] := hd
      subst hd'
      subst e
      have h1 := (user.mem_labelPattern l1).mp hl1
      have e2 : l0 ++ ((['.'] ++ l1) :: L).flatten = l0 ++ '.' :: (l1 ++ L.flatten) := by simp
      rw [e2, strings.splitChars_append _ _ _ (spec.validLabel_no_dot l0 h0)]
      intro l hl
      rcases List.mem_cons.mp hl with rfl | hl
      · exact h0
      · exact ih l1 (fun y hy => hL y (List.mem_cons_of_mem _ hy)) h1 l hl
  · intro h
    obtain ⟨n, hn⟩ : ∃ n, x.length = n := ⟨_, rfl⟩
    induction n using Nat.strong_induction_on generalizing x with
    | _ n ih =>
      by_cases hdot : '.' ∈ x
      · obtain ⟨pre, rest, e, hpre⟩ := List.exists_first_occurrence '.' x hdot
        subst e
        rw [strings.splitChars_append _ _ _ hpre] at h
        have hv := h pre (by simp)
        have hrest := ih rest.length (by rw [← hn]; simp; omega) rest
          (fun l hl => h l (List.mem_cons_of_mem _ hl)) rfl
        obtain ⟨l0, hl0, w, hw, e⟩ := Language.mem_mul.mp hrest
        obtain ⟨L, rfl, hL⟩ := Language.mem_kstar.mp hw
        subst e
        refine Language.mem_mul.mpr ⟨pre, (user.mem_labelPattern pre).mpr hv,
          (('.' :: l0) :: L).flatten, ?_, by simp⟩
        apply Language.mem_kstar.mpr
        refine ⟨('.' :: l0) :: L, rfl, ?_⟩
        intro y hy
        rcases List.mem_cons.mp hy with rfl | hy
        · exact Language.mem_mul.mpr ⟨['.'], rfl, l0, hl0, rfl⟩
        · exact hL y hy
      · rw [strings.splitChars_of_not_mem _ _ hdot] at h
        have hv := h x (by simp)
        exact Language.mem_mul.mpr ⟨x, (user.mem_labelPattern x).mpr hv, [],
          Language.nil_mem_kstar _, by simp⟩

theorem user.mem_pattern (x : List Char) :
    x ∈ user.pattern.matches' ↔
      ∃ loc domain : List Char, x = loc ++ '@' :: domain ∧ loc ≠ [] ∧
        (∀ c ∈ loc, spec.isLocalChar c) ∧ ∀ l ∈ strings.splitChars '.' domain, spec.validLabel l := by
  unfold user.pattern
  rw [RegularExpression.matches'_mul, RegularExpression.matches'_mul,
    RegularExpression.matches'_mul, mul_assoc, mul_assoc, ← RegularExpression.matches'_mul
      user.labelPattern, RegularExpression.matches'_char]
  constructor
  · intro hx
    obtain ⟨loc, hloc, rest, hrest, rfl⟩ := Language.mem_mul.mp hx
    obtain ⟨a, ha, dom, hdom, rfl⟩ := Language.mem_mul.mp hrest
    have ha' : a = ['@'] := ha
    subst ha'
    obtain ⟨hne, hall⟩ := (regexp.mem_plus_cls _ loc).mp hloc
    exact ⟨loc, dom, by simp, hne, fun c hc => (user.mem_localClass c).mp (hall c hc),
      (user.mem_domain dom).mp hdom⟩
  · rintro ⟨loc, dom, rfl, hne, hall, hdom⟩
    refine Language.mem_mul.mpr ⟨loc, ?_, '@' :: dom, ?_, rfl⟩
    · exact (regexp.mem_plus_cls _ loc).mpr ⟨hne, fun c hc => (user.mem_localClass c).mpr (hall c hc)⟩
    · exact Language.mem_mul.mpr ⟨['@'], rfl, dom, (user.mem_domain dom).mpr hdom, rfl⟩

theorem user.User.ValidateEmail_iff (u : user.User) :
    u.ValidateEmail = true ↔ spec.validEmail u.Email := by
  unfold user.User.ValidateEmail regexp.MatchString spec.validEmail
  rw [RegularExpression.rmatch_iff_matches', user.mem_pattern]

/-- C11. Email validation: `ValidateEmail` returns true exactly for the addresses of the form
`local@domain` whose local part is a non-empty run of letters, digits and the punctuation of
the pattern, and whose domain is made of labels separated by single dots, each label 1 to 63
letters, digits or hyphens that begins and ends with a letter or a digit; the three
addresses with an `@` of the tests are valid and the three without are not. -/
theorem ValidateEmail_form (u : user.User) :
    (u.ValidateEmail = true ↔ spec.validEmail u.Email) ∧
    ({ Email := "user@example.com" } : user.User).ValidateEmail = true ∧
    ({ Email := "orlmicron@gmail.com" } : user.User).ValidateEmail = true ∧
    ({ Email := "test@example.es" } : user.User).ValidateEmail = true ∧
    ({ Email := "userexample.com" } : user.User).ValidateEmail = false ∧
    ({ Email := "orlmicrongmail.com" } : user.User).ValidateEmail = false ∧
    ({ Email := "orlmicron" } : user.User).ValidateEmail = false := by
  have hno : ∀ e : String, '@' ∉ e.toList →
      ({ Email := e } : user.User).ValidateEmail = false := by
    intro e he
    cases hv : ({ Email := e } : user.User).ValidateEmail
    · rfl
    · obtain ⟨loc, domain, h, -⟩ := (user.User.ValidateEmail_iff _).mp hv
      exfalso
      apply he
      change e.toList = loc ++ '@' :: domain at h
      rw [h]
      simp
  refine ⟨user.User.ValidateEmail_iff u, ?_, ?_, ?_, hno _ (by decide), hno _ (by decide),
    hno _ (by decide)⟩
  · exact (user.User.ValidateEmail_iff _).mpr
      ⟨"user".toList, "example.com".toList, by decide, by decide, by decide, by decide⟩
  · exact (user.User.ValidateEmail_iff _).mpr
      ⟨"orlmicron".toList, "gmail.com".toList, by decide, by decide, by decide, by decide⟩
  · exact (user.User.ValidateEmail_iff _).mpr
      ⟨"test".toList, "example.es".toList, by decide, by decide, by decide, by decide⟩

/-! ## Properties of identifiers -/

theorem primitive.fromHexChar_isSome (c : Char) :
    (primitive.fromHexChar c).isSome = true ↔ spec.isHexDigit c := by
  unfold primitive.fromHexChar spec.isHexDigit
  by_cases h1 : 48 ≤ c.toNat ∧ c.toNat ≤ 57
  · simp [h1]
  · by_cases h2 : 97 ≤ c.toNat ∧ c.toNat ≤ 102
    · simp [h1, h2]
    · by_cases h3 : 65 ≤ c.toNat ∧ c.toNat ≤ 70
      · simp [h1, h2, h3]
      · simp only [h1, h2, h3, if_false, Option.isSome_none, or_self]
        simp

theorem primitive.hexDecode_some : ∀ (cs : List Char) (b : List (Fin 256)),
    primitive.hexDecode cs = some b → 2 * b.length = cs.length ∧ ∀ c ∈ cs, spec.isHexDigit c
  | [], b, h => by
    simp [primitive.hexDecode] at h
    subst h
    simp
  | [c], b, h => by simp [primitive.hexDecode] at h
  | x :: y :: rest, b, h => by
    unfold primitive.hexDecode at h
    cases hx : primitive.fromHexChar x with
    | none => simp [hx] at h
    | some hi =>
      cases hy : primitive.fromHexChar y with
      | none => simp [hx, hy] at h
      | some lo =>
        cases hr : primitive.hexDecode rest with
        | none => simp [hx, hy, hr] at h
        | some tail =>
          simp [hx, hy, hr] at h
          subst h
          obtain ⟨hl, hall⟩ := primitive.hexDecode_some rest tail hr
          refine ⟨by simp; omega, ?_⟩
          intro c hc
          simp only [List.mem_cons] at hc
          rcases hc with rfl | rfl | hc
          · exact (primitive.fromHexChar_isSome _).mp (by simp [hx])
          · exact (primitive.fromHexChar_isSome _).mp (by simp [hy])
          · exact hall c hc

theorem primitive.hexDecode_of_hex : ∀ (cs : List Char),
    cs.length % 2 = 0 → (∀ c ∈ cs, spec.isHexDigit c) → ∃ b, primitive.hexDecode cs = some b
  | [], _, _ => ⟨[], rfl⟩
  | [c], h, _ => by simp at h
  | x :: y :: rest, h, hall => by
    obtain ⟨hi, hx⟩ := Option.isSome_iff_exists.mp
      ((primitive.fromHexChar_isSome x).mpr (hall x (by simp)))
    obtain ⟨lo, hy⟩ := Option.isSome_iff_exists.mp
      ((primitive.fromHexChar_isSome y).mpr (hall y (by simp)))
    obtain ⟨tail, hr⟩ := primitive.hexDecode_of_hex rest (by simp at h; omega)
      (fun c hc => hall c (by simp [hc]))
    exact ⟨Fin.ofNat (hi * 16 + lo) :: tail, by simp [primitive.hexDecode, hx, hy, hr]⟩

theorem primitive.ObjectIDFromHex_ok_iff (s : String) :
    (∃ id, primitive.ObjectIDFromHex s = .ok id) ↔ spec.wellFormedID s := by
  unfold primitive.ObjectIDFromHex spec.wellFormedID
  generalize s.toList = cs
  constructor
  · rintro ⟨id, h⟩
    cases hd : primitive.hexDecode cs with
    | none => rw [hd] at h; cases h
    | some b =>
      obtain ⟨hl, hall⟩ := primitive.hexDecode_some _ b hd
      by_cases h12 : b.length = 12
      · exact ⟨by omega, hall⟩
      · rw [hd] at h
        simp only [h12, dif_neg, not_false_eq_true] at h
        cases h
  · rintro ⟨hl, hall⟩
    obtain ⟨b, hd⟩ := primitive.hexDecode_of_hex cs (by omega) hall
    obtain ⟨hl2, -⟩ := primitive.hexDecode_some _ b hd
    have h12 : b.length = 12 := by omega
    refine ⟨⟨b, h12⟩, ?_⟩
    rw [hd]
    simp only [h12, dif_pos]

theorem primitive.ObjectIDFromHex_malformed (s : String) (h : ¬ spec.wellFormedID s) :
    ∃ err, primitive.ObjectIDFromHex s = .error err := by
  cases hr : primitive.ObjectIDFromHex s with
  | error err => exact ⟨err, rfl⟩
  | ok id => exact absurd ((primitive.ObjectIDFromHex_ok_iff s).mp ⟨id, hr⟩) h

/-! ## Properties of the user service -/

theorem user.User.ValidateEmail_of_no_at (u : user.User) (h : '@' ∉ u.Email.toList) :
    u.ValidateEmail = false := by
  cases hv : u.ValidateEmail
  · rfl
  · obtain ⟨loc, domain, he, -⟩ := (user.User.ValidateEmail_iff u).mp hv
    exfalso
    apply h
    rw [he]
    simp

theorem sample.userWithPassword_valid : sample.userWithPassword.ValidateEmail = true :=
  (user.User.ValidateEmail_iff _).mpr
    ⟨"user".toList, "example.com".toList, by decide, by decide, by decide, by decide⟩

theorem sample.userWithHash_valid : sample.userWithHash.ValidateEmail = true :=
  (user.User.ValidateEmail_iff _).mpr
    ⟨"user".toList, "example.com".toList, by decide, by decide, by decide, by decide⟩

theorem UserService.Create_eq {σ : Type} (repository : user.Repository σ)
    (hash : bcrypt.Library) (newObjectID : primitive.ObjectID) (createdAt updatedAt : time.Time)
    (u hashed : user.User) (w : World σ user.RepoCall) (hvalid : u.ValidateEmail = true)
    (hres : (if u.Password ≠ "" then u.EncryptPassword hash else (u, none)) = (hashed, none)) :
    UserService.Create repository hash newObjectID createdAt updatedAt u w =
      (if (repository.Create (UserService.prepared newObjectID createdAt updatedAt hashed)
            w.store).1.isSome then
          (UserService.prepared newObjectID createdAt updatedAt hashed,
            some GoError.response_ErrCouldNotInsert)
        else
          ({ UserService.prepared newObjectID createdAt updatedAt hashed with Password := "" },
            none),
        { store := (repository.Create (UserService.prepared newObjectID createdAt updatedAt
            hashed) w.store).2,
          calls := w.calls ++ [user.RepoCall.Create
            (UserService.prepared newObjectID createdAt updatedAt hashed)] }) := by
  unfold UserService.Create
  simp only [hvalid, Bool.not_true, Bool.false_eq_true, if_false]
  rw [hres]
  by_cases hz : hashed.ID.IsZero = true
  · cases hr : (repository.Create (UserService.prepared newObjectID createdAt updatedAt hashed)
        w.store).1 <;>
      simp [UserService.prepared, hz, repoCall, bind, StateT.bind, pure, StateT.pure] at hr ⊢ <;>
      simp [hr] <;> rfl
  · cases hr : (repository.Create (UserService.prepared newObjectID createdAt updatedAt hashed)
        w.store).1 <;>
      simp [UserService.prepared, hz, repoCall, bind, StateT.bind, pure, StateT.pure] at hr ⊢ <;>
      simp [hr] <;> rfl

theorem UserService.Create_hash_error {σ : Type} (repository : user.Repository σ)
    (hash : bcrypt.Library) (newObjectID : primitive.ObjectID) (createdAt updatedAt : time.Time)
    (u : user.User) (w : World σ user.RepoCall) (hvalid : u.ValidateEmail = true)
    (hp : u.Password ≠ "") (err : GoError) (herr : (u.EncryptPassword hash).2 = some err) :
    UserService.Create repository hash newObjectID createdAt updatedAt u w =
      (((u.EncryptPassword hash).1, some GoError.response_ErrCouldNotInsert), w) := by
  unfold UserService.Create
  simp only [hvalid, Bool.not_true, Bool.false_eq_true, if_false, hp, ne_eq, not_false_eq_true,
    if_true]
  generalize u.EncryptPassword hash = r at herr
  obtain ⟨u1, e1⟩ := r
  simp only at herr
  subst herr
  rfl

/-- The user after the hashing step of `Create`, when that step succeeds. -/
theorem UserService.hashed_exists (hash : bcrypt.Library) (u : user.User)
    (hhash : u.Password ≠ "" → (u.EncryptPassword hash).2 = none) :
    ∃ hashed : user.User,
      (if u.Password ≠ "" then u.EncryptPassword hash else (u, none)) = (hashed, none) ∧
      (u.Password ≠ "" → hashed.HashPassword ≠ none) ∧
      (u.Password = "" → hashed.HashPassword = u.HashPassword) ∧
      hashed.ID = u.ID ∧ hashed.Email = u.Email ∧ hashed.Password = u.Password ∧
      hashed.UID = u.UID ∧ hashed.FirstName = u.FirstName ∧ hashed.LastName = u.LastName ∧
      hashed.Country = u.Country ∧ hashed.State = u.State ∧ hashed.City = u.City ∧
      hashed.Bio = u.Bio ∧ hashed.Picture = u.Picture ∧ hashed.Following = u.Following ∧
      hashed.Role = u.Role ∧ hashed.NotificationID = u.NotificationID := by
  by_cases hp : u.Password = ""
  · exact ⟨u, by simp [hp], fun h => absurd hp h, fun _ => rfl, rfl, rfl, rfl, rfl, rfl, rfl,
      rfl, rfl, rfl, rfl, rfl, rfl, rfl, rfl⟩
  · have h2 := hhash hp
    cases hgen : hash.GenerateFromPassword (user.getSatlForPassword u.Password)
        bcrypt.DefaultCost with
    | error err =>
      rw [user.User.EncryptPassword_error hash u err hgen] at h2
      cases h2
    | ok hv =>
      refine ⟨{ u with HashPassword := some hv }, ?_, fun _ => by simp, fun h => absurd h hp,
        rfl, rfl, rfl, rfl, rfl, rfl, rfl, rfl, rfl, rfl, rfl, rfl, rfl, rfl⟩
      simp [hp, user.User.EncryptPassword_ok hash u hv hgen]

/-- C14. User create rejects a malformed email atomically: for a user whose email fails
`ValidateEmail`, `Create` returns `ErrInvalidEmail`, the user object is as it was, and the
record of repository calls and the store are as they were. -/
theorem Create_rejects_invalid_email {σ : Type} (repository : user.Repository σ)
    (hash : bcrypt.Library) (newObjectID : primitive.ObjectID) (createdAt updatedAt : time.Time)
    (u : user.User) (w : World σ user.RepoCall) (h : u.ValidateEmail = false) :
    UserService.Create repository hash newObjectID createdAt updatedAt u w
      = ((u, some .response_ErrInvalidEmail), w) := by
  simp [UserService.Create, h]
  rfl

/-- Witness of C14: the user with a malformed email of the service tests. -/
theorem Create_rejects_invalid_email_witness :
    sample.userWithIncorrectEmail.ValidateEmail = false ∧
    UserService.Create (sample.userRepository ({}, none) none) sample.plainHash sample.idA 1 2
        sample.userWithIncorrectEmail sample.start
      = ((sample.userWithIncorrectEmail, some .response_ErrInvalidEmail), sample.start) :=
  ⟨user.User.ValidateEmail_of_no_at _ (by decide),
    Create_rejects_invalid_email _ _ _ _ _ _ _ (user.User.ValidateEmail_of_no_at _ (by decide))⟩

/-- Counterexample to C15: a user with a valid email that arrives with a hash and no
plaintext password is created without error and keeps its hash, so `HashPassword` is not
nil although no password was supplied. -/
theorem Create_keeps_supplied_hash :
    sample.userWithHash.Password = "" ∧
    (UserService.Create (sample.userRepository ({}, none) none) sample.plainHash sample.idA 1 2
        sample.userWithHash sample.start).1.2 = none ∧
    (UserService.Create (sample.userRepository ({}, none) none) sample.plainHash sample.idA 1 2
        sample.userWithHash sample.start).1.1.HashPassword ≠ none := by
  rw [UserService.Create_eq _ _ _ _ _ _ sample.userWithHash _ sample.userWithHash_valid rfl]
  exact ⟨rfl, rfl, by decide⟩

/-- C15, amended. User create postconditions: for a user with a valid email whose password,
if any, is hashed without error, `Create` makes one repository call, the insert of a user
`stored`; when the insert succeeds it returns nil and the user is `stored` with the plaintext
cleared, when the insert fails it returns `ErrCouldNotInsert`. In `stored`, `Active` is true,
the id is the one supplied if that was not zero and the fresh, non-zero id otherwise,
`HashPassword` is not nil if a non-empty plaintext password was supplied and is the supplied
`HashPassword` otherwise, and the email, the role and the profile fields are unchanged. -/
theorem Create_postconditions {σ : Type} (repository : user.Repository σ)
    (hash : bcrypt.Library) (newObjectID : primitive.ObjectID) (createdAt updatedAt : time.Time)
    (u : user.User) (w : World σ user.RepoCall) (hvalid : u.ValidateEmail = true)
    (hhash : u.Password ≠ "" → (u.EncryptPassword hash).2 = none)
    (hfresh : newObjectID.IsZero = false) :
    ∃ stored : user.User,
      (UserService.Create repository hash newObjectID createdAt updatedAt u w).2
        = { store := (repository.Create stored w.store).2,
            calls := w.calls ++ [user.RepoCall.Create stored] } ∧
      ((repository.Create stored w.store).1 = none →
        (UserService.Create repository hash newObjectID createdAt updatedAt u w).1
          = ({ stored with Password := "" }, none)) ∧
      ((repository.Create stored w.store).1 ≠ none →
        (UserService.Create repository hash newObjectID createdAt updatedAt u w).1
          = (stored, some .response_ErrCouldNotInsert)) ∧
      stored.Active = true ∧
      (u.ID.IsZero = false → stored.ID = u.ID) ∧
      (u.ID.IsZero = true → stored.ID = newObjectID) ∧
      stored.ID.IsZero = false ∧
      (u.Password ≠ "" → stored.HashPassword ≠ none) ∧
      (u.Password = "" → stored.HashPassword = u.HashPassword) ∧
      stored.Email = u.Email ∧ stored.Role = u.Role ∧ stored.UID = u.UID ∧
      stored.FirstName = u.FirstName ∧ stored.LastName = u.LastName ∧
      stored.Country = u.Country ∧ stored.State = u.State ∧ stored.City = u.City ∧
      stored.Bio = u.Bio ∧ stored.Picture = u.Picture ∧ stored.Following = u.Following ∧
      stored.NotificationID = u.NotificationID := by
  obtain ⟨hashed, hres, hh1, hh2, hid, hemail, -, huid, hfn, hln, hco, hst, hci, hbio, hpic,
    hfol, hrole, hnot⟩ := UserService.hashed_exists hash u hhash
  have heq := UserService.Create_eq repository hash newObjectID createdAt updatedAt u hashed w
    hvalid hres
  refine ⟨UserService.prepared newObjectID createdAt updatedAt hashed, ?_, ?_, ?_, rfl, ?_, ?_,
    ?_, hh1, hh2, hemail, hrole, huid, hfn, hln, hco, hst, hci, hbio, hpic, hfol, hnot⟩
  · rw [heq]
  · intro h
    rw [heq, h]
    rfl
  · intro h
    rw [heq]
    cases hr : (repository.Create (UserService.prepared newObjectID createdAt updatedAt hashed)
      w.store).1 with
    | none => exact absurd hr h
    | some e => rfl
  · intro hz
    simp [UserService.prepared, hid, hz]
  · intro hz
    simp [UserService.prepared, hid, hz]
  · by_cases hz : u.ID.IsZero = true
    · simp [UserService.prepared, hid, hz, hfresh]
    · simp [UserService.prepared, hid, hz]

/-- Witness of C15: the user with a password of the service tests, inserted without error. -/
theorem Create_postconditions_witness :
    ∃ stored : user.User,
      (UserService.Create (sample.userRepository ({}, none) none) sample.plainHash sample.idA 1 2
          sample.userWithPassword sample.start).1 = ({ stored with Password := "" }, none) ∧
      stored.Active = true ∧ stored.ID = sample.idA ∧ stored.HashPassword ≠ none := by
  obtain ⟨stored, -, h2, -, h4, -, h6, -, h8, -⟩ :=
    Create_postconditions (sample.userRepository ({}, none) none) sample.plainHash sample.idA 1 2
      sample.userWithPassword sample.start sample.userWithPassword_valid (fun _ => rfl)
      (by decide)
  exact ⟨stored, h2 rfl, h4, h6 (by decide), h8 (by decide)⟩

/-- Counterexample to C16: when the insert fails, `Create` returns `ErrCouldNotInsert` and the
user object still holds the plaintext password. -/
theorem Create_failed_insert_keeps_plaintext :
    (UserService.Create (sample.userRepository ({}, none) (some (.lib "write failed")))
        sample.plainHash sample.idA 1 2 sample.userWithPassword sample.start).1.2
      = some .response_ErrCouldNotInsert ∧
    (UserService.Create (sample.userRepository ({}, none) (some (.lib "write failed")))
        sample.plainHash sample.idA 1 2 sample.userWithPassword sample.start).1.1.Password
      = "123456" := by
  rw [UserService.Create_eq (sample.userRepository ({}, none) (some (.lib "write failed")))
    sample.plainHash sample.idA 1 2 sample.userWithPassword
    (sample.userWithPassword.EncryptPassword sample.plainHash).1 sample.start
    sample.userWithPassword_valid rfl]
  exact ⟨rfl, rfl⟩

/-- C16, amended. Plaintext password is cleared after hashing: for a user with a valid email
and a non-empty plaintext password, when `Create` returns without error the `Password` field
of the user object is empty. -/
theorem Create_clears_plaintext {σ : Type} (repository : user.Repository σ)
    (hash : bcrypt.Library) (newObjectID : primitive.ObjectID) (createdAt updatedAt : time.Time)
    (u : user.User) (w : World σ user.RepoCall) (hvalid : u.ValidateEmail = true)
    (hp : u.Password ≠ "")
    (hok : (UserService.Create repository hash newObjectID createdAt updatedAt u w).1.2 = none) :
    (UserService.Create repository hash newObjectID createdAt updatedAt u w).1.1.Password = "" := by
  cases he : (u.EncryptPassword hash).2 with
  | some err =>
    rw [UserService.Create_hash_error repository hash newObjectID createdAt updatedAt u w hvalid
      hp err he] at hok
    cases hok
  | none =>
    obtain ⟨hashed, hres, -⟩ := UserService.hashed_exists hash u (fun _ => he)
    have heq := UserService.Create_eq repository hash newObjectID createdAt updatedAt u hashed w
      hvalid hres
    rw [heq] at hok ⊢
    cases hr : (repository.Create (UserService.prepared newObjectID createdAt updatedAt hashed)
      w.store).1 with
    | none => simp [hr]
    | some e => simp [hr] at hok

/-- Witness of C16: the user with a password of the service tests, inserted without error. -/
theorem Create_clears_plaintext_witness :
    sample.userWithPassword.Password ≠ "" ∧
    (UserService.Create (sample.userRepository ({}, none) none) sample.plainHash sample.idA 1 2
        sample.userWithPassword sample.start).1.1.Password = "" := by
  have hok : (UserService.Create (sample.userRepository ({}, none) none) sample.plainHash
      sample.idA 1 2 sample.userWithPassword sample.start).1.2 = none := by
    rw [UserService.Create_eq (sample.userRepository ({}, none) none) sample.plainHash
      sample.idA 1 2 sample.userWithPassword
      (sample.userWithPassword.EncryptPassword sample.plainHash).1 sample.start
      sample.userWithPassword_valid rfl]
    rfl
  exact ⟨by decide, Create_clears_plaintext _ _ _ _ _ _ _ sample.userWithPassword_valid
    (by decide) hok⟩

theorem UserService.LoginUser_lookup {σ : Type} (repository : user.Repository σ)
    (hash : bcrypt.Library) (lib : jwt.Library) (signingString : String) (now : Int)
    (u : user.User) (w : World σ user.RepoCall) (hvalid : u.ValidateEmail = true) :
    (UserService.LoginUser repository hash lib signingString now u w).1 =
      match (repository.GetByEmail u.Email w.store).1 with
      | (_, some err) => ({}, "", some err)
      | (matchUser, none) =>
        match claim.GenerateToken lib now signingString matchUser.ID.Hex matchUser.Role.val with
        | .error _ => ({}, "", some .response_ErrorInternalServerError)
        | .ok tokenString =>
          if matchUser.ComparePassword hash u.Password then (matchUser, tokenString, none)
          else ({}, "", some .response_ErrorBadEmailOrPassword) := by
  unfold UserService.LoginUser UserService.GetByEmail
  simp only [hvalid, Bool.not_true, Bool.false_eq_true, if_false]
  rcases hr : (repository.GetByEmail u.Email w.store).1 with ⟨matchUser, err⟩
  cases err with
  | some e =>
    simp [repoCall, bind, StateT.bind, pure, StateT.pure, hr]
  | none =>
    cases hg : claim.GenerateToken lib now signingString matchUser.ID.Hex matchUser.Role.val with
    | error e =>
      simp [repoCall, bind, StateT.bind, pure, StateT.pure, hr, hg]
    | ok tok =>
      by_cases hc : matchUser.ComparePassword hash u.Password = true
      · simp [repoCall, bind, StateT.bind, pure, StateT.pure, hr, hg, hc]
      · simp [repoCall, bind, StateT.bind, pure, StateT.pure, hr, hg, hc]

/-- C17. Login outcomes, with a JWT library whose signing yields a non-empty token:
`LoginUser` returns `ErrorBadEmailOrPassword` and calls no repository when the email is
malformed; returns the error of the lookup by email unchanged when the lookup fails; returns
`ErrorBadEmailOrPassword` when the lookup succeeds and the password does not match the hash
of the user found; and otherwise returns the user found, a non-empty token and no error. -/
theorem LoginUser_outcomes {σ : Type} (repository : user.Repository σ)
    (hash : bcrypt.Library) (lib : jwt.Library) (signingString : String) (now : Int)
    (u : user.User) (w : World σ user.RepoCall)
    (hsign : ∀ key payload, ∃ tok, lib.SignedString key payload = .ok tok ∧ tok ≠ "") :
    (u.ValidateEmail = false →
      UserService.LoginUser repository hash lib signingString now u w
        = (({}, "", some .response_ErrorBadEmailOrPassword), w)) ∧
    (u.ValidateEmail = true → ∀ matchUser err,
      (repository.GetByEmail u.Email w.store).1 = (matchUser, some err) →
      (UserService.LoginUser repository hash lib signingString now u w).1
        = ({}, "", some err)) ∧
    (u.ValidateEmail = true → ∀ matchUser,
      (repository.GetByEmail u.Email w.store).1 = (matchUser, none) →
      matchUser.ComparePassword hash u.Password = false →
      (UserService.LoginUser repository hash lib signingString now u w).1
        = ({}, "", some .response_ErrorBadEmailOrPassword)) ∧
    (u.ValidateEmail = true → ∀ matchUser,
      (repository.GetByEmail u.Email w.store).1 = (matchUser, none) →
      matchUser.ComparePassword hash u.Password = true →
      ∃ tokenString, tokenString ≠ "" ∧
        (UserService.LoginUser repository hash lib signingString now u w).1
          = (matchUser, tokenString, none)) := by
  refine ⟨?_, ?_, ?_, ?_⟩
  · intro h
    simp [UserService.LoginUser, h]
    rfl
  · intro hvalid matchUser err hr
    rw [UserService.LoginUser_lookup repository hash lib signingString now u w hvalid, hr]
  · intro hvalid matchUser hr hc
    obtain ⟨tok, htok, -⟩ := hsign signingString
      (claim.Claim.Marshal { StandardClaims := { ExpiresAt := now + 3600, Issuer := "User auth" }
                             ID := matchUser.ID.Hex, Role := matchUser.Role.val })
    have hg : claim.GenerateToken lib now signingString matchUser.ID.Hex matchUser.Role.val
        = .ok tok := htok
    rw [UserService.LoginUser_lookup repository hash lib signingString now u w hvalid, hr]
    simp [hg, hc]
  · intro hvalid matchUser hr hc
    obtain ⟨tok, htok, hne⟩ := hsign signingString
      (claim.Claim.Marshal { StandardClaims := { ExpiresAt := now + 3600, Issuer := "User auth" }
                             ID := matchUser.ID.Hex, Role := matchUser.Role.val })
    have hg : claim.GenerateToken lib now signingString matchUser.ID.Hex matchUser.Role.val
        = .ok tok := htok
    refine ⟨tok, hne, ?_⟩
    rw [UserService.LoginUser_lookup repository hash lib signingString now u w hvalid, hr]
    simp [hg, hc]

/-- Witness of C17: the user with a password of the service tests logs in against its own
stored form. -/
theorem LoginUser_outcomes_witness :
    ∃ tokenString, tokenString ≠ "" ∧
      (UserService.LoginUser
        (sample.userRepository
          ((sample.userWithPassword.EncryptPassword sample.plainHash).1, none) none)
        sample.plainHash (jwt.Library.fixed sample.payload) "secret" 0
        sample.userWithPassword sample.start).1
        = ((sample.userWithPassword.EncryptPassword sample.plainHash).1, tokenString, none) :=
  (LoginUser_outcomes
    (sample.userRepository
      ((sample.userWithPassword.EncryptPassword sample.plainHash).1, none) none)
    sample.plainHash (jwt.Library.fixed sample.payload) "secret" 0
    sample.userWithPassword sample.start
    (fun _ _ => ⟨"t", rfl, by decide⟩)).2.2.2 sample.userWithPassword_valid _ rfl (by decide)

/-! ## Properties of the identity provider wrapper -/

theorem strings.splitAfterFirst_append (sep : Char) (a b : List Char) (h : sep ∉ a) :
    strings.splitAfterFirst sep (a ++ sep :: b) = (a ++ [sep], some b) := by
  induction a with
  | nil => simp [strings.splitAfterFirst]
  | cons c cs ih =>
    have hc : ¬ c = sep := fun e => h (by simp [e])
    have hcs : sep ∉ cs := fun m => h (List.mem_cons_of_mem _ m)
    simp [strings.splitAfterFirst, hc, ih hcs]

theorem strings.splitAfterFirst_of_not_mem (sep : Char) (a : List Char) (h : sep ∉ a) :
    strings.splitAfterFirst sep a = (a, none) := by
  induction a with
  | nil => rfl
  | cons c cs ih =>
    have hc : ¬ c = sep := fun e => h (by simp [e])
    have hcs : sep ∉ cs := fun m => h (List.mem_cons_of_mem _ m)
    simp [strings.splitAfterFirst, hc, ih hcs]

/-- C18. Federated profile name split, as the code has it: for a display name made of a text
`a` without a space, one space and a text `b`, `GetFirebaseUser` sets `FirstName` to `a`
followed by the separating space and `LastName` to `b`; the user has role Client and the
external id as `UID`. -/
theorem GetFirebaseUser_keeps_separator (client : auth.FirebaseClient) (uid : String)
    (ur : auth.UserRecord) (a b : List Char) (hget : client.GetUser uid = .ok ur)
    (hname : ur.DisplayName.toList = a ++ ' ' :: b) (ha : ' ' ∉ a) :
    (auth.GetFirebaseUser client uid).2 = none ∧
    (auth.GetFirebaseUser client uid).1.FirstName = String.mk (a ++ [' ']) ∧
    (auth.GetFirebaseUser client uid).1.LastName = String.mk b ∧
    (auth.GetFirebaseUser client uid).1.Role = user.Client ∧
    (auth.GetFirebaseUser client uid).1.UID = uid := by
  have hs : strings.SplitAfterN2 ur.DisplayName ' ' = [String.mk (a ++ [' ']), String.mk b] := by
    unfold strings.SplitAfterN2
    rw [hname, strings.splitAfterFirst_append ' ' a b ha]
  simp [auth.GetFirebaseUser, hget, hs]

/-- Witness of C18: the display name `John Doe` gives the first name `John` with a trailing
space. -/
theorem GetFirebaseUser_keeps_separator_witness :
    (auth.GetFirebaseUser sample.johnDoe "uid-1").2 = none ∧
    (auth.GetFirebaseUser sample.johnDoe "uid-1").1.FirstName = "John " ∧
    (auth.GetFirebaseUser sample.johnDoe "uid-1").1.LastName = "Doe" ∧
    (auth.GetFirebaseUser sample.johnDoe "uid-1").1.Role = user.Client ∧
    (auth.GetFirebaseUser sample.johnDoe "uid-1").1.UID = "uid-1" :=
  GetFirebaseUser_keeps_separator sample.johnDoe "uid-1"
    { DisplayName := "John Doe", Email := "john@example.com", PhotoURL := "" }
    "John".toList "Doe".toList rfl (by decide) (by decide)

/-! ## Properties of identifier validation in the services -/

theorem primitive.ObjectIDFromHex_123 :
    primitive.ObjectIDFromHex "123" = .error (.lib "encoding/hex: invalid hex string") := by
  rfl

theorem spec.not_wellFormedID_123 : ¬ spec.wellFormedID "123" := by
  intro h
  have := h.1
  simp at this

/-- C19. User update ownership pre-check: `Update` called with role Client and an acting id
different from the target id returns `ErrorUnauthorized` with a zero-value user and calls no
repository, and this comes before the validation of the identifier: a Client acting on the
malformed target `123` gets `ErrorUnauthorized`, an Admin gets `ErrInvalidID`. For any role
other than Client the pre-check does not reject: a malformed target gives `ErrInvalidID` and
a well-formed one reaches the repository's `Update`. -/
theorem Update_ownership_precheck {σ : Type} (repository : user.Repository σ)
    (toUpdateid currendUserID : String) (role : user.Role) (u : user.User)
    (w : World σ user.RepoCall) :
    (role = user.Client → currendUserID ≠ toUpdateid →
      UserService.Update repository toUpdateid currendUserID role u w
        = (({}, some .response_ErrorUnauthorized), w)) ∧
    (currendUserID ≠ "123" →
      UserService.Update repository "123" currendUserID user.Client u w
        = (({}, some .response_ErrorUnauthorized), w)) ∧
    UserService.Update repository "123" currendUserID user.Admin u w
      = (({}, some .response_ErrInvalidID), w) ∧
    (role ≠ user.Client → ∀ err, primitive.ObjectIDFromHex toUpdateid = .error err →
      UserService.Update repository toUpdateid currendUserID role u w
        = (({}, some .response_ErrInvalidID), w)) ∧
    (role ≠ user.Client → ∀ objectID, primitive.ObjectIDFromHex toUpdateid = .ok objectID →
      ∃ rest, (UserService.Update repository toUpdateid currendUserID role u w).2.calls
        = w.calls ++ user.RepoCall.Update role objectID u :: rest) := by
  refine ⟨?_, ?_, ?_, ?_, ?_⟩
  · intro hr hne
    simp [UserService.Update, hr, hne]
    rfl
  · intro hne
    simp [UserService.Update, hne]
    rfl
  · have hA : ¬ user.Admin = user.Client := by decide
    simp [UserService.Update, hA, primitive.ObjectIDFromHex_123]
    rfl
  · intro hr err he
    simp [UserService.Update, hr, he]
    rfl
  · intro hr objectID he
    cases hu : (repository.Update role objectID u w.store).1 with
    | some e =>
      refine ⟨[], ?_⟩
      simp [UserService.Update, hr, he, repoCall, bind, StateT.bind, pure, StateT.pure, hu]
    | none =>
      rcases hg : (repository.GetByID objectID (repository.Update role objectID u w.store).2).1
        with ⟨found, gerr⟩
      refine ⟨[user.RepoCall.GetByID objectID], ?_⟩
      cases gerr <;>
        simp [UserService.Update, UserService.GetByID, hr, he, repoCall, bind, StateT.bind, pure,
          StateT.pure, hu, hg]

/-- Counterexample to C20: with the malformed target `123`, the user service's `Update` for a
Client acting under another id returns `ErrorUnauthorized`, not `ErrInvalidID`, and
`FollowTo` with the same malformed id twice returns `ErrCantFollowYou`. -/
theorem malformed_id_not_always_InvalidID :
    ¬ spec.wellFormedID "123" ∧
    UserService.Update (sample.userRepository ({}, none) none) "123" "abc" user.Client {}
        sample.start
      = (({}, some .response_ErrorUnauthorized), sample.start) ∧
    UserService.FollowTo (sample.userRepository ({}, none) none) "123" "123" sample.start
      = (({}, some .response_ErrCantFollowYou), sample.start) := by
  refine ⟨spec.not_wellFormedID_123, ?_, ?_⟩
  · simp [UserService.Update]
    rfl
  · simp [UserService.FollowTo]
    rfl

/-- C20, amended. Malformed identifiers fail `InvalidID` before persistence: for an
identifier `bad` that is not 24 hexadecimal characters, each of these calls returns
`ErrInvalidID` and makes no repository call: the user service's `GetByID` and `Delete` on
`bad`; its `Update` on the target `bad` when the role is not Client or the acting id is
`bad` itself; its `FollowTo` and `UnfollowTo` when one of the two ids is `bad` and the other
differs from it; the post service's `GetByID` and `GetAllForUser` on `bad`, its `Update` and
`Delete` on the target `bad`, and its `AddLike` and `DeleteLike` when the fan id or the post
id is `bad`. -/
theorem malformed_id_InvalidID {σ τ : Type} (users : user.Repository σ)
    (posts : post.Repository τ) (w : World σ user.RepoCall) (v : World τ post.RepoCall)
    (bad : String) (hbad : ¬ spec.wellFormedID bad) :
    UserService.GetByID users bad w = (({}, some .response_ErrInvalidID), w) ∧
    (∀ role, UserService.Delete users role bad w = (some .response_ErrInvalidID, w)) ∧
    (∀ acting role u, role ≠ user.Client ∨ acting = bad →
      UserService.Update users bad acting role u w = (({}, some .response_ErrInvalidID), w)) ∧
    (∀ other, other ≠ bad →
      UserService.FollowTo users bad other w = (({}, some .response_ErrInvalidID), w) ∧
      UserService.FollowTo users other bad w = (({}, some .response_ErrInvalidID), w) ∧
      UserService.UnfollowTo users bad other w = (({}, some .response_ErrInvalidID), w) ∧
      UserService.UnfollowTo users other bad w = (({}, some .response_ErrInvalidID), w)) ∧
    PostService.GetByID posts bad v = (({}, some .response_ErrInvalidID), v) ∧
    PostService.GetAllForUser posts bad v = (([], some .response_ErrInvalidID), v) ∧
    (∀ acting role p,
      PostService.Update posts bad acting role p v = (({}, some .response_ErrInvalidID), v)) ∧
    (∀ acting role,
      PostService.Delete posts bad acting role v = (some .response_ErrInvalidID, v)) ∧
    (∀ other,
      PostService.AddLike posts bad other v = (({}, some .response_ErrInvalidID), v) ∧
      PostService.AddLike posts other bad v = (({}, some .response_ErrInvalidID), v) ∧
      PostService.DeleteLike posts bad other v = (({}, some .response_ErrInvalidID), v) ∧
      PostService.DeleteLike posts other bad v = (({}, some .response_ErrInvalidID), v)) := by
  obtain ⟨err, herr⟩ := primitive.ObjectIDFromHex_malformed bad hbad
  refine ⟨?_, ?_, ?_, ?_, ?_, ?_, ?_, ?_, ?_⟩
  · simp [UserService.GetByID, herr]
    rfl
  · intro role
    simp [UserService.Delete, herr]
    rfl
  · intro acting role u h
    rcases h with h | h
    · simp [UserService.Update, h, herr]
      rfl
    · simp [UserService.Update, h, herr]
      rfl
  · intro other hne
    have hne2 : ¬ bad = other := fun e => hne e.symm
    refine ⟨?_, ?_, ?_, ?_⟩
    · simp [UserService.FollowTo, hne2, herr]
      rfl
    · cases ho : primitive.ObjectIDFromHex other <;>
        simp [UserService.FollowTo, hne, herr, ho] <;> rfl
    · simp [UserService.UnfollowTo, hne2, herr]
      rfl
    · cases ho : primitive.ObjectIDFromHex other <;>
        simp [UserService.UnfollowTo, hne, herr, ho] <;> rfl
  · simp [PostService.GetByID, herr]
    rfl
  · simp [PostService.GetAllForUser, herr]
    rfl
  · intro acting role p
    simp [PostService.Update, herr]
    rfl
  · intro acting role
    simp [PostService.Delete, herr]
    rfl
  · intro other
    refine ⟨?_, ?_, ?_, ?_⟩
    · simp [PostService.AddLike, herr]
      rfl
    · cases ho : primitive.ObjectIDFromHex other <;>
        simp [PostService.AddLike, herr, ho] <;> rfl
    · simp [PostService.DeleteLike, herr]
      rfl
    · cases ho : primitive.ObjectIDFromHex other <;>
        simp [PostService.DeleteLike, herr, ho] <;> rfl

/-- Witness of C20: the malformed identifier `123`. -/
theorem malformed_id_InvalidID_witness :
    ¬ spec.wellFormedID "123" ∧
    UserService.GetByID (sample.userRepository ({}, none) none) "123" sample.start
      = (({}, some .response_ErrInvalidID), sample.start) :=
  ⟨spec.not_wellFormedID_123,
    (malformed_id_InvalidID (sample.userRepository ({}, none) none)
      (sample.postRepository ({}, none) none) sample.start sample.start "123"
      spec.not_wellFormedID_123).1⟩

/-! ## Properties of the document store -/

theorem mongo.lookup_setField_self (k : String) (v : bson.Value) (doc : bson.D) :
    (mongo.setField k v doc).lookup k = some v := by
  induction doc with
  | nil => simp [mongo.setField, List.lookup]
  | cons kv rest ih =>
    obtain ⟨k1, w⟩ := kv
    by_cases h : k1 = k
    · simp [mongo.setField, h, List.lookup]
    · have h2 : (k == k1) = false := by simpa using fun e => h e.symm
      simp [mongo.setField, h, List.lookup, h2, ih]

theorem mongo.lookup_setField_ne (k k2 : String) (v : bson.Value) (doc : bson.D)
    (hne : k2 ≠ k) : (mongo.setField k v doc).lookup k2 = doc.lookup k2 := by
  induction doc with
  | nil =>
    have h2 : (k2 == k) = false := by simpa using hne
    simp [mongo.setField, List.lookup, h2]
  | cons kv rest ih =>
    obtain ⟨k1, w⟩ := kv
    by_cases h : k1 = k
    · subst h
      have h2 : (k2 == k1) = false := by simpa using hne
      simp [mongo.setField, List.lookup, h2]
    · simp only [mongo.setField, h, if_false, List.lookup]
      rw [ih]

theorem mongo.setField_same (k : String) (v : bson.Value) (doc : bson.D)
    (h : doc.lookup k = some v) : mongo.setField k v doc = doc := by
  induction doc with
  | nil => simp [List.lookup] at h
  | cons kv rest ih =>
    obtain ⟨k1, w⟩ := kv
    by_cases h1 : k1 = k
    · subst h1
      simp [List.lookup] at h
      simp [mongo.setField, h]
    · have h2 : (k == k1) = false := by simpa using fun e => h1 e.symm
      simp only [List.lookup, h2] at h
      simp [mongo.setField, h1, ih h]

theorem mongo.applyFields_set (fields : List (String × bson.Value)) (doc : bson.D) :
    mongo.applyFields "$set" fields doc
      = some (fields.foldl (fun d kv => mongo.setField kv.1 kv.2 d) doc) := by
  induction fields generalizing doc with
  | nil => rfl
  | cons kv rest ih =>
    obtain ⟨k, v⟩ := kv
    simp [mongo.applyFields, mongo.applyOperator, ih]

theorem mongo.lookup_foldl_setField_ne (fields : List (String × bson.Value)) (doc : bson.D)
    (k : String) (hk : k ∉ fields.map Prod.fst) :
    (fields.foldl (fun d kv => mongo.setField kv.1 kv.2 d) doc).lookup k = doc.lookup k := by
  induction fields generalizing doc with
  | nil => rfl
  | cons kv rest ih =>
    simp only [List.map_cons, List.mem_cons, not_or] at hk
    simp only [List.foldl_cons]
    rw [ih _ hk.2, mongo.lookup_setField_ne _ _ _ _ hk.1]

/-- An update that keeps the field `k` of every document keeps that field throughout the
collection, whatever the filter. -/
theorem mongo.updateFirst_frame (filter update : bson.M) (k : String)
    (hk : ∀ d d1, mongo.applyUpdate update d = some d1 → d1.lookup k = d.lookup k)
    (coll : mongo.Collection) :
    (mongo.updateFirst filter update coll).2.map (fun d => d.lookup k)
      = coll.map (fun d => d.lookup k) := by
  induction coll with
  | nil => rfl
  | cons d rest ih =>
    unfold mongo.updateFirst
    by_cases hm : mongo.isMatch filter d = true
    · simp only [hm, if_true]
      cases hu : mongo.applyUpdate update d with
      | none => rfl
      | some d1 => simp [hk d d1 hu]
    · simp only [hm]
      simpa using ih

theorem mongo.updateFirst_no_match (filter update : bson.M) (coll : mongo.Collection)
    (h : ∀ d ∈ coll, mongo.isMatch filter d = false) :
    mongo.updateFirst filter update coll = (some mongo.ErrNoDocuments, coll) := by
  induction coll with
  | nil => rfl
  | cons d rest ih =>
    have hd := h d (List.mem_cons_self _ _)
    have hr := ih (fun x hx => h x (List.mem_cons_of_mem _ hx))
    simp [mongo.updateFirst, hd, hr]

theorem mongo.exists_first_match (filter : bson.M) (coll : mongo.Collection)
    (h : ∃ d ∈ coll, mongo.isMatch filter d = true) :
    ∃ pre d post, coll = pre ++ d :: post ∧ (∀ x ∈ pre, mongo.isMatch filter x = false) ∧
      mongo.isMatch filter d = true := by
  induction coll with
  | nil =>
    obtain ⟨d, hd, -⟩ := h
    cases hd
  | cons d rest ih =>
    cases hm : mongo.isMatch filter d with
    | true => exact ⟨[], d, rest, rfl, by simp, hm⟩
    | false =>
      obtain ⟨x, hx, hxm⟩ := h
      rcases List.mem_cons.mp hx with hx | hx
      · subst hx
        rw [hm] at hxm
        cases hxm
      · obtain ⟨pre, e, post, h1, h2, h3⟩ := ih ⟨x, hx, hxm⟩
        refine ⟨d :: pre, e, post, by simp [h1], ?_, h3⟩
        intro y hy
        rcases List.mem_cons.mp hy with hy | hy
        · subst hy
          exact hm
        · exact h2 y hy

theorem mongo.updateFirst_split (filter update : bson.M) (pre post : mongo.Collection)
    (d d1 : bson.D) (hpre : ∀ x ∈ pre, mongo.isMatch filter x = false)
    (hd : mongo.isMatch filter d = true) (hu : mongo.applyUpdate update d = some d1) :
    mongo.updateFirst filter update (pre ++ d :: post) = (none, pre ++ d1 :: post) := by
  induction pre with
  | nil => simp [mongo.updateFirst, hd, hu]
  | cons x pre ih =>
    have hx := hpre x (List.mem_cons_self _ _)
    have hr := ih (fun y hy => hpre y (List.mem_cons_of_mem _ hy))
    simp [mongo.updateFirst, hx, hr]

theorem mongo.FindOne_split (filter : bson.M) (pre post : mongo.Collection) (d : bson.D)
    (hf : mongo.filterError filter = none)
    (hpre : ∀ x ∈ pre, mongo.isMatch filter x = false)
    (hd : mongo.isMatch filter d = true) :
    mongo.Collection.FindOne (pre ++ d :: post) filter = some d := by
  unfold mongo.Collection.FindOne
  rw [hf]
  simp only
  induction pre with
  | nil => simp [List.find?, hd]
  | cons x pre ih =>
    have hx := hpre x (List.mem_cons_self _ _)
    have hr := ih (fun y hy => hpre y (List.mem_cons_of_mem _ hy))
    simpa [List.find?, hx] using hr

theorem mongo.isMatch_id (id : primitive.ObjectID) (d : bson.D) :
    mongo.isMatch [("_id", .value (.scalar (.objectID id)))] d
      = mongo.holds (d.lookup "_id") (.objectID id) := by
  simp [mongo.isMatch, mongo.meets]

theorem mongo.deleteFirst_no_match (filter : bson.M) (coll : mongo.Collection)
    (h : ∀ d ∈ coll, mongo.isMatch filter d = false) :
    mongo.deleteFirst filter coll = coll := by
  induction coll with
  | nil => rfl
  | cons d rest ih =>
    have hd := h d (List.mem_cons_self _ _)
    have hr := ih (fun x hx => h x (List.mem_cons_of_mem _ hx))
    simp [mongo.deleteFirst, hd, hr]

theorem bson.keys_written (fs : List (String × Option bson.Value)) (k : String)
    (hk : k ∉ fs.map Prod.fst) : (bson.written fs).lookup k = none := by
  induction fs with
  | nil => rfl
  | cons kv rest ih =>
    obtain ⟨k1, v⟩ := kv
    simp only [List.map_cons, List.mem_cons, not_or] at hk
    have h2 : (k == k1) = false := by simpa using hk.1
    cases v with
    | none => simpa [bson.written] using ih hk.2
    | some x => simp [bson.written, List.lookup, h2, ih hk.2]

/-- What a document holds under a key: what is written for the field of that name. -/
theorem bson.lookup_written (fs : List (String × Option bson.Value)) (k : String)
    (hnd : (fs.map Prod.fst).Nodup) :
    (bson.written fs).lookup k = (fs.lookup k).join := by
  induction fs with
  | nil => rfl
  | cons kv rest ih =>
    obtain ⟨k1, v⟩ := kv
    simp only [List.map_cons, List.nodup_cons] at hnd
    by_cases h : k = k1
    · subst h
      cases v with
      | none => simp [bson.written, List.lookup, bson.keys_written rest k hnd.1]
      | some x => simp [bson.written, List.lookup]
    · have h2 : (k == k1) = false := by simpa using h
      cases v with
      | none => simpa [bson.written, List.lookup, h2] using ih hnd.2
      | some x => simpa [bson.written, List.lookup, h2] using ih hnd.2

theorem bson.userFields_nodup (u : user.User) :
    ((bson.userFields u).map Prod.fst).Nodup := by
  have : (bson.userFields u).map Prod.fst
      = ["_id", "email", "password", "uid", "first_name", "last_name", "country", "state",
          "city", "bio", "picture", "following", "role", "active", "notification_id",
          "created_at", "updated_at"] := rfl
  rw [this]
  decide

theorem bson.MarshalUser_role (u : user.User) :
    (bson.MarshalUser u).lookup "role"
      = if u.Role.val = 0 then none else some (.scalar (.int u.Role.val)) := by
  unfold bson.MarshalUser
  rw [bson.lookup_written _ _ (bson.userFields_nodup u)]
  simp [bson.userFields, List.lookup]

theorem bson.MarshalUser_id (u : user.User) :
    (bson.MarshalUser u).lookup "_id"
      = if u.ID.IsZero then none else some (.scalar (.objectID u.ID)) := by
  unfold bson.MarshalUser
  rw [bson.lookup_written _ _ (bson.userFields_nodup u)]
  simp [bson.userFields, List.lookup]

/-! ## Properties of the MongoDB repositories -/

theorem mongo.isMatch_id_role (id : primitive.ObjectID) (d : bson.D) :
    mongo.isMatch [("_id", .value (.scalar (.objectID id))),
        ("role", .value (.scalar (.int user.Client.val)))] d
      = (mongo.holds (d.lookup "_id") (.objectID id) &&
          mongo.holds (d.lookup "role") (.int user.Client.val)) := by
  simp [mongo.isMatch, mongo.meets]

theorem mongo.lookup_withID (doc : bson.D) (newObjectID : primitive.ObjectID) (k : String)
    (hk : k ≠ "_id") : (mongo.withID doc newObjectID).lookup k = doc.lookup k := by
  unfold mongo.withID
  split_ifs
  · rfl
  · have h2 : (k == "_id") = false := by simpa using hk
    simp [List.lookup, h2]

/-- No record that `Create` stores has a field `role` that holds 0. -/
theorem user.repository.created_role (u : user.User) (newObjectID : primitive.ObjectID) :
    (mongo.withID (bson.MarshalUser u) newObjectID).lookup "role"
        = (if u.Role.val = 0 then none else some (.scalar (.int u.Role.val))) ∧
    mongo.holds ((mongo.withID (bson.MarshalUser u) newObjectID).lookup "role")
        (.int user.Client.val) = false := by
  have h : (mongo.withID (bson.MarshalUser u) newObjectID).lookup "role"
      = (if u.Role.val = 0 then none else some (.scalar (.int u.Role.val))) := by
    rw [mongo.lookup_withID _ _ _ (by decide), bson.MarshalUser_role]
  refine ⟨h, ?_⟩
  rw [h]
  by_cases h0 : u.Role.val = 0
  · simp [h0, mongo.holds]
  · simp [h0, mongo.holds, user.Client]

theorem user.repository.filterError_updateFilter (role : user.Role) (id : primitive.ObjectID) :
    mongo.filterError (user.repository.updateFilter role id) = none := by
  unfold user.repository.updateFilter
  split_ifs <;> rfl

theorem user.repository.filterError_deleteFilter (role : user.Role) (id : primitive.ObjectID) :
    mongo.filterError (user.repository.deleteFilter role id) = none := by
  unfold user.repository.deleteFilter
  split_ifs <;> rfl

theorem user.repository.created_not_matched (u : user.User)
    (id newObjectID : primitive.ObjectID) :
    mongo.isMatch (user.repository.updateFilter user.Admin id)
        (mongo.withID (bson.MarshalUser u) newObjectID) = false ∧
    mongo.isMatch (user.repository.updateFilter user.Client id)
        (mongo.withID (bson.MarshalUser u) newObjectID) = false ∧
    mongo.isMatch (user.repository.deleteFilter user.Admin id)
        (mongo.withID (bson.MarshalUser u) newObjectID) = false := by
  have h := (user.repository.created_role u newObjectID).2
  have hA : user.repository.updateFilter user.Admin id
      = [("_id", .value (.scalar (.objectID id))),
        ("role", .value (.scalar (.int user.Client.val)))] := by
    simp [user.repository.updateFilter, user.Admin, user.Client]
  have hC : user.repository.updateFilter user.Client id
      = [("_id", .value (.scalar (.objectID id))),
        ("role", .value (.scalar (.int user.Client.val)))] := by
    simp [user.repository.updateFilter]
  have hD : user.repository.deleteFilter user.Admin id
      = [("_id", .value (.scalar (.objectID id))),
        ("role", .value (.scalar (.int user.Client.val)))] := by
    simp [user.repository.deleteFilter]
  rw [hA, hC, hD, mongo.isMatch_id_role, h]
  simp

/-- C21, as the code has it. The filter with `role: Client` matches no record the program
stores: `Create` stores a user through the `bson` tags of `user.User`, where the role is
`omitempty` and `Client` is 0, so the record of a Client has no field `role` (and reads back
as a Client), and the record of an Admin or Super has the role 1 or 2. The filters that
`Update` builds for the acting roles Admin and Client and that `Delete` builds for the acting
role Admin therefore match no record that `Create` has stored, the Client with the given id
included: over a collection of such records `Update` returns `ErrNoDocuments` and `Delete`
deletes nothing. The filter for the acting role Super does match the record with the given
id. And the filter `Delete` builds for the acting role Client stays nil, which the store
reads as the empty document: the first record of the collection is deleted, whatever the
id. -/
theorem Repository_filter_misses_clients (u patch : user.User)
    (id newObjectID : primitive.ObjectID) (now : time.Time) (coll : mongo.Collection) :
    (user.repository.Create newObjectID u coll = (some mongo.ErrDuplicateKey, coll) ∨
      user.repository.Create newObjectID u coll
        = (none, coll ++ [mongo.withID (bson.MarshalUser u) newObjectID])) ∧
    (u.Role = user.Client →
      (mongo.withID (bson.MarshalUser u) newObjectID).lookup "role" = none ∧
      spec.storedRole (mongo.withID (bson.MarshalUser u) newObjectID) = some user.Client) ∧
    (mongo.isMatch (user.repository.updateFilter user.Admin id)
        (mongo.withID (bson.MarshalUser u) newObjectID) = false ∧
      mongo.isMatch (user.repository.updateFilter user.Client id)
        (mongo.withID (bson.MarshalUser u) newObjectID) = false ∧
      mongo.isMatch (user.repository.deleteFilter user.Admin id)
        (mongo.withID (bson.MarshalUser u) newObjectID) = false) ∧
    (u.ID.IsZero = false →
      spec.storedID (mongo.withID (bson.MarshalUser u) newObjectID) = some u.ID ∧
      mongo.isMatch (user.repository.updateFilter user.Super u.ID)
        (mongo.withID (bson.MarshalUser u) newObjectID) = true ∧
      mongo.isMatch (user.repository.deleteFilter user.Super u.ID)
        (mongo.withID (bson.MarshalUser u) newObjectID) = true) ∧
    ((∀ d ∈ coll, ∃ v n, d = mongo.withID (bson.MarshalUser v) n) →
      user.repository.Update now user.Admin id patch coll = (some mongo.ErrNoDocuments, coll) ∧
      user.repository.Update now user.Client id patch coll = (some mongo.ErrNoDocuments, coll) ∧
      user.repository.Delete user.Admin id coll = (none, coll)) ∧
    (user.repository.deleteFilter user.Client id = [] ∧
      ∀ d rest, user.repository.Delete user.Client id (d :: rest) = (none, rest)) ∧
    (user.repository.Create sample.idB sample.client [] = (none, [sample.clientRecord]) ∧
      spec.storedID sample.clientRecord = some sample.idA ∧
      spec.storedRole sample.clientRecord = some user.Client ∧
      user.repository.Update 7 user.Client sample.idA { FirstName := "Ann" }
          [sample.clientRecord] = (some mongo.ErrNoDocuments, [sample.clientRecord]) ∧
      user.repository.Update 7 user.Admin sample.idA { FirstName := "Ann" }
          [sample.clientRecord] = (some mongo.ErrNoDocuments, [sample.clientRecord]) ∧
      user.repository.Delete user.Admin sample.idA [sample.clientRecord]
        = (none, [sample.clientRecord]) ∧
      user.repository.Delete user.Super sample.idA [sample.clientRecord] = (none, [])) := by
  have hrole := user.repository.created_role u newObjectID
  refine ⟨?_, ?_, user.repository.created_not_matched u id newObjectID, ?_, ?_, ?_, ?_⟩
  · unfold user.repository.Create mongo.Collection.InsertOne
    split_ifs
    · exact Or.inl rfl
    · exact Or.inr rfl
  · intro hc
    have h0 : u.Role.val = 0 := by rw [hc]; rfl
    have hnone : (mongo.withID (bson.MarshalUser u) newObjectID).lookup "role" = none := by
      rw [hrole.1]
      simp [h0]
    refine ⟨hnone, ?_⟩
    unfold spec.storedRole
    rw [hnone]
  · intro hz
    have hid : (mongo.withID (bson.MarshalUser u) newObjectID).lookup "_id"
        = some (.scalar (.objectID u.ID)) := by
      have hm : (bson.MarshalUser u).lookup "_id" = some (.scalar (.objectID u.ID)) := by
        rw [bson.MarshalUser_id]
        simp [hz]
      unfold mongo.withID
      simp [hm]
    refine ⟨?_, ?_, ?_⟩
    · unfold spec.storedID
      rw [hid]
    · simp [user.repository.updateFilter, user.Super, user.Client, user.Admin, mongo.isMatch,
        mongo.meets, hid, mongo.holds]
    · simp [user.repository.deleteFilter, user.Super, user.Admin, mongo.isMatch,
        mongo.meets, hid, mongo.holds]
  · intro hcoll
    have hno : ∀ d ∈ coll,
        mongo.isMatch (user.repository.updateFilter user.Admin id) d = false ∧
        mongo.isMatch (user.repository.updateFilter user.Client id) d = false ∧
        mongo.isMatch (user.repository.deleteFilter user.Admin id) d = false := by
      intro d hd
      obtain ⟨v, n, hv⟩ := hcoll d hd
      rw [hv]
      exact user.repository.created_not_matched v id n
    refine ⟨?_, ?_, ?_⟩
    · unfold user.repository.Update mongo.Collection.FindOneAndUpdate
      simp only [user.repository.filterError_updateFilter]
      exact mongo.updateFirst_no_match _ _ _ (fun d hd => (hno d hd).1)
    · unfold user.repository.Update mongo.Collection.FindOneAndUpdate
      simp only [user.repository.filterError_updateFilter]
      exact mongo.updateFirst_no_match _ _ _ (fun d hd => (hno d hd).2.1)
    · unfold user.repository.Delete mongo.Collection.DeleteOne
      simp only [user.repository.filterError_deleteFilter]
      rw [mongo.deleteFirst_no_match _ _ (fun d hd => (hno d hd).2.2)]
  · constructor
    · rfl
    · intro d rest
      rfl
  · refine ⟨?_, ?_, ?_, ?_, ?_, ?_, ?_⟩ <;> decide

theorem user.repository.Update_eq (now : time.Time) (role : user.Role)
    (id : primitive.ObjectID) (u : user.User) (coll : mongo.Collection) :
    user.repository.Update now role id u coll
      = mongo.updateFirst (user.repository.updateFilter role id)
          [("$set", .document (user.repository.updateDocument u now))] coll := by
  unfold user.repository.Update mongo.Collection.FindOneAndUpdate
  simp only [user.repository.filterError_updateFilter]

theorem user.repository.applyUpdate_set (u : user.User) (now : time.Time) (doc : bson.D) :
    mongo.applyUpdate [("$set", .document (user.repository.updateDocument u now))] doc
      = some ((user.repository.updateDocument u now).foldl
          (fun d kv => mongo.setField kv.1 kv.2 d) doc) := by
  simp only [mongo.applyUpdate, mongo.applyFields_set]

theorem user.repository.Update_frame (now : time.Time) (role : user.Role)
    (id : primitive.ObjectID) (u : user.User) (coll : mongo.Collection) (k : String)
    (hk : k ∉ (user.repository.updateDocument u now).map Prod.fst) :
    (user.repository.Update now role id u coll).2.map (fun d => d.lookup k)
      = coll.map (fun d => d.lookup k) := by
  rw [user.repository.Update_eq]
  apply mongo.updateFirst_frame
  intro d d1 h
  rw [user.repository.applyUpdate_set, Option.some.injEq] at h
  rw [← h]
  exact mongo.lookup_foldl_setField_ne _ _ _ hk

/-- C22. User update touches profile fields only: for every acting role, every target id,
every patch and every collection, `Repository.Update` of the user repository applies to the
first record that matches its filter, and to no other, a `$set` document with exactly the
keys `first_name`, `last_name`, `country`, `state`, `city`, `bio`, `picture` and `updated_at`:
that record gets these eight fields set to the values of the patch and to the time of the
call and keeps every other field, the records before and after it are untouched, and when no
record matches the call fails with `ErrNoDocuments` and changes nothing. So after `Update`
every record of the collection has the `role`, `email`, `password`, `uid`, `active` and
`following` it had before, whatever the patch carries for them. -/
theorem Update_profile_fields_only (now : time.Time) (role : user.Role)
    (id : primitive.ObjectID) (u : user.User) (coll : mongo.Collection) :
    (user.repository.updateDocument u now).map Prod.fst
      = ["first_name", "last_name", "country", "state", "city", "bio", "picture",
          "updated_at"] ∧
    (∀ front d back, coll = front ++ d :: back →
      (∀ x ∈ front, mongo.isMatch (user.repository.updateFilter role id) x = false) →
      mongo.isMatch (user.repository.updateFilter role id) d = true →
      ∃ d1, user.repository.Update now role id u coll = (none, front ++ d1 :: back) ∧
        d1.lookup "first_name" = some (.scalar (.string u.FirstName)) ∧
        d1.lookup "last_name" = some (.scalar (.string u.LastName)) ∧
        d1.lookup "country" = some (.scalar (.string u.Country)) ∧
        d1.lookup "state" = some (.scalar (.string u.State)) ∧
        d1.lookup "city" = some (.scalar (.string u.City)) ∧
        d1.lookup "bio" = some (.scalar (.string u.Bio)) ∧
        d1.lookup "picture" = some (.scalar (.string u.Picture)) ∧
        d1.lookup "updated_at" = some (.scalar (.dateTime now)) ∧
        ∀ k, k ∉ ["first_name", "last_name", "country", "state", "city", "bio", "picture",
            "updated_at"] → d1.lookup k = d.lookup k) ∧
    ((∀ x ∈ coll, mongo.isMatch (user.repository.updateFilter role id) x = false) →
      user.repository.Update now role id u coll = (some mongo.ErrNoDocuments, coll)) ∧
    (∀ k, k ∉ ["first_name", "last_name", "country", "state", "city", "bio", "picture",
        "updated_at"] →
      (user.repository.Update now role id u coll).2.map (fun d => d.lookup k)
        = coll.map (fun d => d.lookup k)) ∧
    (∀ k ∈ ["role", "email", "password", "uid", "active", "following"],
      (user.repository.Update now role id u coll).2.map (fun d => d.lookup k)
        = coll.map (fun d => d.lookup k)) ∧
    user.repository.Update 7 user.Super sample.idA
        { FirstName := "Ann", Email := "other@example.com", Role := user.Super }
        [sample.newFollowerRecord, sample.clientRecord]
      = (none, [sample.newFollowerRecord,
          [("_id", .scalar (.objectID sample.idA)),
           ("email", .scalar (.string "a@example.com")),
           ("active", .scalar (.bool true)),
           ("first_name", .scalar (.string "Ann")), ("last_name", .scalar (.string "")),
           ("country", .scalar (.string "")), ("state", .scalar (.string "")),
           ("city", .scalar (.string "")), ("bio", .scalar (.string "")),
           ("picture", .scalar (.string "")), ("updated_at", .scalar (.dateTime 7))]]) := by
  have hkeys : (user.repository.updateDocument u now).map Prod.fst
      = ["first_name", "last_name", "country", "state", "city", "bio", "picture",
          "updated_at"] := rfl
  refine ⟨hkeys, ?_, ?_, ?_, ?_, by decide⟩
  · intro front d back hc hfront hd
    refine ⟨(user.repository.updateDocument u now).foldl
        (fun d kv => mongo.setField kv.1 kv.2 d) d, ?_, ?_⟩
    · rw [user.repository.Update_eq, hc]
      exact mongo.updateFirst_split _ _ front back d _ hfront hd
        (user.repository.applyUpdate_set u now d)
    · refine ⟨?_, ?_, ?_, ?_, ?_, ?_, ?_, ?_, ?_⟩
      all_goals first
        | (intro k hk
           exact mongo.lookup_foldl_setField_ne _ _ _ (by rw [hkeys]; exact hk))
        | (simp only [user.repository.updateDocument, List.foldl_cons, List.foldl_nil]
           simp [mongo.lookup_setField_self, mongo.lookup_setField_ne])
  · intro hno
    rw [user.repository.Update_eq]
    exact mongo.updateFirst_no_match _ _ _ hno
  · intro k hk
    exact user.repository.Update_frame now role id u coll k (by rw [hkeys]; exact hk)
  · intro k hk
    apply user.repository.Update_frame now role id u coll k
    rw [hkeys]
    simp only [List.mem_cons, List.mem_singleton, List.not_mem_nil, or_false] at hk ⊢
    rcases hk with h | h | h | h | h | h <;> subst h <;> decide

/-! ## Properties of following and of likes -/

theorem primitive.ObjectIDFromHex_idA :
    primitive.ObjectIDFromHex "0102030405060708090a0b0c" = .ok sample.idA := by
  rfl

theorem primitive.ObjectIDFromHex_idB :
    primitive.ObjectIDFromHex "1112131415161718191a1b1c" = .ok sample.idB := by
  rfl

/-- C23. Follow self-rejection: for every string `X`, well-formed id or not, `FollowTo(X, X)`
and `UnfollowTo(X, X)` return `ErrCantFollowYou` with a zero-value user and make no
repository call. -/
theorem FollowTo_self_rejected {σ : Type} (repository : user.Repository σ) (X : String)
    (w : World σ user.RepoCall) :
    UserService.FollowTo repository X X w = (({}, some .response_ErrCantFollowYou), w) ∧
    UserService.UnfollowTo repository X X w = (({}, some .response_ErrCantFollowYou), w) := by
  constructor
  · simp [UserService.FollowTo]
    rfl
  · simp [UserService.UnfollowTo]
    rfl

theorem UserService.FollowTo_repository_error (repository : user.Repository mongo.Collection)
    (followingID followerID : String) (G F : primitive.ObjectID) (err : GoError)
    (w : World mongo.Collection user.RepoCall) (c1 : mongo.Collection)
    (hne : followingID ≠ followerID)
    (hG : primitive.ObjectIDFromHex followingID = .ok G)
    (hF : primitive.ObjectIDFromHex followerID = .ok F)
    (hr : repository.FollowTo G F w.store = (some err, c1)) :
    UserService.FollowTo repository followingID followerID w
      = (({}, some err), { store := c1, calls := w.calls ++ [.FollowTo G F] }) := by
  simp [UserService.FollowTo, hne, hG, hF, repoCall, bind, StateT.bind, pure, StateT.pure, hr]

theorem UserService.UnfollowTo_repository_error (repository : user.Repository mongo.Collection)
    (followingID followerID : String) (G F : primitive.ObjectID) (err : GoError)
    (w : World mongo.Collection user.RepoCall) (c1 : mongo.Collection)
    (hne : followingID ≠ followerID)
    (hG : primitive.ObjectIDFromHex followingID = .ok G)
    (hF : primitive.ObjectIDFromHex followerID = .ok F)
    (hr : repository.UnfollowTo G F w.store = (some err, c1)) :
    UserService.UnfollowTo repository followingID followerID w
      = (({}, some err), { store := c1, calls := w.calls ++ [.UnfollowTo G F] }) := by
  simp [UserService.UnfollowTo, hne, hG, hF, repoCall, bind, StateT.bind, pure, StateT.pure, hr]

/-- C24, as the code has it. `FollowTo` and `UnfollowTo` of the repository fail on every
call: their filters give the operators `$nin` and `$in` the id itself where the store needs
an array, the store rejects the filter, and the repository returns
`ErrorInternalServerError` with the store as it was, on the first call as on the second and
whether or not the id is followed; `UserService.FollowTo` and `UserService.UnfollowTo` over
this repository return that error with a zero-value user. On the store where B follows
nobody, the first follow of A by B fails and the record of B is unchanged. -/
theorem FollowTo_always_fails (coll : mongo.Collection) (G F : primitive.ObjectID) :
    coll.FindOneAndUpdate
        [("_id", .value (.scalar (.objectID F))),
         ("following", .document [("$nin", .scalar (.objectID G))])]
        [("$push", .document [("following", .scalar (.objectID G))])]
      = (some (mongo.ErrNeedsArray "$nin"), coll) ∧
    coll.FindOneAndUpdate
        [("_id", .value (.scalar (.objectID F))),
         ("following", .document [("$in", .scalar (.objectID G))])]
        [("$pull", .document [("following", .scalar (.objectID G))])]
      = (some (mongo.ErrNeedsArray "$in"), coll) ∧
    user.repository.FollowTo G F coll = (some .response_ErrorInternalServerError, coll) ∧
    user.repository.UnfollowTo G F coll = (some .response_ErrorInternalServerError, coll) ∧
    (∀ (repository : user.Repository mongo.Collection) (followingID followerID : String)
      (calls : List user.RepoCall),
      repository.FollowTo = user.repository.FollowTo → followingID ≠ followerID →
      primitive.ObjectIDFromHex followingID = .ok G →
      primitive.ObjectIDFromHex followerID = .ok F →
      UserService.FollowTo repository followingID followerID { store := coll, calls := calls }
        = (({}, some .response_ErrorInternalServerError),
            { store := coll, calls := calls ++ [.FollowTo G F] })) ∧
    (∀ (repository : user.Repository mongo.Collection) (followingID followerID : String)
      (calls : List user.RepoCall),
      repository.UnfollowTo = user.repository.UnfollowTo → followingID ≠ followerID →
      primitive.ObjectIDFromHex followingID = .ok G →
      primitive.ObjectIDFromHex followerID = .ok F →
      UserService.UnfollowTo repository followingID followerID { store := coll, calls := calls }
        = (({}, some .response_ErrorInternalServerError),
            { store := coll, calls := calls ++ [.UnfollowTo G F] })) ∧
    user.repository.FollowTo sample.idA sample.idB [sample.newFollowerRecord]
      = (some .response_ErrorInternalServerError, [sample.newFollowerRecord]) ∧
    (∀ repository : user.Repository mongo.Collection,
      repository.FollowTo = user.repository.FollowTo →
      UserService.FollowTo repository "0102030405060708090a0b0c" "1112131415161718191a1b1c"
          { store := [sample.newFollowerRecord], calls := [] }
        = (({}, some .response_ErrorInternalServerError),
            { store := [sample.newFollowerRecord],
              calls := [.FollowTo sample.idA sample.idB] })) := by
  have hf : user.repository.FollowTo G F coll
      = (some .response_ErrorInternalServerError, coll) := rfl
  have hu : user.repository.UnfollowTo G F coll
      = (some .response_ErrorInternalServerError, coll) := rfl
  refine ⟨rfl, rfl, hf, hu, ?_, ?_, rfl, ?_⟩
  · intro repository followingID followerID calls hr hne hG hF
    exact UserService.FollowTo_repository_error repository _ _ G F _
      { store := coll, calls := calls } _ hne hG hF (by rw [hr]; exact hf)
  · intro repository followingID followerID calls hr hne hG hF
    exact UserService.UnfollowTo_repository_error repository _ _ G F _
      { store := coll, calls := calls } _ hne hG hF (by rw [hr]; exact hu)
  · intro repository hr
    exact UserService.FollowTo_repository_error repository _ _ sample.idA sample.idB _
      { store := [sample.newFollowerRecord], calls := [] } _ (by decide)
      primitive.ObjectIDFromHex_idA primitive.ObjectIDFromHex_idB (by rw [hr]; rfl)

/-- What `$addToSet` of an id on `likes` does to a record whose `likes` is no scalar. -/
theorem post.repository.addToSet_likes (u : primitive.ObjectID) (d : bson.D)
    (hlikes : ∀ v, d.lookup "likes" ≠ some (.scalar v)) :
    ∃ d1, mongo.applyUpdate [("$addToSet", .document [("likes", .scalar (.objectID u))])] d
        = some d1 ∧
      d1.lookup "_id" = d.lookup "_id" ∧
      d1.lookup "likes" = some (.array (if bson.Scalar.objectID u ∈ spec.storedSet d "likes"
        then spec.storedSet d "likes" else spec.storedSet d "likes" ++ [.objectID u])) ∧
      (bson.Scalar.objectID u ∈ spec.storedSet d "likes" → d1 = d) := by
  unfold spec.storedSet
  cases hl : d.lookup "likes" with
  | none =>
    refine ⟨mongo.setField "likes" (.array [.objectID u]) d, ?_, ?_, ?_, ?_⟩
    · simp [mongo.applyUpdate, mongo.applyFields, mongo.applyOperator, hl]
    · exact mongo.lookup_setField_ne _ _ _ _ (by decide)
    · simp [mongo.lookup_setField_self]
    · simp
  | some v =>
    cases v with
    | scalar w => exact absurd hl (hlikes w)
    | array vs =>
      by_cases hin : bson.Scalar.objectID u ∈ vs
      · refine ⟨d, ?_, rfl, ?_, fun _ => rfl⟩
        · simp [mongo.applyUpdate, mongo.applyFields, mongo.applyOperator, hl, hin]
        · simp [hin, hl]
      · refine ⟨mongo.setField "likes" (.array (vs ++ [.objectID u])) d, ?_, ?_, ?_, ?_⟩
        · simp [mongo.applyUpdate, mongo.applyFields, mongo.applyOperator, hl, hin]
        · exact mongo.lookup_setField_ne _ _ _ _ (by decide)
        · simp [mongo.lookup_setField_self, hin]
        · intro h
          exact absurd h hin

/-- What `$pull` of an id on `likes` does to a record that does not hold the id. -/
theorem post.repository.pull_likes_absent (u : primitive.ObjectID) (d : bson.D)
    (hlikes : ∀ v, d.lookup "likes" ≠ some (.scalar v))
    (habsent : bson.Scalar.objectID u ∉ spec.storedSet d "likes") :
    mongo.applyUpdate [("$pull", .document [("likes", .scalar (.objectID u))])] d = some d := by
  unfold spec.storedSet at habsent
  cases hl : d.lookup "likes" with
  | none => simp [mongo.applyUpdate, mongo.applyFields, mongo.applyOperator, hl]
  | some v =>
    cases v with
    | scalar w => exact absurd hl (hlikes w)
    | array vs =>
      rw [hl] at habsent
      have hf : vs.filter (fun y => !decide (y = bson.Scalar.objectID u)) = vs := by
        apply List.filter_eq_self.mpr
        intro y hy
        simp only [Bool.not_eq_true', decide_eq_false_iff_not]
        intro e
        exact habsent (e ▸ hy)
      simp only [mongo.applyUpdate, mongo.applyFields, mongo.applyOperator, hl]
      simp [hf, mongo.setField_same _ _ _ hl]

theorem PostService.AddLike_ok (repository : post.Repository mongo.Collection)
    (fanID postID : String) (u p : primitive.ObjectID)
    (w : World mongo.Collection post.RepoCall) (c1 c2 : mongo.Collection) (found : post.Post)
    (hu : primitive.ObjectIDFromHex fanID = .ok u)
    (hp : primitive.ObjectIDFromHex postID = .ok p)
    (hr : repository.AddLike u p w.store = (none, c1))
    (hg : repository.GetByID p c1 = ((found, none), c2)) :
    PostService.AddLike repository fanID postID w
      = ((found, none), { store := c2, calls := w.calls ++ [.AddLike u p, .GetByID p] }) := by
  simp [PostService.AddLike, PostService.GetByID, hu, hp, repoCall, bind, StateT.bind, pure,
    StateT.pure, hr, hg]

theorem PostService.DeleteLike_ok (repository : post.Repository mongo.Collection)
    (fanID postID : String) (u p : primitive.ObjectID)
    (w : World mongo.Collection post.RepoCall) (c1 c2 : mongo.Collection) (found : post.Post)
    (hu : primitive.ObjectIDFromHex fanID = .ok u)
    (hp : primitive.ObjectIDFromHex postID = .ok p)
    (hr : repository.DeleteLike u p w.store = (none, c1))
    (hg : repository.GetByID p c1 = ((found, none), c2)) :
    PostService.DeleteLike repository fanID postID w
      = ((found, none), { store := c2, calls := w.calls ++ [.DeleteLike u p, .GetByID p] }) := by
  simp [PostService.DeleteLike, PostService.GetByID, hu, hp, repoCall, bind, StateT.bind, pure,
    StateT.pure, hr, hg]

/-- C25. Likes are idempotent set operations with no ownership check: for every store with
a record of the post `p` whose `likes`, as that of every record, is absent or an array, and
every user id `u`, whoever the author of `p` is, `AddLike(u, p)` of the repository succeeds,
applied a second time it succeeds again and leaves the store as the first application left
it, and the likes of `p` are then those it had with `u` added when it was not among them, so
that they hold `u`, and hold it exactly once when they held it at most once before;
`DeleteLike(u, p)` when `u` is not among the likes of `p` succeeds and leaves the store as it
is; and `PostService.AddLike` and `PostService.DeleteLike` over this repository, whose first
repository call is the like itself, succeed with the post they fetch afterwards. -/
theorem Likes_idempotent (coll : mongo.Collection) (u p : primitive.ObjectID)
    (hexists : ∃ d ∈ coll, mongo.holds (d.lookup "_id") (.objectID p) = true)
    (hlikes : ∀ d ∈ coll, ∀ v, d.lookup "likes" ≠ some (.scalar v)) :
    ∃ d c1 d1,
      coll.FindOne [("_id", .value (.scalar (.objectID p)))] = some d ∧
      post.repository.AddLike u p coll = (none, c1) ∧
      post.repository.AddLike u p c1 = (none, c1) ∧
      c1.FindOne [("_id", .value (.scalar (.objectID p)))] = some d1 ∧
      spec.storedSet d1 "likes"
        = (if bson.Scalar.objectID u ∈ spec.storedSet d "likes" then spec.storedSet d "likes"
            else spec.storedSet d "likes" ++ [.objectID u]) ∧
      bson.Scalar.objectID u ∈ spec.storedSet d1 "likes" ∧
      ((spec.storedSet d "likes").count (.objectID u) ≤ 1 →
        (spec.storedSet d1 "likes").count (.objectID u) = 1) ∧
      (bson.Scalar.objectID u ∉ spec.storedSet d "likes" →
        post.repository.DeleteLike u p coll = (none, coll)) ∧
      (∀ (repository : post.Repository mongo.Collection) (fanID postID : String)
        (calls : List post.RepoCall) (found : post.Post),
        repository.AddLike = post.repository.AddLike →
        primitive.ObjectIDFromHex fanID = .ok u → primitive.ObjectIDFromHex postID = .ok p →
        repository.GetByID p c1 = ((found, none), c1) →
        PostService.AddLike repository fanID postID { store := coll, calls := calls }
          = ((found, none),
              { store := c1, calls := calls ++ [.AddLike u p, .GetByID p] }) ∧
        PostService.AddLike repository fanID postID { store := c1, calls := calls }
          = ((found, none),
              { store := c1, calls := calls ++ [.AddLike u p, .GetByID p] })) ∧
      (∀ (repository : post.Repository mongo.Collection) (fanID postID : String)
        (calls : List post.RepoCall) (found : post.Post),
        repository.DeleteLike = post.repository.DeleteLike →
        primitive.ObjectIDFromHex fanID = .ok u → primitive.ObjectIDFromHex postID = .ok p →
        repository.GetByID p coll = ((found, none), coll) →
        bson.Scalar.objectID u ∉ spec.storedSet d "likes" →
        PostService.DeleteLike repository fanID postID { store := coll, calls := calls }
          = ((found, none),
              { store := coll, calls := calls ++ [.DeleteLike u p, .GetByID p] })) := by
  obtain ⟨front, d, back, hc, hpre, hd⟩ :=
    mongo.exists_first_match [("_id", .value (.scalar (.objectID p)))] coll (by
      obtain ⟨x, hx, hxm⟩ := hexists
      exact ⟨x, hx, by rw [mongo.isMatch_id]; exact hxm⟩)
  have hfe : mongo.filterError [("_id", .value (.scalar (.objectID p)))] = none := rfl
  have hdl : ∀ v, d.lookup "likes" ≠ some (.scalar v) :=
    hlikes d (by rw [hc]; simp)
  obtain ⟨d1, hu1, hid1, hl1, hsame⟩ := post.repository.addToSet_likes u d hdl
  have hd1 : mongo.isMatch [("_id", .value (.scalar (.objectID p)))] d1 = true := by
    rw [mongo.isMatch_id] at hd ⊢
    rw [hid1]
    exact hd
  have hset1 : spec.storedSet d1 "likes"
      = (if bson.Scalar.objectID u ∈ spec.storedSet d "likes" then spec.storedSet d "likes"
          else spec.storedSet d "likes" ++ [.objectID u]) := by
    conv_lhs => unfold spec.storedSet
    rw [hl1]
  have hmem1 : bson.Scalar.objectID u ∈ spec.storedSet d1 "likes" := by
    rw [hset1]
    split_ifs with h
    · exact h
    · simp
  have hd1l : ∀ v, d1.lookup "likes" ≠ some (.scalar v) := by
    intro v
    rw [hl1]
    simp
  obtain ⟨d2, hu2, -, -, hsame2⟩ := post.repository.addToSet_likes u d1 hd1l
  rw [hsame2 hmem1] at hu2
  have hfirst : post.repository.AddLike u p coll = (none, front ++ d1 :: back) := by
    unfold post.repository.AddLike mongo.Collection.FindOneAndUpdate
    simp only [hfe]
    rw [hc, mongo.updateFirst_split _ _ front back d d1 hpre hd hu1]
  have hsecond : post.repository.AddLike u p (front ++ d1 :: back)
      = (none, front ++ d1 :: back) := by
    unfold post.repository.AddLike mongo.Collection.FindOneAndUpdate
    simp only [hfe]
    rw [mongo.updateFirst_split _ _ front back d1 d1 hpre hd1 hu2]
  have hdel : bson.Scalar.objectID u ∉ spec.storedSet d "likes" →
      post.repository.DeleteLike u p coll = (none, coll) := by
    intro habsent
    have hpull := post.repository.pull_likes_absent u d hdl habsent
    unfold post.repository.DeleteLike mongo.Collection.FindOneAndUpdate
    simp only [hfe]
    rw [hc, mongo.updateFirst_split _ _ front back d d hpre hd hpull]
  refine ⟨d, front ++ d1 :: back, d1, ?_, hfirst, hsecond, ?_, hset1, hmem1, ?_, hdel, ?_, ?_⟩
  · rw [hc]
    exact mongo.FindOne_split _ front back d hfe hpre hd
  · exact mongo.FindOne_split _ front back d1 hfe hpre hd1
  · intro hcount
    rw [hset1]
    split_ifs with h
    · have := List.count_pos_iff.mpr h
      omega
    · rw [List.count_append, List.count_eq_zero_of_not_mem h]
      simp
  · intro repository fanID postID calls found hr hu hp hg
    constructor
    · exact PostService.AddLike_ok repository fanID postID u p { store := coll, calls := calls }
        _ _ found hu hp (by rw [hr]; exact hfirst) hg
    · exact PostService.AddLike_ok repository fanID postID u p
        { store := front ++ d1 :: back, calls := calls } _ _ found hu hp
        (by rw [hr]; exact hsecond) hg
  · intro repository fanID postID calls found hr hu hp hg habsent
    exact PostService.DeleteLike_ok repository fanID postID u p
      { store := coll, calls := calls } _ _ found hu hp (by rw [hr]; exact hdel habsent) hg

/-- Witness of C25: the user B likes the post A of the user A twice. -/
theorem Likes_idempotent_witness :
    ∃ c1, post.repository.AddLike sample.idB sample.idA [sample.postRecord] = (none, c1) ∧
      post.repository.AddLike sample.idB sample.idA c1 = (none, c1) := by
  obtain ⟨_, c1, _, -, h1, h2, -⟩ := Likes_idempotent [sample.postRecord] sample.idB sample.idA
    ⟨sample.postRecord, by simp, by decide⟩
    (by
      intro d hd v
      rw [List.mem_singleton.mp hd]
      simp [sample.postRecord, List.lookup])
  exact ⟨c1, h1, h2⟩

/-! ## Properties of the post ownership check -/

/-- Counterexample to C27 as stated: the Client B updates the record of A, the service
answers `ErrorUnauthorized` and `UpdateHandler` writes 404, not a 401-class status; a follow
that fails in the repository with `ErrorInternalServerError` makes `FollowToHandler` write
400, not a 5xx status; and a delete of the malformed id `123`, for which the service answers
`ErrInvalidID`, makes `DeleteHandler` write 404, not a 400-class status. -/
theorem handlers_status_outside_taxonomy :
    (UserService.Update (sample.userRepository ({}, none) none) "0102030405060708090a0b0c"
        sample.idB.Hex user.Client {} sample.start).1
      = ({}, some .response_ErrorUnauthorized) ∧
    handler.UpdateHandler (.ok {})
        (sample.identified sample.idB user.Client "0102030405060708090a0b0c") false
        (fun id cu role u =>
          (UserService.Update (sample.userRepository ({}, none) none) id cu role u
            sample.start).1)
      = .httpError 404 "Unauthorized" ∧
    (UserService.FollowTo
        (sample.userRepository ({}, none) (some .response_ErrorInternalServerError))
        "0102030405060708090a0b0c" sample.idB.Hex sample.start).1
      = ({}, some .response_ErrorInternalServerError) ∧
    handler.FollowToHandler
        (sample.identified sample.idB user.Client "0102030405060708090a0b0c") false
        (fun followingID followerID =>
          (UserService.FollowTo
            (sample.userRepository ({}, none) (some .response_ErrorInternalServerError))
            followingID followerID sample.start).1)
      = .httpError 400 "Interal server error" ∧
    (UserService.Delete (sample.userRepository ({}, none) none) user.Admin "123"
        sample.start).1
      = some .response_ErrInvalidID ∧
    handler.DeleteHandler (sample.identified sample.idB user.Admin "123") false
        (fun role id =>
          (UserService.Delete (sample.userRepository ({}, none) none) role id sample.start).1)
      = .httpError 404 "invalid id" := by
  refine ⟨?_, ?_, ?_, ?_, ?_, ?_⟩ <;> decide

/-- C27, amended. Failure statuses of the user handlers: when the body is decoded, the
context carries the id and the role the handler reads and the request context is not done,
`LoginHandler` writes 400 for `ErrorBadEmailOrPassword`, 404 for `ErrorNotFound`, 500 for any
other error of the service and 200 on success; `UpdateHandler` and `DeleteHandler` write 404
with the message of the error for every error of the service, and `FollowToHandler` writes
400 with the message of `ErrorInternalServerError` for every error of the service. -/
theorem handlers_status (u : user.User) (r : Request) :
    (∀ (LoginUser : user.User → user.User × String × Option GoError),
      ((LoginUser u).2.2 = some .response_ErrorBadEmailOrPassword →
        handler.LoginHandler (.ok u) false LoginUser
          = .httpError 400 GoError.response_ErrorBadEmailOrPassword.Error) ∧
      ((LoginUser u).2.2 = some .response_ErrorNotFound →
        handler.LoginHandler (.ok u) false LoginUser
          = .httpError 404 GoError.response_ErrorNotFound.Error) ∧
      (∀ err, (LoginUser u).2.2 = some err → err ≠ .response_ErrorBadEmailOrPassword →
        err ≠ .response_ErrorNotFound →
        handler.LoginHandler (.ok u) false LoginUser = .httpError 500 err.Error) ∧
      ((LoginUser u).2.2 = none →
        handler.LoginHandler (.ok u) false LoginUser
          = .json 200 (some (LoginUser u).2.1) (some (LoginUser u).1))) ∧
    (∀ (Update : String → String → user.Role → user.User → user.User × Option GoError)
      (cu : String) (role : user.Role) (err : GoError),
      auth.GetID r = .ok cu → auth.GetRole r = .ok role →
      (Update r.urlID cu role u).2 = some err →
      handler.UpdateHandler (.ok u) r false Update = .httpError 404 err.Error) ∧
    (∀ (FollowTo : String → String → user.User × Option GoError) (followerID : String)
      (err : GoError),
      auth.GetID r = .ok followerID → (FollowTo r.urlID followerID).2 = some err →
      handler.FollowToHandler r false FollowTo
        = .httpError 400 GoError.response_ErrorInternalServerError.Error) ∧
    (∀ (Delete : user.Role → String → Option GoError) (role : user.Role) (err : GoError),
      auth.GetRole r = .ok role → Delete role r.urlID = some err →
      handler.DeleteHandler r false Delete = .httpError 404 err.Error) := by
  refine ⟨?_, ?_, ?_, ?_⟩
  · intro LoginUser
    rcases h : LoginUser u with ⟨su, tok, e⟩
    refine ⟨?_, ?_, ?_, ?_⟩
    · intro he
      simp only at he
      subst he
      simp [handler.LoginHandler, h, http.StatusBadRequest]
    · intro he
      simp only at he
      subst he
      simp [handler.LoginHandler, h, http.StatusNotFound]
    · intro err he h1 h2
      simp only at he
      subst he
      simp [handler.LoginHandler, h, h1, h2, http.StatusInternalServerError]
    · intro he
      simp only at he
      subst he
      simp [handler.LoginHandler, h, http.StatusOK]
  · intro Update cu role err hid hrole he
    rcases h : Update r.urlID cu role u with ⟨uu, e⟩
    rw [h] at he
    simp only at he
    subst he
    simp [handler.UpdateHandler, hid, hrole, h, http.StatusNotFound]
  · intro FollowTo followerID err hid he
    rcases h : FollowTo r.urlID followerID with ⟨uu, e⟩
    rw [h] at he
    simp only at he
    subst he
    simp [handler.FollowToHandler, hid, h, http.StatusBadRequest]
  · intro Delete role err hrole he
    simp [handler.DeleteHandler, hrole, he, http.StatusNotFound]

/-- C28. Pagination query parsing: for every pair of query strings, `GetPagination` returns
`ok = false` exactly when both are empty, and then page 0 and limit 0; otherwise `ok = true`,
the limit is the integer `strconv.Atoi` reads in the limit string, or 10 when it reads none,
and the page is the integer it reads in the page string, or 1 when it reads none. So the
strings `5` and `2` give limit 5 and page 2, an absent limit with the page `3` gives limit 10,
and a limit that is not a number, or does not fit an `int`, gives limit 10. -/
theorem GetPagination_parsing (limitStr pageStr : String) :
    ((pagination.GetPagination limitStr pageStr).2.2 = false
      ↔ limitStr = "" ∧ pageStr = "") ∧
    (limitStr = "" ∧ pageStr = "" → pagination.GetPagination limitStr pageStr = (0, 0, false)) ∧
    (¬ (limitStr = "" ∧ pageStr = "") →
      (pagination.GetPagination limitStr pageStr).2.2 = true ∧
      (∀ limit, strconv.Atoi limitStr = .ok limit →
        (pagination.GetPagination limitStr pageStr).2.1 = limit) ∧
      ((∃ err, strconv.Atoi limitStr = .error err) →
        (pagination.GetPagination limitStr pageStr).2.1 = 10) ∧
      (∀ page, strconv.Atoi pageStr = .ok page →
        (pagination.GetPagination limitStr pageStr).1 = page) ∧
      ((∃ err, strconv.Atoi pageStr = .error err) →
        (pagination.GetPagination limitStr pageStr).1 = 1)) ∧
    pagination.GetPagination "5" "2" = (2, 5, true) ∧
    pagination.GetPagination "" "3" = (3, 10, true) ∧
    pagination.GetPagination "abc" "" = (1, 10, true) ∧
    pagination.GetPagination "-4" "+7" = (7, -4, true) ∧
    pagination.GetPagination "9223372036854775808" "1" = (1, 10, true) := by
  refine ⟨?_, ?_, ?_, by decide, by decide, by decide, by decide, by decide⟩
  · by_cases h : limitStr = "" ∧ pageStr = ""
    · simp [pagination.GetPagination, h]
    · simp [pagination.GetPagination, h]
  · intro h
    simp [pagination.GetPagination, h]
  · intro h
    refine ⟨?_, ?_, ?_, ?_, ?_⟩
    · simp [pagination.GetPagination, h]
    · intro limit hl
      simp [pagination.GetPagination, h, hl]
    · rintro ⟨err, hl⟩
      simp [pagination.GetPagination, h, hl]
    · intro page hp
      simp [pagination.GetPagination, h, hp]
    · rintro ⟨err, hp⟩
      simp [pagination.GetPagination, h, hp]

/-! ## Properties of login failures -/

/-- C29. No token leaks on a failed login: whenever `LoginUser` returns an error, the token
it returns is empty and the user it returns is the zero-value user. -/
theorem LoginUser_error_no_token {σ : Type} (repository : user.Repository σ)
    (hash : bcrypt.Library) (lib : jwt.Library) (signingString : String) (now : Int)
    (u : user.User) (w : World σ user.RepoCall)
    (herr : (UserService.LoginUser repository hash lib signingString now u w).1.2.2 ≠ none) :
    (UserService.LoginUser repository hash lib signingString now u w).1.2.1 = "" ∧
    (UserService.LoginUser repository hash lib signingString now u w).1.1 = {} := by
  cases hv : u.ValidateEmail with
  | false =>
    have h : UserService.LoginUser repository hash lib signingString now u w
        = (({}, "", some .response_ErrorBadEmailOrPassword), w) := by
      simp [UserService.LoginUser, hv]
      rfl
    rw [h]
    exact ⟨rfl, rfl⟩
  | true =>
    rw [UserService.LoginUser_lookup repository hash lib signingString now u w hv] at herr ⊢
    rcases hr : (repository.GetByEmail u.Email w.store).1 with ⟨matchUser, err⟩
    rw [hr] at herr
    cases err with
    | some e => exact ⟨rfl, rfl⟩
    | none =>
      simp only at herr ⊢
      cases hg : claim.GenerateToken lib now signingString matchUser.ID.Hex matchUser.Role.val with
      | error e => exact ⟨rfl, rfl⟩
      | ok tok =>
        rw [hg] at herr
        simp only at herr ⊢
        by_cases hc : matchUser.ComparePassword hash u.Password = true
        · simp [hc] at herr
        · simp [hc]

/-- Witness of C29: the login of the user with a malformed email of the service tests. -/
theorem LoginUser_error_no_token_witness :
    (UserService.LoginUser (sample.userRepository ({}, none) none) sample.plainHash
        (jwt.Library.fixed sample.payload) "secret" 0 sample.userWithIncorrectEmail
        sample.start).1.2.1 = "" ∧
    (UserService.LoginUser (sample.userRepository ({}, none) none) sample.plainHash
        (jwt.Library.fixed sample.payload) "secret" 0 sample.userWithIncorrectEmail
        sample.start).1.1 = {} :=
  LoginUser_error_no_token _ _ _ _ _ _ _ (by
    have hv : sample.userWithIncorrectEmail.ValidateEmail = false :=
      user.User.ValidateEmail_of_no_at _ (by decide)
    simp [UserService.LoginUser, hv, pure, StateT.pure])

/-! ## Properties of the partition into pages -/

/-- The bounds do not change when the limit is clamped to the total beforehand. -/
theorem UserService.paginationBounds_clamped (n page limit : Int) (hn : 0 ≤ n) :
    UserService.paginationBounds n page limit
      = UserService.paginationBounds n page (min limit n) := by
  unfold UserService.paginationBounds
  by_cases h3 : limit > n
  · have h5 : min limit n = n := by omega
    rw [h5]
    by_cases h1 : limit < 0
    · omega
    · simp [h1, h3, show ¬ n < 0 by omega]
  · have h5 : min limit n = limit := by omega
    rw [h5]

/-- Page `i + 1` under the clamped limit `l`: the `l` elements after the first `i * l`. -/
theorem UserService.WithPagination_page {α : Type} (xs : List α) (i : Nat) (limit : Int)
    (hlimit : 0 ≤ limit) (hlen : xs.length < 2 ^ 62)
    (hmul : (i : Int) * min limit xs.length < 2 ^ 63) (hi : (i : Int) + 1 < 2 ^ 63) :
    UserService.WithPagination xs ((i : Int) + 1) limit
      = some ((xs.drop (i * min limit.toNat xs.length)).take (min limit.toNat xs.length),
          (xs.length : Int)) := by
  have hn : (0 : Int) ≤ (xs.length : Int) := Int.ofNat_nonneg _
  have hl : ((min limit.toNat xs.length : Nat) : Int) = min limit xs.length := by
    omega
  have hsame : UserService.WithPagination xs ((i : Int) + 1) limit
      = UserService.WithPagination xs ((i : Int) + 1) (min limit xs.length) := by
    unfold UserService.WithPagination
    simp only [UserService.paginationBounds_clamped (xs.length : Int) _ limit hn]
  rw [hsame, UserService.WithPagination_of_pos xs ((i : Int) + 1) (min limit xs.length)
    (by omega) hi (by omega) (by simpa using hmul) hlen]
  simp only [add_sub_cancel_right, ← hl]
  generalize min limit.toNat xs.length = l
  have e1 : (min ((i : Int) * (l : Int)) (xs.length : Int)).toNat = min (i * l) xs.length := by
    have : ((i * l : Nat) : Int) = (i : Int) * (l : Int) := by push_cast; ring
    rw [← this]
    generalize i * l = a
    omega
  have e2 : (min ((i : Int) * (l : Int) + l) (xs.length : Int)).toNat
      = min (i * l + l) xs.length := by
    have : ((i * l : Nat) : Int) = (i : Int) * (l : Int) := by push_cast; ring
    rw [← this]
    generalize i * l = a
    omega
  rw [e1, e2]
  congr 1
  unfold sliceElems
  generalize i * l = a
  by_cases ha : a ≤ xs.length
  · rw [Nat.min_eq_left ha]
    by_cases hb : a + l ≤ xs.length
    · rw [Nat.min_eq_left hb, Nat.add_sub_cancel_left]
    · rw [Nat.min_eq_right (by omega)]
      rw [List.take_of_length_le (by simp), List.take_of_length_le (by simp; omega)]
  · rw [Nat.min_eq_right (by omega), Nat.min_eq_right (by omega)]
    simp [List.drop_of_length_le (show xs.length ≤ a by omega)]

/-- The first `j` chunks of `l` elements of a list are its first `j * l` elements. -/
theorem List.flatMap_chunks {α : Type} (xs : List α) (l j : Nat) :
    (List.range j).flatMap (fun i => (xs.drop (i * l)).take l) = xs.take (j * l) := by
  induction j with
  | zero => simp
  | succ j ih =>
    rw [List.range_succ, List.flatMap_append, ih]
    simp only [List.flatMap_cons, List.flatMap_nil, List.append_nil]
    rw [Nat.succ_mul, List.take_add]

theorem spec.le_pageCount_mul (n L : Nat) (hL : 1 ≤ L) :
    n ≤ spec.pageCount n L * min L n := by
  unfold spec.pageCount
  by_cases h0 : n = 0
  · simp [h0]
  · simp only [h0, if_false]
    have hl : 0 < min L n := by omega
    generalize min L n = l at *
    have h1 := Nat.div_add_mod (n + l - 1) l
    have h2 := Nat.mod_lt (n + l - 1) hl
    rw [Nat.mul_comm]
    generalize l * ((n + l - 1) / l) = m at *
    omega

theorem spec.pageCount_mul_lt (n L i : Nat) (hL : 1 ≤ L) (hi : i < spec.pageCount n L) :
    i * min L n < n := by
  unfold spec.pageCount at hi
  by_cases h0 : n = 0
  · simp [h0] at hi
  · simp only [h0, if_false] at hi
    have hl : 0 < min L n := by omega
    generalize min L n = l at *
    have h3 : (i + 1) * l ≤ ((n + l - 1) / l) * l := Nat.mul_le_mul_right l hi
    have h5 : ((n + l - 1) / l) * l ≤ n + l - 1 := Nat.div_mul_le_self _ _
    have h4 : (i + 1) * l = i * l + l := Nat.succ_mul i l
    have h6 : i * l + l ≤ n + l - 1 := h4 ▸ le_trans h3 h5
    generalize i * l = s at *
    omega

theorem UserService.WithPagination_any_page {α : Type} (xs : List α) (p L : Int)
    (hL : 1 ≤ L) (hlen : xs.length < 2 ^ 62) (hp : 1 ≤ p) (hp2 : p < 2 ^ 63)
    (hmul : (p - 1) * min L xs.length < 2 ^ 63) :
    UserService.WithPagination xs p L
      = some ((xs.drop ((p - 1).toNat * min L.toNat xs.length)).take (min L.toNat xs.length),
          (xs.length : Int)) := by
  have hi : (((p - 1).toNat : Nat) : Int) = p - 1 := by omega
  have h := UserService.WithPagination_page xs (p - 1).toNat L (by omega) hlen
    (by rw [hi]; exact hmul) (by omega)
  rw [hi] at h
  simpa using h

/-- C30. Pages partition the list: for every list `xs` of length `n` (below 2^62, as every
slice of the program is) and every limit `L >= 1`, the calls of `WithPagination` of either
service for the pages `p = 1, 2, ..., ceil(n / min(L, n))` (no pages when `n = 0`) all return,
and concatenating the sub-lists they return yields exactly `xs`; every call for a page
`p >= 1` with `(p - 1) * min(L, n)` below 2^63 returns a sub-list of at most `L` elements and
`total = n`; and every later page `p` with `(p - 1) * min(L, n)` below 2^63 is empty. -/
theorem WithPagination_partition {α : Type} (xs : List α) (L : Int) (hL : 1 ≤ L)
    (hlen : xs.length < 2 ^ 62) :
    (∀ i, i < spec.pageCount xs.length L.toNat →
      (UserService.WithPagination xs ((i : Int) + 1) L).isSome = true ∧
      (PostService.WithPagination xs ((i : Int) + 1) L).isSome = true) ∧
    (List.range (spec.pageCount xs.length L.toNat)).flatMap
      (fun i => ((UserService.WithPagination xs ((i : Int) + 1) L).map Prod.fst).getD []) = xs ∧
    (List.range (spec.pageCount xs.length L.toNat)).flatMap
      (fun i => ((PostService.WithPagination xs ((i : Int) + 1) L).map Prod.fst).getD []) = xs ∧
    (∀ p : Int, 1 ≤ p → p < 2 ^ 63 → (p - 1) * min L xs.length < 2 ^ 63 →
      ∃ page, UserService.WithPagination xs p L = some (page, (xs.length : Int)) ∧
        PostService.WithPagination xs p L = some (page, (xs.length : Int)) ∧
        (page.length : Int) ≤ L) ∧
    (∀ p : Int, (spec.pageCount xs.length L.toNat : Int) < p → p < 2 ^ 63 →
      (p - 1) * min L xs.length < 2 ^ 63 →
      UserService.WithPagination xs p L = some ([], (xs.length : Int)) ∧
      PostService.WithPagination xs p L = some ([], (xs.length : Int))) := by
  have hLn : 1 ≤ L.toNat := by omega
  have hcast : ((min L.toNat xs.length : Nat) : Int) = min L xs.length := by omega
  have hpage : ∀ i, i < spec.pageCount xs.length L.toNat →
      UserService.WithPagination xs ((i : Int) + 1) L
        = some ((xs.drop (i * min L.toNat xs.length)).take (min L.toNat xs.length),
            (xs.length : Int)) := by
    intro i hi
    have hlt := spec.pageCount_mul_lt xs.length L.toNat i hLn hi
    have hlt2 : ((i * min L.toNat xs.length : Nat) : Int) < xs.length := by exact_mod_cast hlt
    have hmul : (i : Int) * min L xs.length < 2 ^ 63 := by
      rw [← hcast]
      have : ((i * min L.toNat xs.length : Nat) : Int) = (i : Int) * (min L.toNat xs.length : Nat) := by
        push_cast; ring
      rw [← this]
      omega
    have hi2 : (i : Int) + 1 < 2 ^ 63 := by
      have h1 : i ≤ i * min L.toNat xs.length :=
        Nat.le_mul_of_pos_right i (by omega)
      omega
    exact UserService.WithPagination_page xs i L (by omega) hlen hmul hi2
  have hconcat : (List.range (spec.pageCount xs.length L.toNat)).flatMap
      (fun i => ((UserService.WithPagination xs ((i : Int) + 1) L).map Prod.fst).getD []) = xs := by
    have hfun : (List.range (spec.pageCount xs.length L.toNat)).flatMap
        (fun i => ((UserService.WithPagination xs ((i : Int) + 1) L).map Prod.fst).getD [])
        = (List.range (spec.pageCount xs.length L.toNat)).flatMap
          (fun i => (xs.drop (i * min L.toNat xs.length)).take (min L.toNat xs.length)) := by
      apply List.flatMap_congr
      intro i hi
      rw [hpage i (List.mem_range.mp hi)]
      rfl
    rw [hfun, List.flatMap_chunks]
    exact List.take_of_length_le (spec.le_pageCount_mul xs.length L.toNat hLn)
  have hany : ∀ p : Int, 1 ≤ p → p < 2 ^ 63 → (p - 1) * min L xs.length < 2 ^ 63 →
      ∃ page, UserService.WithPagination xs p L = some (page, (xs.length : Int)) ∧
        PostService.WithPagination xs p L = some (page, (xs.length : Int)) ∧
        (page.length : Int) ≤ L := by
    intro p hp hp2 hmul
    have h := UserService.WithPagination_any_page xs p L hL hlen hp hp2 hmul
    refine ⟨_, h, ?_, ?_⟩
    · rw [PostService.WithPagination_eq]
      exact h
    · have : ((xs.drop ((p - 1).toNat * min L.toNat xs.length)).take
          (min L.toNat xs.length)).length ≤ min L.toNat xs.length := List.length_take_le _ _
      omega
  refine ⟨?_, hconcat, ?_, hany, ?_⟩
  · intro i hi
    rw [PostService.WithPagination_eq, hpage i hi]
    simp
  · simp only [PostService.WithPagination_eq]
    exact hconcat
  · intro p hk hp2 hmul
    have h := UserService.WithPagination_any_page xs p L hL hlen (by omega) hp2 hmul
    have hge : xs.length ≤ (p - 1).toNat * min L.toNat xs.length := by
      have h1 := spec.le_pageCount_mul xs.length L.toNat hLn
      have h2 : spec.pageCount xs.length L.toNat ≤ (p - 1).toNat := by omega
      exact le_trans h1 (Nat.mul_le_mul_right _ h2)
    rw [List.drop_of_length_le hge] at h
    rw [PostService.WithPagination_eq]
    simpa using h

/-- Witness of C30: the three pages of two elements of a list of five. -/
theorem WithPagination_partition_witness :
    (List.range (spec.pageCount 5 2)).flatMap
      (fun i => ((UserService.WithPagination [10, 20, 30, 40, 50] ((i : Int) + 1) 2).map
        Prod.fst).getD []) = [10, 20, 30, 40, 50] ∧
    UserService.WithPagination [10, 20, 30, 40, 50] 4 2 = some ([], 5) :=
  ⟨(WithPagination_partition [10, 20, 30, 40, 50] 2 (by decide) (by decide)).2.1,
    ((WithPagination_partition [10, 20, 30, 40, 50] 2 (by decide) (by decide)).2.2.2.2
      4 (by decide) (by decide) (by decide)).1⟩

/-- Counterexample to C30 as stated: on a list of five elements with limit 3 there are two
pages, yet page 6148914691236517207 is not empty (the product `(page - 1) * 3` is 2^64 + 2,
which wraps around to the start 2), and the call for page 4611686018427387905 does not return
at all (the start wraps around to -2^62 and the slicing is out of range). -/
theorem WithPagination_later_page_not_empty :
    spec.pageCount 5 3 = 2 ∧
    UserService.WithPagination [10, 20, 30, 40, 50] 6148914691236517207 3
      = some ([30, 40, 50], 5) ∧
    PostService.WithPagination [10, 20, 30, 40, 50] 6148914691236517207 3
      = some ([30, 40, 50], 5) ∧
    UserService.WithPagination [10, 20, 30, 40, 50] 4611686018427387905 3 = none ∧
    PostService.WithPagination [10, 20, 30, 40, 50] 4611686018427387905 3 = none := by
  refine ⟨by decide, ?_, ?_, ?_, ?_⟩ <;> rfl
